import Mathlib

/-!
# ktreport: a verification development

A shallow embedding of `ktreport.go` (a renderer of Kotlin test reports) and
theorems about it.

Conventions of the embedding.

* A Go `string` is a Lean `String`.  Every string of a report comes out of
  `json.Unmarshal`, which yields valid UTF-8, so a sequence of Unicode scalar
  values describes it exactly; byte-wise comparison of valid UTF-8 coincides
  with code-point-wise comparison.
* Standard output is the `String` of everything printed, in order.  A function
  that prints returns the text it prints.
* A Go `int` is an `Int`; where the code can overflow (`displaySummary`) the
  result is wrapped to 64 bits explicitly.
* A Go `float64` is the type `F64` below: exact dyadic values with IEEE-754
  round-to-nearest-even, infinities and NaN.
* `for ... range` loops are left folds over the list, with the loop variables
  as the fold state.
* What lies outside the program is a parameter: `sort.Slice` is any sorter that
  meets its documented contract (`SliceSorter`), and `os.ReadFile`,
  `json.Unmarshal` and the parsed flag are arguments of `ktreport.main`.
-/

set_option maxRecDepth 20000

namespace unicode

/-- Go `unicode.IsSpace`: the Unicode White_Space property. -/
def IsSpace (c : Char) : Bool :=
  c = '\t' || c = '\n' || c.toNat = 0x0B || c.toNat = 0x0C || c = '\r' || c = ' ' ||
  c.toNat = 0x85 || c.toNat = 0xA0 || c.toNat = 0x1680 ||
  (0x2000 ≤ c.toNat && c.toNat ≤ 0x200A) ||
  c.toNat = 0x2028 || c.toNat = 0x2029 || c.toNat = 0x202F || c.toNat = 0x205F ||
  c.toNat = 0x3000

end unicode

namespace strings

/-- Go `strings.TrimLeftFunc(s, unicode.IsSpace)`: drop the leading white space only.  The
program does not call it; it states what "after removing the leading white space" means. -/
def TrimLeftSpace (s : String) : String :=
  ⟨s.data.dropWhile unicode.IsSpace⟩

/-- Go `strings.TrimSpace`: drop the leading and the trailing white space. -/
def TrimSpace (s : String) : String :=
  ⟨((s.data.dropWhile unicode.IsSpace).reverse.dropWhile unicode.IsSpace).reverse⟩

/-- Go `strings.HasPrefix s p`. -/
def HasPrefix (s p : String) : Bool :=
  p.data.isPrefixOf s.data

/-- Go `strings.TrimRight s cutset`: drop the trailing characters that occur in `cutset`. -/
def TrimRight (s cutset : String) : String :=
  ⟨(s.data.reverse.dropWhile (fun c => cutset.data.contains c)).reverse⟩

/-- Splitting of a character list at every line feed; the pieces of `"a\nb"` are `a` and `b`,
and the empty list has the single piece `[]`. -/
def splitChars : List Char → List (List Char)
  | [] => [[]]
  | c :: cs =>
    if c = '\n' then [] :: splitChars cs
    else
      match splitChars cs with
      | [] => [[c]]
      | l :: ls => (c :: l) :: ls

/-- Go `strings.Split(s, "\n")`. -/
def SplitLines (s : String) : List String :=
  (splitChars s.data).map String.mk

/-- Go `a < b` on strings: lexicographic order of the bytes, which for valid UTF-8 is the
lexicographic order of the code points. -/
def Less (a b : String) : Bool :=
  decide (a.toList < b.toList)

end strings

/-! ## float64 -/

/-- A `float64` as used by the program: a finite value `m * 2 ^ e`, an infinity, or NaN.
No operation of the program produces a negative zero. -/
inductive F64 where
  | fin (m : Int) (e : Int)
  | inf (neg : Bool)
  | nan
  deriving DecidableEq, Repr

namespace F64

/-- Auxiliary for `bitLen`. -/
def bitLenAux : Nat → Nat → Nat
  | 0, _ => 0
  | fuel + 1, n => if n = 0 then 0 else bitLenAux fuel (n / 2) + 1

/-- Number of binary digits of `n`: `2 ^ (bitLen n - 1) ≤ n < 2 ^ bitLen n` for `0 < n`. -/
def bitLen (n : Nat) : Nat := bitLenAux n n

/-- The fraction `n / (d * 2 ^ e)` as a pair numerator, denominator. -/
def scale (n d : Nat) (e : Int) : Nat × Nat :=
  if 0 ≤ e then (n, d * 2 ^ e.toNat) else (n * 2 ^ (-e).toNat, d)

/-- Round the rational `± n / d` (with `0 < d`) to the nearest `float64`, ties to even:
the exponent `e` is chosen so that the quotient has 53 bits (or `e = -1074` for
subnormals), and a result of magnitude `2 ^ 1024` or more is an infinity. -/
def ofRatio (neg : Bool) (n d : Nat) : F64 :=
  if n = 0 then fin 0 0
  else
    let e0 : Int := (bitLen n : Int) - (bitLen d : Int) - 53
    let e1 : Int := if (scale n d e0).1 / (scale n d e0).2 < 2 ^ 53 then e0 else e0 + 1
    let e : Int := max e1 (-1074)
    let q := (scale n d e).1 / (scale n d e).2
    let r := (scale n d e).1 % (scale n d e).2
    let m := if (scale n d e).2 < 2 * r ∨ (2 * r = (scale n d e).2 ∧ q % 2 = 1) then q + 1 else q
    if 972 ≤ e ∨ (e = 971 ∧ 2 ^ 53 ≤ m) then inf neg
    else fin (if neg then -(m : Int) else (m : Int)) e

/-- Go conversion `float64(i)` of an integer. -/
def ofInt (i : Int) : F64 := ofRatio (decide (i < 0)) i.natAbs 1

/-- Go `x / k` for a `float64` `x` and a positive integer constant `k` that is exactly
representable (the program divides by `1000.0` only). -/
def divNat (x : F64) (k : Nat) : F64 :=
  match x with
  | fin m e => ofRatio (decide (m < 0)) (scale m.natAbs k (-e)).1 (scale m.natAbs k (-e)).2
  | inf neg => inf neg
  | nan => nan

/-- Go `x + y` on `float64`. -/
def add (x y : F64) : F64 :=
  match x, y with
  | fin m1 e1, fin m2 e2 =>
    let e := min e1 e2
    let s : Int := m1 * 2 ^ (e1 - e).toNat + m2 * 2 ^ (e2 - e).toNat
    ofRatio (decide (s < 0)) (scale s.natAbs 1 (-e)).1 (scale s.natAbs 1 (-e)).2
  | fin _ _, inf neg => inf neg
  | inf neg, fin _ _ => inf neg
  | inf n1, inf n2 => if n1 = n2 then inf n1 else nan
  | _, _ => nan

/-- Three decimal digits of `n < 1000`, zero padded. -/
def pad3 (n : Nat) : String :=
  toString (n / 100 % 10) ++ toString (n / 10 % 10) ++ toString (n % 10)

/-- Go `fmt.Sprintf("%.3f", x)`: the exact value rounded to three decimals, ties to even. -/
def fmt3 (x : F64) : String :=
  match x with
  | fin m e =>
    let n := (scale (m.natAbs * 1000) 1 (-e)).1
    let d := (scale (m.natAbs * 1000) 1 (-e)).2
    let q := n / d
    let r := n % d
    let t := if d < 2 * r ∨ (2 * r = d ∧ q % 2 = 1) then q + 1 else q
    (if m < 0 then "-" else "") ++ toString (t / 1000) ++ "." ++ pad3 (t % 1000)
  | inf false => "+Inf"
  | inf true => "-Inf"
  | nan => "NaN"

end F64

/-- Go `float64(ms) / 1000.0`. -/
def secondsOfMs (ms : Int) : F64 := (F64.ofInt ms).divNat 1000

/-! ## Data model -/

/-- KtTestIdentifier: the identifier of a test. -/
structure KtTestIdentifier where
  DisplayName : String
  Type_ : String
  Tags : List String
  TestSourceName : String
  TestSourceFull : String
  deriving DecidableEq, Repr

/-- KtTestResult: one test result. -/
structure KtTestResult where
  Identifier : KtTestIdentifier
  UniqueId : String
  SpecId : String
  Status : String
  StartTime : Int
  EndTime : Int
  DurationMs : Int
  Stdout : String
  Stderr : String
  Throwable : String
  deriving DecidableEq, Repr

/-- KtTestReport: the decoded JSON report. -/
structure KtTestReport where
  TestResults : List KtTestResult
  TotalTests : Int
  Passed : Int
  Failed : Int
  Skipped : Int
  StartTime : Int
  EndTime : Int
  TotalDurationMs : Int
  deriving DecidableEq, Repr

/-- SpecResult: the aggregate of one specId; `Results` holds "." or "F". -/
structure SpecResult where
  SpecId : String
  TestCount : Int
  PassCount : Int
  FailCount : Int
  Time : F64
  Results : List String
  deriving DecidableEq, Repr

/-- ANSI colour code. -/
def colorReset : String := "\x1b[0m"
/-- ANSI colour code. -/
def colorRed : String := "\x1b[31m"
/-- ANSI colour code. -/
def colorGreen : String := "\x1b[32m"
/-- ANSI colour code. -/
def colorBold : String := "\x1b[1m"

/-- The test of lines 151 and 208: `result.Status == "FAILED" || result.Throwable != ""`. -/
def isFailed (result : KtTestResult) : Bool :=
  result.Status == "FAILED" || result.Throwable != ""

/-- getFailedResults: the loop appends every failed result to `failedResults`. -/
def getFailedResults (testResults : List KtTestResult) : List KtTestResult :=
  testResults.foldl
    (fun failedResults result =>
      if result.Status == "FAILED" || result.Throwable != "" then failedResults ++ [result]
      else failedResults)
    []


/-! ## Sorting -/

/-- The contract of Go `sort.Slice` (package `sort` is not part of the repository): for a
comparator `less` the result is a permutation of the slice, and when `less` is a strict
weak ordering the result has no inversion.  Nothing is promised about the relative order
of elements that compare equal. -/
structure SliceSorter where
  /-- The reordering performed by `sort.Slice(x, less)`. -/
  sort : {α : Type} → (α → α → Bool) → List α → List α
  /-- The result is a rearrangement of the input. -/
  perm : ∀ {α : Type} (less : α → α → Bool) (x : List α), (sort less x).Perm x
  /-- For a strict weak ordering, no element is followed by a smaller one. -/
  sorted : ∀ {α : Type} (less : α → α → Bool) (x : List α),
    (∀ a, less a a = false) →
    (∀ a b c, less a b = true → less b c = true → less a c = true) →
    (∀ a b c, less a b = false → less b c = false → less a c = false) →
    (sort less x).Pairwise (fun a b => less b a = false)

/-- sortTestResultsByUniqueId: `sort.Slice` with the comparator
`report.TestResults[i].UniqueId < report.TestResults[j].UniqueId`. -/
def sortTestResultsByUniqueId (S : SliceSorter) (report : KtTestReport) : KtTestReport :=
  { report with
    TestResults := S.sort (fun a b => strings.Less a.UniqueId b.UniqueId) report.TestResults }

/-! ## Grouped view -/

/-- The Go map `map[string]*SpecResult`, as an association list with distinct keys. -/
abbrev SpecMap := List (String × SpecResult)

/-- Map lookup `m[k]`; `none` when the key is absent (Go yields a nil pointer). -/
def SpecMap.get : SpecMap → String → Option SpecResult
  | [], _ => none
  | (k1, v) :: rest, k => if k1 = k then some v else SpecMap.get rest k

/-- Map store `m[k] = v`. -/
def SpecMap.set : SpecMap → String → SpecResult → SpecMap
  | [], k, v => [(k, v)]
  | (k1, v1) :: rest, k, v =>
    if k1 = k then (k, v) :: rest else (k1, v1) :: SpecMap.set rest k v

/-- Body of the first loop of displayResultsBySpecId (lines 134-161). -/
def aggregateResult (specResults : SpecMap) (result : KtTestResult) : SpecMap :=
  let specId := result.SpecId
  if specId == "" then specResults
  else
    let specResult : SpecResult :=
      match specResults.get specId with
      | some sr => sr
      | none =>
        { SpecId := specId, TestCount := 0, PassCount := 0, FailCount := 0,
          Time := F64.fin 0 0, Results := [] }
    let specResult := { specResult with TestCount := specResult.TestCount + 1 }
    let specResult :=
      if result.Status == "FAILED" || result.Throwable != "" then
        { specResult with
          FailCount := specResult.FailCount + 1, Results := specResult.Results ++ ["F"] }
      else
        { specResult with
          PassCount := specResult.PassCount + 1, Results := specResult.Results ++ ["."] }
    let specResult :=
      { specResult with Time := specResult.Time.add (secondsOfMs result.DurationMs) }
    specResults.set specId specResult

/-- displaySpecResult: the line of one group. -/
def displaySpecResult (result : SpecResult) : String :=
  result.Results.foldl
      (fun out r =>
        if r == "." then out ++ (colorGreen ++ "." ++ colorReset)
        else out ++ (colorRed ++ "F" ++ colorReset))
      (result.SpecId ++ " ")
    ++ (" (" ++ F64.fmt3 result.Time ++ "s)\n")

/-- The call `displaySpecResult(specResults[currentSpecId])` appended to the output so far.
The output is `none` once a nil pointer has been dereferenced (the program panics). -/
def flushSpec (specResults : SpecMap) (currentSpecId : String) (out : Option String) :
    Option String :=
  match out, specResults.get currentSpecId with
  | some o, some sr => some (o ++ displaySpecResult sr)
  | _, _ => none

/-- Body of the second loop of displayResultsBySpecId (lines 165-177); the state is
`currentSpecId` and the output so far. -/
def groupStep (specResults : SpecMap) (st : String × Option String) (result : KtTestResult) :
    String × Option String :=
  let specId := result.SpecId
  if specId == "" || specId == st.1 then st
  else (specId, if st.1 != "" then flushSpec specResults st.1 st.2 else st.2)

/-- displayResultsBySpecId, applied to the test results of the report. -/
def displayResultsBySpecId (testResults : List KtTestResult) : Option String :=
  let specResults := testResults.foldl aggregateResult []
  let st := testResults.foldl (groupStep specResults) ("", some "")
  if st.1 != "" then flushSpec specResults st.1 st.2 else st.2

/-! ## Failure blocks -/

/-- The text of `fmt.Printf("... (%d lines omitted)\n", omittedCount)`. -/
def omittedMarker (omittedCount : Int) : String :=
  "... (" ++ toString omittedCount ++ " lines omitted)\n"

/-- Body of the loop over `stackLines` (lines 234-249); the state is `stackTraceCount`,
`omittedCount` and the text printed so far. -/
def stackLineStep (displayLines : Int) (st : Int × Int × String) (line : String) :
    Int × Int × String :=
  if !strings.HasPrefix (strings.TrimSpace line) "at " then
    (0, 0, (if 0 < st.2.1 then st.2.2 ++ omittedMarker st.2.1 else st.2.2) ++ (line ++ "\n"))
  else if st.1 < displayLines then
    (st.1 + 1, st.2.1, st.2.2 ++ (line ++ "\n"))
  else
    (st.1, st.2.1 + 1, st.2.2)

/-- Lines 228-254: the text printed for `result.Throwable`. -/
def printThrowable (throwable : String) (stackTraceLines : Int) : String :=
  if throwable != "" then
    let stackLines := strings.SplitLines (strings.TrimSpace throwable)
    let displayLines := stackTraceLines
    let st := stackLines.foldl (stackLineStep displayLines) (0, 0, "")
    if 0 < st.2.1 then st.2.2 ++ omittedMarker st.2.1 else st.2.2
  else ""

/-- Body of the loop of displayFailedResults for the result at index `i`. -/
def failureBlock (stackTraceLines : Int) (i : Nat) (result : KtTestResult) : String :=
  (if i > 0 then "\n***\n" else "")
  ++ ("\n" ++ colorBold ++ result.UniqueId ++ colorReset
      ++ " (" ++ F64.fmt3 (secondsOfMs result.DurationMs) ++ "s)\n\n")
  ++ printThrowable result.Throwable stackTraceLines
  ++ (if result.Stdout != "" then
        "\nSTDOUT:\n" ++ strings.TrimRight result.Stdout "\r\n" ++ "\n" else "")
  ++ (if result.Stderr != "" then
        "\nSTDERR:\n" ++ strings.TrimRight result.Stderr "\r\n" ++ "\n" else "")

/-- displayFailedResults: everything printed for the failed results. -/
def displayFailedResults (failedResults : List KtTestResult) (stackTraceLines : Int) : String :=
  failedResults.enum.foldl
    (fun out ir => out ++ failureBlock stackTraceLines ir.1 ir.2) ""

/-! ## Summary -/

/-- Wrap-around of a Go `int` (64 bits, two's complement). -/
def wrapInt64 (i : Int) : Int := (i + 2 ^ 63) % 2 ^ 64 - 2 ^ 63

/-- displaySummary. -/
def displaySummary (totalTests totalFailures : Int) (totalTime : F64) : String :=
  (if totalFailures > 0 then colorRed ++ "FAILED" ++ colorReset ++ " "
    else colorGreen ++ "PASSED" ++ colorReset ++ " ")
  ++ (toString (wrapInt64 (totalTests - totalFailures)) ++ " passed")
  ++ (if totalFailures > 0 then ", " ++ toString totalFailures ++ " failed" else "")
  ++ (" in " ++ F64.fmt3 totalTime ++ "s\n")

/-! ## A sorter that meets the contract -/

/-- Insertion sort meets the contract of `sort.Slice`. -/
def insertionSorter : SliceSorter where
  sort less x := x.insertionSort (fun a b => less b a = false)
  perm less x := List.perm_insertionSort (fun a b => less b a = false) x
  sorted := by
    intro α less x hirr htrans hneg
    haveI : IsTotal α (fun a b => less b a = false) := ⟨by
      intro a b
      by_cases h1 : less b a = true
      · by_cases h2 : less a b = true
        · have h3 := htrans a b a h2 h1
          rw [hirr a] at h3
          exact absurd h3 (by decide)
        · right
          simpa using h2
      · left
        simpa using h1⟩
    haveI : IsTrans α (fun a b => less b a = false) := ⟨by
      intro a b c hab hbc
      exact hneg c b a hbc hab⟩
    exact List.sorted_insertionSort (fun a b => less b a = false) x

/-- A test result with the given identifiers, status, duration and texts. -/
def mkResult (uniqueId specId status : String) (durationMs : Int)
    (throwable stdout stderr : String) : KtTestResult :=
  { Identifier :=
      { DisplayName := uniqueId, Type_ := "TEST", Tags := [], TestSourceName := "",
        TestSourceFull := "" },
    UniqueId := uniqueId, SpecId := specId, Status := status, StartTime := 0, EndTime := 0,
    DurationMs := durationMs, Stdout := stdout, Stderr := stderr, Throwable := throwable }

/-! ## Vocabulary of the statements -/

/-- The test of line 235 on a line of the throwable: after `strings.TrimSpace` the line
starts with "at ". -/
def isFrameLine (line : String) : Bool :=
  strings.HasPrefix (strings.TrimSpace line) "at "

/-- The text of the given lines, each printed with `fmt.Println`. -/
def printedLines : List String → String
  | [] => ""
  | l :: ls => l ++ "\n" ++ printedLines ls

/-- The header of a failure block (line 225). -/
def failureHeader (result : KtTestResult) : String :=
  "\n" ++ colorBold ++ result.UniqueId ++ colorReset
    ++ " (" ++ F64.fmt3 (secondsOfMs result.DurationMs) ++ "s)\n\n"

/-- A throwable of ten frame lines. -/
def tenFrames : String :=
  "at f0\n\tat f1\n\tat f2\n\tat f3\n\tat f4\n\tat f5\n\tat f6\n\tat f7\n\tat f8\n\tat f9\n"

/-- A throwable of eight frame lines, a message line and eight more frame lines. -/
def twoRuns : String :=
  "at a0\n at a1\n at a2\n at a3\n at a4\n at a5\n at a6\n at a7\nCaused by: x\n"
    ++ " at b0\n at b1\n at b2\n at b3\n at b4\n at b5\n at b6\n at b7\n"

/-- Concatenation of texts, in order. -/
def concatAll : List String → String
  | [] => ""
  | t :: ts => t ++ concatAll ts

/-- The coloured glyph of one result: a red "F" when `Status == "FAILED"` or the Throwable
is not empty, a green "." otherwise. -/
def glyphText (r : KtTestResult) : String :=
  if r.Status = "FAILED" ∨ r.Throwable ≠ "" then colorRed ++ "F" ++ colorReset
  else colorGreen ++ "." ++ colorReset

/-- The float64 sum, in order and starting from 0, of `float64(DurationMs) / 1000.0`. -/
def sumSeconds (members : List KtTestResult) : F64 :=
  members.foldl (fun t r => t.add (secondsOfMs r.DurationMs)) (F64.fin 0 0)

/-- The line of a group with the given members: identifier, one glyph per member in
order, and the summed duration with three decimals. -/
def groupLine (g : String) (members : List KtTestResult) : String :=
  g ++ " " ++ concatAll (members.map glyphText)
    ++ " (" ++ F64.fmt3 (sumSeconds members) ++ "s)\n"

/-- The non-empty SpecIds of the results, in order. -/
def groupKeys (testResults : List KtTestResult) : List String :=
  (testResults.map (fun r => r.SpecId)).filter (fun k => decide (k ≠ ""))

/-- The results of the group `g`, in order. -/
def groupMembers (g : String) (testResults : List KtTestResult) : List KtTestResult :=
  testResults.filter (fun r => decide (r.SpecId = g))

/-- The distinct elements of a list, in the order of their first occurrence. -/
def distinctInOrder : List String → List String
  | [] => []
  | k :: ks => k :: (distinctInOrder ks).filter (fun x => decide (x ≠ k))

/-- A check that every key occupies one contiguous stretch: once the run of `k` that
starts the list is over, `k` does not occur again, and likewise for the rest. -/
def runsContiguous : List String → Bool
  | [] => true
  | k :: ks => !((ks.dropWhile (fun x => decide (x = k))).contains k) && runsContiguous ks

/-- The update of a SpecResult by one member (lines 150-160). -/
def addMember (specResult : SpecResult) (result : KtTestResult) : SpecResult :=
  { SpecId := specResult.SpecId,
    TestCount := specResult.TestCount + 1,
    PassCount := if isFailed result then specResult.PassCount else specResult.PassCount + 1,
    FailCount := if isFailed result then specResult.FailCount + 1 else specResult.FailCount,
    Time := specResult.Time.add (secondsOfMs result.DurationMs),
    Results := specResult.Results ++ [if isFailed result then "F" else "."] }

/-- The SpecResult created at lines 143-145. -/
def newSpecResult (specId : String) : SpecResult :=
  { SpecId := specId, TestCount := 0, PassCount := 0, FailCount := 0,
    Time := F64.fin 0 0, Results := [] }

/-- The members of every group are contiguous in the list of keys: between two occurrences
of a key only that key occurs. -/
def ContiguousGroups (keys : List String) : Prop :=
  ∀ (a b c : List String) (g : String), keys = a ++ g :: (b ++ g :: c) → ∀ x ∈ b, x = g

/-- Three results whose SpecIds are A, B, A when ordered by UniqueId. -/
def reappearingGroup : List KtTestResult :=
  [mkResult "t1" "A" "PASSED" 100 "" "" "", mkResult "t2" "B" "PASSED" 5 "" "" "",
    mkResult "t3" "A" "FAILED" 200 "" "" ""]

/-- Four results whose SpecIds are A, empty, A, B. -/
def contiguousSample : List KtTestResult :=
  [mkResult "t1" "A" "PASSED" 120 "" "" "", mkResult "t2" "" "PASSED" 7 "" "" "",
    mkResult "t3" "A" "PASSED" 340 "boom" "" "", mkResult "t4" "B" "FAILED" 5 "" "" ""]

/-! ## Loading and the main program -/

/-- A Go `error`: its message, and the error it wraps when it was built by `fmt.Errorf`
with the verb `%w`. -/
inductive GoError where
  | mk (msg : String) (cause : Option GoError)
  deriving Repr

/-- Go `err.Error()`. -/
def GoError.Error : GoError → String
  | .mk msg _ => msg

/-- Go `errors.Unwrap(err)`. -/
def GoError.Unwrap : GoError → Option GoError
  | .mk _ cause => cause

/-- The content of a file: a sequence of bytes. -/
abbrev Bytes := List Nat

/-- processJsonTestResults.  The file system and the JSON decoder are outside the program:
`readFile` is the answer of `os.ReadFile` for a path and `unmarshal` is `json.Unmarshal`
into a KtTestReport. -/
def processJsonTestResults (readFile : String → Except GoError Bytes)
    (unmarshal : Bytes → Except GoError KtTestReport) : Except GoError KtTestReport :=
  let jsonFile := "build/test-results/ktreport.json"
  match readFile jsonFile with
  | .error err =>
    .error (.mk ("JSONファイル \x27" ++ jsonFile ++ "\x27 の読み込み中にエラーが発生しました: "
      ++ err.Error) (some err))
  | .ok data =>
    match unmarshal data with
    | .error err =>
      .error (.mk ("JSONファイル \x27" ++ jsonFile ++ "\x27 のパース中にエラーが発生しました: "
        ++ err.Error) (some err))
    | .ok report => .ok report

/-- The banner printed at line 84. -/
def headerBanner : String :=
  "= ktreport ===============================================================================================\n\n"

/-- The banner printed at line 92. -/
def failuresBanner : String :=
  "\n= failures ===============================================================================================\n"

/-- The banner printed at line 97. -/
def summaryBanner : String :=
  "\n= short test summary info =================================================================================\n"

/-- The banner printed at line 99. -/
def closingBanner : String :=
  "===========================================================================================================\n"

namespace ktreport

/-- The function `main` of the program.  `stackTraceLines` is the value of the flag `-stack` / `-s` after
`flag.Parse()` (7 by default).  The result is everything written to standard output, or
`none` when the program panics. -/
def main (S : SliceSorter) (stackTraceLines : Int) (readFile : String → Except GoError Bytes)
    (unmarshal : Bytes → Except GoError KtTestReport) : Option String :=
  match processJsonTestResults readFile unmarshal with
  | .error err => some ("エラー: " ++ err.Error ++ "\n")
  | .ok report =>
    let report := sortTestResultsByUniqueId S report
    match displayResultsBySpecId report.TestResults with
    | none => none
    | some grouped =>
      let failedResults := getFailedResults report.TestResults
      some (headerBanner ++ grouped
        ++ (if failedResults.length > 0 then
              failuresBanner ++ displayFailedResults failedResults stackTraceLines
            else "")
        ++ summaryBanner
        ++ displaySummary report.TotalTests report.Failed (secondsOfMs report.TotalDurationMs)
        ++ closingBanner)

end ktreport

/-- A file system in which the report file is missing. -/
def missingFile : String → Except GoError Bytes :=
  fun path => .error (.mk ("open " ++ path ++ ": no such file or directory") none)

/-- A file system in which every file has the one-byte content "x". -/
def garbageFile : String → Except GoError Bytes :=
  fun _ => .ok [120]

/-- A decoder that rejects every content. -/
def rejectAll : Bytes → Except GoError KtTestReport :=
  fun _ => .error (.mk "invalid character \x27x\x27 looking for beginning of value" none)

/-- A file system that holds some content for every path. -/
def someFile : String → Except GoError Bytes :=
  fun _ => .ok []

/-- A decoder that yields the given report. -/
def decodeTo (report : KtTestReport) : Bytes → Except GoError KtTestReport :=
  fun _ => .ok report

/-- A report with the given results and counters. -/
def mkReport (testResults : List KtTestResult) (totalTests failed totalDurationMs : Int) :
    KtTestReport :=
  { TestResults := testResults, TotalTests := totalTests, Passed := totalTests - failed,
    Failed := failed, Skipped := 0, StartTime := 0, EndTime := totalDurationMs,
    TotalDurationMs := totalDurationMs }

/-- A report with a failing result t2 and a passing result t1 of the group A. -/
def sampleReport : KtTestReport :=
  mkReport [mkResult "t2" "A" "FAILED" 20 "" "" "", mkResult "t1" "A" "PASSED" 10 "" "" ""] 2 1 30

/-- A report without test results. -/
def emptyReport : KtTestReport := mkReport [] 0 0 0

/-- The counts of a SpecResult agree with its glyphs: TestCount == PassCount + FailCount
== len(Results), FailCount is the number of "F" and PassCount the number of ".". -/
def SpecResult.Consistent (sr : SpecResult) : Prop :=
  sr.TestCount = sr.PassCount + sr.FailCount ∧
  sr.TestCount = (sr.Results.length : Int) ∧
  sr.FailCount = ((sr.Results.count "F" : Nat) : Int) ∧
  sr.PassCount = ((sr.Results.count "." : Nat) : Int)

/-- The sum of TestCount over all the groups of a map. -/
def SpecMap.totalCount (m : SpecMap) : Int :=
  (m.map (fun e => e.2.TestCount)).sum

/-- What the loop over the lines of a throwable emits: a line of the throwable, or an
omission marker with its count. -/
inductive ThrowableEvent where
  | printed (line : String)
  | omitted (count : Int)
  deriving DecidableEq, Repr

/-- The text of an event. -/
def ThrowableEvent.text : ThrowableEvent → String
  | .printed line => line ++ "\n"
  | .omitted count => omittedMarker count

/-- The lines of the throwable among the events, in order. -/
def printedOf : List ThrowableEvent → List String
  | [] => []
  | .printed line :: es => line :: printedOf es
  | .omitted _ :: es => printedOf es

/-- The counts of the omission markers among the events, in order. -/
def markersOf : List ThrowableEvent → List Int
  | [] => []
  | .printed _ :: es => markersOf es
  | .omitted count :: es => count :: markersOf es

/-- The loop body `stackLineStep`, with the emitted events in place of the printed text. -/
def stackLineEvents (displayLines : Int) (st : Int × Int × List ThrowableEvent)
    (line : String) : Int × Int × List ThrowableEvent :=
  if !strings.HasPrefix (strings.TrimSpace line) "at " then
    (0, 0, (if 0 < st.2.1 then st.2.2 ++ [.omitted st.2.1] else st.2.2) ++ [.printed line])
  else if st.1 < displayLines then
    (st.1 + 1, st.2.1, st.2.2 ++ [.printed line])
  else
    (st.1, st.2.1 + 1, st.2.2)

/-- The events of `printThrowable`: the loop over the lines and the final flush. -/
def throwableEvents (throwable : String) (stackTraceLines : Int) : List ThrowableEvent :=
  if throwable != "" then
    let stackLines := strings.SplitLines (strings.TrimSpace throwable)
    let st := stackLines.foldl (stackLineEvents stackTraceLines) (0, 0, [])
    if 0 < st.2.1 then st.2.2 ++ [.omitted st.2.1] else st.2.2
  else []

/-! ## Vocabulary of the float64 analysis -/

/-- The exponent that `ofRatio` chooses for `n / d`. -/
def F64.roundExp (n d : Nat) : Int :=
  max
    (if (F64.scale n d ((F64.bitLen n : Int) - (F64.bitLen d : Int) - 53)).1
          / (F64.scale n d ((F64.bitLen n : Int) - (F64.bitLen d : Int) - 53)).2 < 2 ^ 53
      then (F64.bitLen n : Int) - (F64.bitLen d : Int) - 53
      else (F64.bitLen n : Int) - (F64.bitLen d : Int) - 53 + 1)
    (-1074)

/-- The integer nearest to `N / D`, ties to even. -/
def F64.nearest (N D : Nat) : Nat :=
  if D < 2 * (N % D) ∨ (2 * (N % D) = D ∧ N / D % 2 = 1) then N / D + 1 else N / D

/-- The mantissa that `ofRatio` chooses for `n / d`. -/
def F64.roundMant (n d : Nat) : Nat :=
  F64.nearest (F64.scale n d (F64.roundExp n d)).1 (F64.scale n d (F64.roundExp n d)).2

/-- The decimal rendering of `n / 1000` with three decimals. -/
def decimalMillis (n : Nat) : String :=
  toString (n / 1000) ++ "." ++ F64.pad3 (n % 1000)

/-- The sum of the DurationMs of the members. -/
def totalMs (members : List KtTestResult) : Int :=
  (members.map (fun r => r.DurationMs)).sum

/-- The float64 `x` is finite, not negative, and has the exact value `v`. -/
def F64.HasValue (x : F64) (v : ℚ) : Prop :=
  ∃ (m : Nat) (e : Int), x = F64.fin (m : Int) e ∧ (m : ℚ) * (2 : ℚ) ^ e = v

/-! ## Strings -/

theorem strings_less_iff (a b : String) : strings.Less a b = true ↔ a < b := by
  simp [strings.Less, String.lt_iff_toList_lt]

theorem strings_less_eq_false_iff (a b : String) : strings.Less a b = false ↔ ¬ a < b := by
  rw [← strings_less_iff]
  simp

/-! ## getFailedResults -/

theorem getFailedResults_foldl (acc testResults : List KtTestResult) :
    testResults.foldl
        (fun failedResults result =>
          if result.Status == "FAILED" || result.Throwable != "" then failedResults ++ [result]
          else failedResults)
        acc
      = acc ++ testResults.filter isFailed := by
  induction testResults generalizing acc with
  | nil => simp
  | cons r rs ih =>
    rw [List.foldl_cons, ih]
    by_cases h : isFailed r = true
    · have h2 : (r.Status == "FAILED" || r.Throwable != "") = true := h
      simp [List.filter_cons, h, h2]
    · have h2 : ¬ (r.Status == "FAILED" || r.Throwable != "") = true := h
      simp [List.filter_cons, h, h2]

theorem getFailedResults_filter (testResults : List KtTestResult) :
    getFailedResults testResults = testResults.filter isFailed := by
  unfold getFailedResults
  rw [getFailedResults_foldl]
  simp

theorem isFailed_iff (r : KtTestResult) :
    isFailed r = true ↔ (r.Status = "FAILED" ∨ r.Throwable ≠ "") := by
  simp [isFailed]

/-- C1: getFailedResults is the filter of its input by the condition
`Status == "FAILED" || Throwable != ""`, so it keeps exactly the failed results, each once
and in the input order; and on an input that is non-decreasing by UniqueId (adjacent
positions) the result is non-decreasing by UniqueId (all pairs of positions). -/
theorem getFailedResults_spec (testResults : List KtTestResult) :
    getFailedResults testResults
        = testResults.filter (fun r => decide (r.Status = "FAILED" ∨ r.Throwable ≠ "")) ∧
      (List.Chain' (fun a b : KtTestResult => ¬ b.UniqueId < a.UniqueId) testResults →
        List.Pairwise (fun a b : KtTestResult => ¬ b.UniqueId < a.UniqueId)
          (getFailedResults testResults)) := by
  constructor
  · rw [getFailedResults_filter]
    congr 1
    funext r
    rw [Bool.eq_iff_iff]
    simp [isFailed]
  · intro h
    haveI : IsTrans KtTestResult (fun a b : KtTestResult => ¬ b.UniqueId < a.UniqueId) := ⟨by
      intro a b c hab hbc
      simp only [not_lt] at *
      exact le_trans hab hbc⟩
    rw [List.chain'_iff_pairwise] at h
    rw [getFailedResults_filter]
    exact h.sublist (List.filter_sublist _)

/-- C1 witness: three results sorted by UniqueId, the first and the last failed. -/
theorem getFailedResults_spec_witness :
    getFailedResults
        [mkResult "t1" "A" "FAILED" 1 "" "" "", mkResult "t2" "A" "PASSED" 1 "" "" "",
          mkResult "t3" "B" "PASSED" 1 "boom" "" ""]
      = [mkResult "t1" "A" "FAILED" 1 "" "" "", mkResult "t3" "B" "PASSED" 1 "boom" "" ""] ∧
    List.Pairwise (fun a b : KtTestResult => ¬ b.UniqueId < a.UniqueId)
      (getFailedResults
        [mkResult "t1" "A" "FAILED" 1 "" "" "", mkResult "t2" "A" "PASSED" 1 "" "" "",
          mkResult "t3" "B" "PASSED" 1 "boom" "" ""]) :=
  ⟨by decide,
    (getFailedResults_spec _).2 (by
      simp only [List.chain'_cons, List.chain'_singleton, ← strings_less_eq_false_iff, and_true]
      decide)⟩

/-! ## sortTestResultsByUniqueId -/

theorem uniqueId_less_strictWeak :
    (∀ a : KtTestResult, strings.Less a.UniqueId a.UniqueId = false) ∧
    (∀ a b c : KtTestResult, strings.Less a.UniqueId b.UniqueId = true →
      strings.Less b.UniqueId c.UniqueId = true → strings.Less a.UniqueId c.UniqueId = true) ∧
    (∀ a b c : KtTestResult, strings.Less a.UniqueId b.UniqueId = false →
      strings.Less b.UniqueId c.UniqueId = false → strings.Less a.UniqueId c.UniqueId = false) := by
  refine ⟨?_, ?_, ?_⟩
  · intro a
    rw [strings_less_eq_false_iff]
    exact lt_irrefl _
  · intro a b c
    simp only [strings_less_iff]
    exact lt_trans
  · intro a b c
    simp only [strings_less_eq_false_iff, not_lt]
    intro h1 h2
    exact le_trans h2 h1

theorem sortTestResultsByUniqueId_pairwise (S : SliceSorter) (report : KtTestReport) :
    List.Pairwise (fun a b : KtTestResult => ¬ b.UniqueId < a.UniqueId)
      (sortTestResultsByUniqueId S report).TestResults := by
  have h := S.sorted (fun a b : KtTestResult => strings.Less a.UniqueId b.UniqueId)
    report.TestResults uniqueId_less_strictWeak.1 uniqueId_less_strictWeak.2.1
    uniqueId_less_strictWeak.2.2
  refine List.Pairwise.imp ?_ h
  intro a b hab
  exact (strings_less_eq_false_iff _ _).1 hab

/-- C4: for every sorter that meets the contract of `sort.Slice`, after
sortTestResultsByUniqueId the TestResults are a permutation of the original ones, no result
is followed (adjacently, and also at any later position) by one with a smaller UniqueId in
the lexicographic order of strings, and every other field of the report is unchanged. -/
theorem sortTestResultsByUniqueId_spec (S : SliceSorter) (report : KtTestReport) :
    (sortTestResultsByUniqueId S report).TestResults.Perm report.TestResults ∧
    List.Chain' (fun a b : KtTestResult => ¬ b.UniqueId < a.UniqueId)
      (sortTestResultsByUniqueId S report).TestResults ∧
    List.Pairwise (fun a b : KtTestResult => ¬ b.UniqueId < a.UniqueId)
      (sortTestResultsByUniqueId S report).TestResults ∧
    (sortTestResultsByUniqueId S report).TotalTests = report.TotalTests ∧
    (sortTestResultsByUniqueId S report).Passed = report.Passed ∧
    (sortTestResultsByUniqueId S report).Failed = report.Failed ∧
    (sortTestResultsByUniqueId S report).Skipped = report.Skipped ∧
    (sortTestResultsByUniqueId S report).StartTime = report.StartTime ∧
    (sortTestResultsByUniqueId S report).EndTime = report.EndTime ∧
    (sortTestResultsByUniqueId S report).TotalDurationMs = report.TotalDurationMs := by
  refine ⟨?_, ?_, ?_, rfl, rfl, rfl, rfl, rfl, rfl, rfl⟩
  · exact S.perm _ _
  · exact (sortTestResultsByUniqueId_pairwise S report).chain'
  · exact sortTestResultsByUniqueId_pairwise S report

/-- C4 witness: the insertion sorter on a report of three results in the order t2, t3, t1. -/
theorem sortTestResultsByUniqueId_spec_witness :
    (sortTestResultsByUniqueId insertionSorter
        { TestResults :=
            [mkResult "t2" "A" "PASSED" 1 "" "" "", mkResult "t3" "B" "PASSED" 1 "" "" "",
              mkResult "t1" "A" "FAILED" 1 "" "" ""],
          TotalTests := 3, Passed := 2, Failed := 1, Skipped := 0, StartTime := 0,
          EndTime := 3, TotalDurationMs := 3 }).TestResults
      = [mkResult "t1" "A" "FAILED" 1 "" "" "", mkResult "t2" "A" "PASSED" 1 "" "" "",
          mkResult "t3" "B" "PASSED" 1 "" "" ""] ∧
    List.Chain' (fun a b : KtTestResult => ¬ b.UniqueId < a.UniqueId)
      (sortTestResultsByUniqueId insertionSorter
        { TestResults :=
            [mkResult "t2" "A" "PASSED" 1 "" "" "", mkResult "t3" "B" "PASSED" 1 "" "" "",
              mkResult "t1" "A" "FAILED" 1 "" "" ""],
          TotalTests := 3, Passed := 2, Failed := 1, Skipped := 0, StartTime := 0,
          EndTime := 3, TotalDurationMs := 3 }).TestResults :=
  ⟨by decide, (sortTestResultsByUniqueId_spec insertionSorter _).2.1⟩

/-! ## displaySummary -/

theorem digitChar_ne_newline (m : Nat) : Nat.digitChar m ≠ '\n' := by
  by_cases h : m < 16
  · have hall : ∀ k, k < 16 → Nat.digitChar k ≠ '\n' := by decide
    exact hall m h
  · unfold Nat.digitChar
    repeat rw [if_neg (by omega)]
    decide

theorem toDigitsCore_no_newline (fuel : Nat) :
    ∀ (n : Nat) (ds : List Char), (∀ c ∈ ds, c ≠ '\n') →
      ∀ c ∈ Nat.toDigitsCore 10 fuel n ds, c ≠ '\n' := by
  induction fuel with
  | zero =>
    intro n ds hds c hc
    exact hds c (by simpa [Nat.toDigitsCore] using hc)
  | succ fuel ih =>
    intro n ds hds c hc
    have hds2 : ∀ c ∈ Nat.digitChar (n % 10) :: ds, c ≠ '\n' := by
      intro c hc
      rcases List.mem_cons.1 hc with e | e
      · rw [e]
        exact digitChar_ne_newline _
      · exact hds c e
    unfold Nat.toDigitsCore at hc
    by_cases h : n / 10 = 0
    · simp only [h, if_true] at hc
      exact hds2 c hc
    · simp only [h, if_false] at hc
      exact ih _ _ hds2 c hc

theorem nat_repr_no_newline (n : Nat) : ∀ c ∈ (toString n).data, c ≠ '\n' := by
  intro c hc
  have : (toString n).data = Nat.toDigits 10 n := by
    simp [toString, Nat.repr, List.asString]
  rw [this] at hc
  exact toDigitsCore_no_newline _ _ [] (by simp) c hc

theorem int_repr_no_newline (i : Int) : ∀ c ∈ (toString i).data, c ≠ '\n' := by
  intro c hc
  cases i with
  | ofNat m =>
    exact nat_repr_no_newline m c hc
  | negSucc m =>
    have e : (toString (Int.negSucc m)).data = '-' :: (toString (m + 1)).data := by
      rfl
    rw [e] at hc
    rcases List.mem_cons.1 hc with e2 | e2
    · rw [e2]
      decide
    · exact nat_repr_no_newline _ c e2

theorem fmt3_no_newline (x : F64) : ∀ c ∈ (F64.fmt3 x).data, c ≠ '\n' := by
  intro c hc
  cases x with
  | fin m e =>
    simp only [F64.fmt3, F64.pad3, String.data_append, List.mem_append] at hc
    rcases hc with (((h | h) | h) | ((h | h) | h))
    · by_cases hm : m < 0
      · rw [if_pos hm] at h
        have : c = '-' := by simpa using h
        rw [this]
        decide
      · rw [if_neg hm] at h
        simp at h
    · exact nat_repr_no_newline _ c h
    · have : c = '.' := by simpa using h
      rw [this]
      decide
    · exact nat_repr_no_newline _ c h
    · exact nat_repr_no_newline _ c h
    · exact nat_repr_no_newline _ c h
  | inf neg =>
    cases neg
    · have hall : ∀ c ∈ "+Inf".data, c ≠ '\n' := by decide
      exact hall c hc
    · have hall : ∀ c ∈ "-Inf".data, c ≠ '\n' := by decide
      exact hall c hc
  | nan =>
    have hall : ∀ c ∈ "NaN".data, c ≠ '\n' := by decide
    exact hall c hc


/-- C7: displaySummary prints the coloured label FAILED when totalFailures > 0 and PASSED
otherwise, then the difference totalTests - totalFailures (a Go int, so wrapped to 64 bits;
it is the exact difference whenever that fits) and " passed", then ", n failed" exactly
when totalFailures > 0, then " in Ts" and the end of the line.  For (42, 0) this is
"PASSED 42 passed in Ts" and for (42, 5) it is "FAILED 37 passed, 5 failed in Ts".  The
output is one line: its only line feed is its last character. -/
theorem displaySummary_spec (totalTests totalFailures : Int) (totalTime : F64) :
    displaySummary totalTests totalFailures totalTime
      = (if totalFailures > 0 then "\x1b[31mFAILED\x1b[0m " else "\x1b[32mPASSED\x1b[0m ")
        ++ toString (wrapInt64 (totalTests - totalFailures)) ++ " passed"
        ++ (if totalFailures > 0 then ", " ++ toString totalFailures ++ " failed" else "")
        ++ " in " ++ totalTime.fmt3 ++ "s\n" ∧
    (-(2 ^ 63) ≤ totalTests - totalFailures ∧ totalTests - totalFailures < 2 ^ 63 →
      wrapInt64 (totalTests - totalFailures) = totalTests - totalFailures) ∧
    displaySummary 42 0 totalTime
      = "\x1b[32mPASSED\x1b[0m 42 passed in " ++ totalTime.fmt3 ++ "s\n" ∧
    displaySummary 42 5 totalTime
      = "\x1b[31mFAILED\x1b[0m 37 passed, 5 failed in " ++ totalTime.fmt3 ++ "s\n" ∧
    (∃ body : String, displaySummary totalTests totalFailures totalTime = body ++ "\n" ∧
      ∀ c ∈ body.data, c ≠ '\n') := by
  refine ⟨?_, ?_, ?_, ?_, ?_⟩
  · unfold displaySummary
    have h1 : colorRed ++ "FAILED" ++ colorReset ++ " " = "\x1b[31mFAILED\x1b[0m " := by decide
    have h2 : colorGreen ++ "PASSED" ++ colorReset ++ " " = "\x1b[32mPASSED\x1b[0m " := by decide
    rw [h1, h2]
    simp only [String.append_assoc]
  · intro h
    unfold wrapInt64
    omega
  · have h : displaySummary 42 0 totalTime
        = ((if (0 : Int) > 0 then colorRed ++ "FAILED" ++ colorReset ++ " "
              else colorGreen ++ "PASSED" ++ colorReset ++ " ")
            ++ (toString (wrapInt64 (42 - 0)) ++ " passed")
            ++ (if (0 : Int) > 0 then ", " ++ toString (0 : Int) ++ " failed" else "")
            ++ " in ") ++ (totalTime.fmt3 ++ "s\n") := by
      unfold displaySummary
      simp only [String.append_assoc]
    rw [h, ← String.append_assoc]
    congr 2
  · have h : displaySummary 42 5 totalTime
        = ((if (5 : Int) > 0 then colorRed ++ "FAILED" ++ colorReset ++ " "
              else colorGreen ++ "PASSED" ++ colorReset ++ " ")
            ++ (toString (wrapInt64 (42 - 5)) ++ " passed")
            ++ (if (5 : Int) > 0 then ", " ++ toString (5 : Int) ++ " failed" else "")
            ++ " in ") ++ (totalTime.fmt3 ++ "s\n") := by
      unfold displaySummary
      simp only [String.append_assoc]
    rw [h, ← String.append_assoc]
    congr 2
  · refine ⟨(if totalFailures > 0 then colorRed ++ "FAILED" ++ colorReset ++ " "
          else colorGreen ++ "PASSED" ++ colorReset ++ " ")
        ++ (toString (wrapInt64 (totalTests - totalFailures)) ++ " passed")
        ++ (if totalFailures > 0 then ", " ++ toString totalFailures ++ " failed" else "")
        ++ (" in " ++ F64.fmt3 totalTime ++ "s"), ?_, ?_⟩
    · unfold displaySummary
      have e : "s\n" = "s" ++ "\n" := by decide
      rw [e]
      simp only [String.append_assoc]
    · have hlit : ∀ t : String, t ∈ [colorRed ++ "FAILED" ++ colorReset ++ " ",
          colorGreen ++ "PASSED" ++ colorReset ++ " ", " passed", ", ", " failed", " in ", "s"] →
          ∀ c ∈ t.data, c ≠ '\n' := by decide
      intro c hc
      simp only [String.data_append, List.mem_append] at hc
      rcases hc with (((h | (h | h)) | h) | ((h | h) | h))
      · by_cases hf : totalFailures > 0
        · rw [if_pos hf] at h
          exact hlit _ (by simp) c h
        · rw [if_neg hf] at h
          exact hlit _ (by simp) c h
      · exact int_repr_no_newline _ c h
      · exact hlit " passed" (by simp) c h
      · by_cases hf : totalFailures > 0
        · rw [if_pos hf] at h
          simp only [String.data_append, List.mem_append] at h
          rcases h with ((h | h) | h)
          · exact hlit ", " (by simp) c h
          · exact int_repr_no_newline _ c h
          · exact hlit " failed" (by simp) c h
        · rw [if_neg hf] at h
          simp at h
      · exact hlit " in " (by simp) c h
      · exact fmt3_no_newline _ c h
      · exact hlit "s" (by simp) c h

/-- C7 witness: the report counters 42 and 5 with a total duration of 1234 ms. -/
theorem displaySummary_spec_witness :
    displaySummary 42 5 (secondsOfMs 1234)
      = "\x1b[31mFAILED\x1b[0m 37 passed, 5 failed in 1.234s\n" ∧
    wrapInt64 (42 - 5) = 42 - 5 :=
  ⟨by decide, (displaySummary_spec 42 5 (secondsOfMs 1234)).2.1 (by decide)⟩

/-! ## The loop over the lines of a throwable -/

theorem stackLineStep_out (L c o : Int) (out : String) (line : String) :
    stackLineStep L (c, o, out) line
      = ((stackLineStep L (c, o, "") line).1, (stackLineStep L (c, o, "") line).2.1,
          out ++ (stackLineStep L (c, o, "") line).2.2) := by
  unfold stackLineStep
  by_cases h1 : (!strings.HasPrefix (strings.TrimSpace line) "at ") = true
  · by_cases h2 : 0 < o
    · simp [h1, h2, String.append_assoc]
    · simp [h1, h2]
  · by_cases h2 : c < L
    · simp [h1, h2]
    · simp [h1, h2]

theorem stackLineStep_nonFrame (L c o : Int) (out : String) (line : String)
    (h : isFrameLine line = false) :
    stackLineStep L (c, o, out) line
      = (0, 0, out ++ (if 0 < o then omittedMarker o else "") ++ (line ++ "\n")) := by
  unfold isFrameLine at h
  unfold stackLineStep
  by_cases h2 : 0 < o
  · simp [h, h2]
  · simp [h, h2]

theorem stackLineStep_frame (L c o : Int) (out : String) (line : String)
    (h : isFrameLine line = true) :
    stackLineStep L (c, o, out) line
      = if c < L then (c + 1, o, out ++ (line ++ "\n")) else (c, o + 1, out) := by
  unfold isFrameLine at h
  unfold stackLineStep
  simp [h]

theorem printedLines_append (xs ys : List String) :
    printedLines (xs ++ ys) = printedLines xs ++ printedLines ys := by
  induction xs with
  | nil => simp [printedLines]
  | cons x xs ih => simp [printedLines, ih, String.append_assoc]

/-- A run of frame lines: the first `L - c` of them are printed, the others are counted. -/
theorem foldl_stackLineStep_frames (L : Int) (frames : List String)
    (hframes : ∀ l ∈ frames, isFrameLine l = true) (c o : Int) (out : String) :
    frames.foldl (stackLineStep L) (c, o, out)
      = (c + (min frames.length (L - c).toNat : Nat),
          o + ((frames.length - min frames.length (L - c).toNat : Nat) : Int),
          out ++ printedLines (frames.take (min frames.length (L - c).toNat))) := by
  induction frames generalizing c o out with
  | nil => simp [printedLines]
  | cons f fs ih =>
    have hf : isFrameLine f = true := hframes f (List.mem_cons_self _ _)
    have hfs : ∀ l ∈ fs, isFrameLine l = true := fun l hl => hframes l (List.mem_cons_of_mem _ hl)
    rw [List.foldl_cons, stackLineStep_frame L c o out f hf]
    by_cases hc : c < L
    · rw [if_pos hc, ih hfs]
      have e1 : (L - (c + 1)).toNat + 1 = (L - c).toNat := by omega
      have e2 : min (f :: fs).length (L - c).toNat = min fs.length (L - (c + 1)).toNat + 1 := by
        simp only [List.length_cons]
        omega
      rw [e2, List.take_succ_cons]
      simp only [printedLines, String.append_assoc, List.length_cons]
      refine Prod.ext ?_ (Prod.ext ?_ rfl)
      · simp only []
        push_cast
        omega
      · simp only []
        omega
    · rw [if_neg hc, ih hfs]
      have e1 : (L - c).toNat = 0 := by omega
      simp only [e1, Nat.min_zero, List.take_zero, printedLines, List.length_cons]
      refine Prod.ext ?_ (Prod.ext ?_ rfl)
      · simp
      · simp only []
        push_cast
        omega

theorem splitLines_ne_nil (s : String) : strings.SplitLines s ≠ [] := by
  unfold strings.SplitLines
  have h : ∀ cs : List Char, strings.splitChars cs ≠ [] := by
    intro cs
    induction cs with
    | nil => simp [strings.splitChars]
    | cons c cs ih =>
      unfold strings.splitChars
      split
      · simp
      · split <;> simp
  simpa using h s.data

theorem printThrowable_nonempty (throwable : String) (L : Int) (h : throwable ≠ "") :
    printThrowable throwable L
      = ((strings.SplitLines (strings.TrimSpace throwable)).foldl (stackLineStep L) (0, 0, "")).2.2
        ++ (if 0 < ((strings.SplitLines (strings.TrimSpace throwable)).foldl
              (stackLineStep L) (0, 0, "")).2.1
            then omittedMarker ((strings.SplitLines (strings.TrimSpace throwable)).foldl
              (stackLineStep L) (0, 0, "")).2.1
            else "") := by
  unfold printThrowable
  have h2 : (throwable != "") = true := by simpa using h
  rw [if_pos h2]
  simp only []
  split <;> simp

theorem displayFailedResults_single (result : KtTestResult) (L : Int) :
    displayFailedResults [result] L
      = failureHeader result ++ printThrowable result.Throwable L
        ++ (if result.Stdout = "" then ""
            else "\nSTDOUT:\n" ++ strings.TrimRight result.Stdout "\r\n" ++ "\n")
        ++ (if result.Stderr = "" then ""
            else "\nSTDERR:\n" ++ strings.TrimRight result.Stderr "\r\n" ++ "\n") := by
  unfold displayFailedResults failureBlock failureHeader
  by_cases h1 : result.Stdout = "" <;> by_cases h2 : result.Stderr = "" <;>
    simp [List.enum, List.enumFrom, h1, h2, String.append_assoc]

/-- The throwable of a result all of whose lines are frame lines is not empty. -/
theorem throwable_ne_empty_of_frames (throwable : String)
    (hframes : ∀ l ∈ strings.SplitLines (strings.TrimSpace throwable), isFrameLine l = true) :
    throwable ≠ "" := by
  intro h
  subst h
  have h1 : strings.SplitLines (strings.TrimSpace "") = [""] := by decide
  rw [h1] at hframes
  have h2 := hframes "" (List.mem_singleton_self _)
  exact absurd h2 (by decide)

theorem printThrowable_frames_aux (throwable : String) (L : Int) (frames : List String)
    (hsplit : strings.SplitLines (strings.TrimSpace throwable) = frames)
    (hframes : ∀ l ∈ frames, isFrameLine l = true) :
    printThrowable throwable L
      = printedLines (frames.take (max 0 (min (frames.length : Int) L)).toNat)
        ++ (if 0 < (frames.length : Int) - max 0 (min (frames.length : Int) L)
            then "... (" ++ toString ((frames.length : Int) - max 0 (min (frames.length : Int) L))
              ++ " lines omitted)\n"
            else "") := by
  have hne : throwable ≠ "" := throwable_ne_empty_of_frames throwable (by rw [hsplit]; exact hframes)
  rw [printThrowable_nonempty throwable L hne, hsplit,
    foldl_stackLineStep_frames L frames hframes 0 0 ""]
  simp only [String.empty_append, Int.sub_zero, Int.zero_add]
  have e1 : min frames.length L.toNat = (max 0 (min (frames.length : Int) L)).toNat := by omega
  have e2 : ((frames.length - min frames.length L.toNat : Nat) : Int)
      = (frames.length : Int) - max 0 (min (frames.length : Int) L) := by omega
  rw [e2, e1]
  rfl

/-- C2: when the trimmed throwable of a result consists of n frame lines, the throwable part
of the failure block is, for every integer limit L, the first max(0, min(n, L)) of these
lines unchanged and in order, followed by the line "... (k lines omitted)" with
k = n - max(0, min(n, L)) exactly when k > 0; for n <= L it is all the lines and no marker.
The block printed by displayFailedResults is its header, this text, and the STDOUT and
STDERR sections. -/
theorem displayFailedResults_frames (result : KtTestResult) (L : Int) (frames : List String)
    (hsplit : strings.SplitLines (strings.TrimSpace result.Throwable) = frames)
    (hframes : ∀ l ∈ frames, strings.HasPrefix (strings.TrimSpace l) "at " = true) :
    printThrowable result.Throwable L
      = printedLines (frames.take (max 0 (min (frames.length : Int) L)).toNat)
        ++ (if 0 < (frames.length : Int) - max 0 (min (frames.length : Int) L)
            then "... (" ++ toString ((frames.length : Int) - max 0 (min (frames.length : Int) L))
              ++ " lines omitted)\n"
            else "") ∧
    ((frames.length : Int) ≤ L → printThrowable result.Throwable L = printedLines frames) ∧
    displayFailedResults [result] L
      = failureHeader result
        ++ (printedLines (frames.take (max 0 (min (frames.length : Int) L)).toNat)
          ++ (if 0 < (frames.length : Int) - max 0 (min (frames.length : Int) L)
              then "... (" ++ toString ((frames.length : Int) - max 0 (min (frames.length : Int) L))
                ++ " lines omitted)\n"
              else ""))
        ++ (if result.Stdout = "" then ""
            else "\nSTDOUT:\n" ++ strings.TrimRight result.Stdout "\r\n" ++ "\n")
        ++ (if result.Stderr = "" then ""
            else "\nSTDERR:\n" ++ strings.TrimRight result.Stderr "\r\n" ++ "\n") := by
  have h := printThrowable_frames_aux result.Throwable L frames hsplit hframes
  refine ⟨h, ?_, ?_⟩
  · intro hL
    rw [h]
    have e1 : (max 0 (min (frames.length : Int) L)).toNat = frames.length := by omega
    have e2 : ¬ (0 < (frames.length : Int) - max 0 (min (frames.length : Int) L)) := by omega
    rw [if_neg e2, e1, List.take_length]
    simp
  · rw [displayFailedResults_single, h]

/-- C2 witness: ten frame lines and the limit 7 give seven lines and "... (3 lines omitted)". -/
theorem displayFailedResults_frames_witness :
    printThrowable tenFrames 7
      = "at f0\n\tat f1\n\tat f2\n\tat f3\n\tat f4\n\tat f5\n\tat f6\n... (3 lines omitted)\n" :=
  (displayFailedResults_frames (mkResult "t1" "A" "FAILED" 5 tenFrames "" "") 7
    (strings.SplitLines (strings.TrimSpace tenFrames)) rfl (by decide)).1.trans (by decide)

theorem printThrowable_two_runs_aux (throwable : String) (L : Int) (xs ys : List String)
    (m : String) (hne : throwable ≠ "") (hL : 0 ≤ L)
    (hsplit : strings.SplitLines (strings.TrimSpace throwable) = xs ++ [m] ++ ys)
    (hxs : ∀ l ∈ xs, isFrameLine l = true) (hm : isFrameLine m = false)
    (hys : ∀ l ∈ ys, isFrameLine l = true) :
    printThrowable throwable L
      = printedLines (xs.take (min (xs.length : Int) L).toNat)
        ++ (if L < (xs.length : Int)
            then "... (" ++ toString ((xs.length : Int) - L) ++ " lines omitted)\n" else "")
        ++ (m ++ "\n")
        ++ printedLines (ys.take (min (ys.length : Int) L).toNat)
        ++ (if L < (ys.length : Int)
            then "... (" ++ toString ((ys.length : Int) - L) ++ " lines omitted)\n" else "") := by
  rw [printThrowable_nonempty throwable L hne, hsplit, List.foldl_append, List.foldl_append,
    foldl_stackLineStep_frames L xs hxs 0 0 "", List.foldl_cons, List.foldl_nil,
    stackLineStep_nonFrame L _ _ _ m hm, foldl_stackLineStep_frames L ys hys 0 0 _]
  simp only [String.empty_append, Int.sub_zero, Int.zero_add]
  have e1 : min xs.length L.toNat = (min (xs.length : Int) L).toNat := by omega
  have e2 : min ys.length L.toNat = (min (ys.length : Int) L).toNat := by omega
  rw [e1, e2]
  congr 1
  · congr 3
    by_cases h : L < (xs.length : Int)
    · have h1 : (0 : Int) < ((xs.length - (min (xs.length : Int) L).toNat : Nat) : Int) := by omega
      have h2 : ((xs.length - (min (xs.length : Int) L).toNat : Nat) : Int)
          = (xs.length : Int) - L := by omega
      rw [if_pos h, if_pos h1, h2]
      rfl
    · have h1 : ¬ (0 : Int) < ((xs.length - (min (xs.length : Int) L).toNat : Nat) : Int) := by
        omega
      rw [if_neg h, if_neg h1]
  · by_cases h : L < (ys.length : Int)
    · have h1 : (0 : Int) < ((ys.length - (min (ys.length : Int) L).toNat : Nat) : Int) := by omega
      have h2 : ((ys.length - (min (ys.length : Int) L).toNat : Nat) : Int)
          = (ys.length : Int) - L := by omega
      rw [if_pos h, if_pos h1, h2]
      rfl
    · have h1 : ¬ (0 : Int) < ((ys.length - (min (ys.length : Int) L).toNat : Nat) : Int) := by
        omega
      rw [if_neg h, if_neg h1]

/-- C3: when the trimmed throwable of a result is a frame lines, then one non-frame line m,
then b frame lines, and the limit L is not negative, the throwable part of the failure
block is the first min(a, L) frames of the first run, then "... (a-L lines omitted)" iff
a > L, then m unmodified, then the first min(b, L) frames of the second run, then
"... (b-L lines omitted)" iff b > L; displayFailedResults prints it between the header
and the STDOUT and STDERR sections. -/
theorem displayFailedResults_two_runs (result : KtTestResult) (L : Int)
    (xs ys : List String) (m : String) (hne : result.Throwable ≠ "") (hL : 0 ≤ L)
    (hsplit : strings.SplitLines (strings.TrimSpace result.Throwable) = xs ++ [m] ++ ys)
    (hxs : ∀ l ∈ xs, strings.HasPrefix (strings.TrimSpace l) "at " = true)
    (hm : strings.HasPrefix (strings.TrimSpace m) "at " = false)
    (hys : ∀ l ∈ ys, strings.HasPrefix (strings.TrimSpace l) "at " = true) :
    printThrowable result.Throwable L
      = printedLines (xs.take (min (xs.length : Int) L).toNat)
        ++ (if L < (xs.length : Int)
            then "... (" ++ toString ((xs.length : Int) - L) ++ " lines omitted)\n" else "")
        ++ (m ++ "\n")
        ++ printedLines (ys.take (min (ys.length : Int) L).toNat)
        ++ (if L < (ys.length : Int)
            then "... (" ++ toString ((ys.length : Int) - L) ++ " lines omitted)\n" else "") ∧
    displayFailedResults [result] L
      = failureHeader result
        ++ (printedLines (xs.take (min (xs.length : Int) L).toNat)
          ++ (if L < (xs.length : Int)
              then "... (" ++ toString ((xs.length : Int) - L) ++ " lines omitted)\n" else "")
          ++ (m ++ "\n")
          ++ printedLines (ys.take (min (ys.length : Int) L).toNat)
          ++ (if L < (ys.length : Int)
              then "... (" ++ toString ((ys.length : Int) - L) ++ " lines omitted)\n" else ""))
        ++ (if result.Stdout = "" then ""
            else "\nSTDOUT:\n" ++ strings.TrimRight result.Stdout "\r\n" ++ "\n")
        ++ (if result.Stderr = "" then ""
            else "\nSTDERR:\n" ++ strings.TrimRight result.Stderr "\r\n" ++ "\n") := by
  have h := printThrowable_two_runs_aux result.Throwable L xs ys m hne hL hsplit hxs hm hys
  refine ⟨h, ?_⟩
  rw [displayFailedResults_single, h]

/-- C3 witness: eight frames, a message line, eight frames and the limit 7 give two markers
"... (1 lines omitted)" with the message line between them. -/
theorem displayFailedResults_two_runs_witness :
    printThrowable twoRuns 7
      = "at a0\n at a1\n at a2\n at a3\n at a4\n at a5\n at a6\n... (1 lines omitted)\n"
        ++ "Caused by: x\n"
        ++ " at b0\n at b1\n at b2\n at b3\n at b4\n at b5\n at b6\n... (1 lines omitted)\n" :=
  (displayFailedResults_two_runs (mkResult "t1" "A" "FAILED" 5 twoRuns "" "") 7
    ["at a0", " at a1", " at a2", " at a3", " at a4", " at a5", " at a6", " at a7"]
    [" at b0", " at b1", " at b2", " at b3", " at b4", " at b5", " at b6", " at b7"]
    "Caused by: x" (by decide) (by decide) (by decide) (by decide) (by decide)
    (by decide)).1.trans (by decide)

/-! ## Which lines are frame lines -/

theorem rdropWhile_append_of_exists {α : Type} (p : α → Bool) (u v : List α)
    (h : ∃ c ∈ v, p c = false) :
    (u ++ v).rdropWhile p = u ++ v.rdropWhile p := by
  unfold List.rdropWhile
  rw [List.reverse_append, List.dropWhile_append]
  have hne : ¬ (List.dropWhile p v.reverse).isEmpty = true := by
    rw [List.isEmpty_iff, List.dropWhile_eq_nil_iff]
    intro hall
    obtain ⟨c, hc, hpc⟩ := h
    have := hall c (List.mem_reverse.2 hc)
    rw [hpc] at this
    exact absurd this (by decide)
  rw [if_neg hne, List.reverse_append, List.reverse_reverse]

/-- A non-empty list `pre` whose last element satisfies `p` is a prefix of `t` with its
trailing `p`-elements removed iff it is a prefix of `t` and some later element fails `p`. -/
theorem prefix_rdropWhile_iff {α : Type} (p : α → Bool) (pre t : List α) (hpre : pre ≠ [])
    (hlast : p (pre.getLast hpre) = true) :
    pre <+: t.rdropWhile p ↔ (pre <+: t ∧ ∃ c ∈ t.drop pre.length, p c = false) := by
  constructor
  · intro h
    obtain ⟨u, hu⟩ := h
    obtain ⟨w, hw⟩ := List.rdropWhile_prefix p (l := t)
    have ht : t = pre ++ (u ++ w) := by rw [← hw, ← hu, List.append_assoc]
    refine ⟨⟨u ++ w, ht.symm⟩, ?_⟩
    have hne : t.rdropWhile p ≠ [] := by
      rw [← hu]
      simp [hpre]
    have hnot := List.rdropWhile_last_not p t hne
    have hune : u ≠ [] := by
      intro hu0
      subst hu0
      apply hnot
      have e : (List.rdropWhile p t).getLast hne = pre.getLast hpre := by
        congr 1
        rw [← hu, List.append_nil]
      rw [e]
      exact hlast
    refine ⟨u.getLast hune, ?_, ?_⟩
    · rw [ht, List.drop_left]
      exact List.mem_append_left _ (List.getLast_mem hune)
    · have e : (List.rdropWhile p t).getLast hne = u.getLast hune := by
        have e2 : (pre ++ u).getLast (by simp [hune]) = u.getLast hune :=
          List.getLast_append_of_ne_nil hune
        rw [← e2]
        congr 1
        exact hu.symm
      rw [e] at hnot
      simpa using hnot
  · rintro ⟨⟨v, hv⟩, c, hc, hpc⟩
    rw [← hv, List.drop_left] at hc
    rw [← hv, rdropWhile_append_of_exists p pre v ⟨c, hc, hpc⟩]
    exact List.prefix_append _ _

theorem isFrameLine_iff (line : String) :
    isFrameLine line = true ↔
      (strings.HasPrefix (strings.TrimLeftSpace line) "at " = true ∧
        ∃ c ∈ (strings.TrimLeftSpace line).data.drop 3, unicode.IsSpace c = false) := by
  have h := prefix_rdropWhile_iff unicode.IsSpace ['a', 't', ' ']
    (line.data.dropWhile unicode.IsSpace) (by simp) (by decide)
  unfold isFrameLine strings.HasPrefix strings.TrimSpace strings.TrimLeftSpace
  simp only [List.isPrefixOf_iff_prefix]
  exact h

/-- C9 (as stated) fails: the line "at " starts with "at " once its leading white space is
removed, yet the loop treats it as a non-frame line: with the limit 0 it is printed and
the counters are reset, and in the throwable "Error\nat \nat f" only the last line is
counted as omitted. -/
theorem frameLine_leading_trim_counterexample :
    strings.HasPrefix (strings.TrimLeftSpace "at ") "at " = true ∧
    stackLineStep 0 (0, 1, "") "at " = (0, 0, "... (1 lines omitted)\nat \n") ∧
    displayFailedResults [mkResult "t1" "A" "FAILED" 0 "Error\nat \nat f" "" ""] 0
      = "\n\x1b[1mt1\x1b[0m (0.000s)\n\nError\nat \n... (1 lines omitted)\n" := by
  decide

/-- C9 (amended): the loop body treats a line as a frame line iff the line, after removal
of its leading and trailing white space, starts with "at ", that is, iff after removal of
its leading white space it starts with "at " and a character that is not white space
follows this prefix.  A frame line is printed and counted while stackTraceCount is below
the limit and is counted as omitted otherwise; every other line flushes the pending
marker, is printed, and resets both counters. -/
theorem stackLineStep_frame_iff (L : Int) (st : Int × Int × String) (line : String) :
    ((strings.HasPrefix (strings.TrimLeftSpace line) "at " = true ∧
        ∃ c ∈ (strings.TrimLeftSpace line).data.drop 3, unicode.IsSpace c = false) →
      stackLineStep L st line
        = if st.1 < L then (st.1 + 1, st.2.1, st.2.2 ++ (line ++ "\n"))
          else (st.1, st.2.1 + 1, st.2.2)) ∧
    (¬ (strings.HasPrefix (strings.TrimLeftSpace line) "at " = true ∧
        ∃ c ∈ (strings.TrimLeftSpace line).data.drop 3, unicode.IsSpace c = false) →
      stackLineStep L st line
        = (0, 0,
            st.2.2
              ++ (if 0 < st.2.1 then "... (" ++ toString st.2.1 ++ " lines omitted)\n" else "")
              ++ (line ++ "\n"))) := by
  obtain ⟨c, o, out⟩ := st
  constructor
  · intro h
    exact stackLineStep_frame L c o out line ((isFrameLine_iff line).2 h)
  · intro h
    have h2 : isFrameLine line = false := by
      rw [← isFrameLine_iff] at h
      simpa using h
    exact stackLineStep_nonFrame L c o out line h2

/-- C9 witness: the line "\tat f(x)" is a frame line and the line "at \r" is not. -/
theorem stackLineStep_frame_iff_witness :
    stackLineStep 1 (0, 0, "") "\tat f(x)" = (1, 0, "\tat f(x)\n") ∧
    stackLineStep 1 (1, 2, "") "at \r" = (0, 0, "... (2 lines omitted)\nat \r\n") :=
  ⟨((stackLineStep_frame_iff 1 (0, 0, "") "\tat f(x)").1
      ⟨by decide, 'f', by decide, by decide⟩).trans (by decide),
    ((stackLineStep_frame_iff 1 (1, 2, "") "at \r").2 (by decide)).trans (by decide)⟩

/-! ## The STDOUT and STDERR sections -/

theorem trimRight_eq_empty (s cutset : String) (h : ∀ c ∈ s.data, c ∈ cutset.data) :
    strings.TrimRight s cutset = "" := by
  unfold strings.TrimRight
  apply String.ext
  simp only [List.reverse_eq_nil_iff, List.dropWhile_eq_nil_iff]
  intro x hx
  simpa using h x (List.mem_reverse.1 hx)

/-- C10 (as stated) fails: the captured output "\n" is empty after trimming the trailing
CR/LF characters, yet the failure block has an STDOUT header (followed by an empty line);
the same holds for STDERR. -/
theorem stdout_section_counterexample :
    strings.TrimRight "\n" "\r\n" = "" ∧
    "STDOUT:".data <:+: (displayFailedResults [mkResult "t1" "A" "FAILED" 0 "" "\n" ""] 7).data ∧
    displayFailedResults [mkResult "t1" "A" "FAILED" 0 "" "\n" ""] 7
      = "\n\x1b[1mt1\x1b[0m (0.000s)\n\n\nSTDOUT:\n\n" ∧
    strings.TrimRight "\r\n" "\r\n" = "" ∧
    "STDERR:".data <:+: (displayFailedResults [mkResult "t1" "A" "FAILED" 0 "" "" "\r\n"] 7).data ∧
    displayFailedResults [mkResult "t1" "A" "FAILED" 0 "" "" "\r\n"] 7
      = "\n\x1b[1mt1\x1b[0m (0.000s)\n\n\nSTDERR:\n\n" := by
  decide

/-- C10 (amended): the failure block of a result is its header, the throwable part, then
the section "\nSTDOUT:\n" with the standard output trimmed of trailing CR/LF characters
exactly when the untrimmed Stdout is not empty, then likewise the STDERR section exactly
when the untrimmed Stderr is not empty.  In particular a non-empty Stdout made only of CR
and LF characters gets the header followed by an empty text. -/
theorem displayFailedResults_sections (result : KtTestResult) (L : Int) :
    displayFailedResults [result] L
      = failureHeader result ++ printThrowable result.Throwable L
        ++ (if result.Stdout = "" then ""
            else "\nSTDOUT:\n" ++ strings.TrimRight result.Stdout "\r\n" ++ "\n")
        ++ (if result.Stderr = "" then ""
            else "\nSTDERR:\n" ++ strings.TrimRight result.Stderr "\r\n" ++ "\n") ∧
    (result.Stdout ≠ "" ∧ (∀ c ∈ result.Stdout.data, c = '\r' ∨ c = '\n') →
      result.Stderr = "" →
      displayFailedResults [result] L
        = failureHeader result ++ printThrowable result.Throwable L ++ "\nSTDOUT:\n\n") := by
  refine ⟨displayFailedResults_single result L, ?_⟩
  rintro ⟨h1, h2⟩ h3
  have h4 : strings.TrimRight result.Stdout "\r\n" = "" := by
    apply trimRight_eq_empty
    intro c hc
    rcases h2 c hc with h | h <;> simp [h]
  rw [displayFailedResults_single, if_neg h1, if_pos h3, h4]
  simp only [String.append_empty, String.append_assoc]
  rfl

/-- C10 witness: a failed result whose Stdout is "\r\n\n". -/
theorem displayFailedResults_sections_witness :
    displayFailedResults [mkResult "t1" "A" "FAILED" 0 "" "\r\n\n" ""] 7
      = failureHeader (mkResult "t1" "A" "FAILED" 0 "" "\r\n\n" "")
        ++ printThrowable "" 7 ++ "\nSTDOUT:\n\n" :=
  (displayFailedResults_sections (mkResult "t1" "A" "FAILED" 0 "" "\r\n\n" "") 7).2
    ⟨by decide, by decide⟩ rfl

/-! ## The aggregation pass of displayResultsBySpecId -/

theorem specMap_get_set_self (m : SpecMap) (k : String) (v : SpecResult) :
    (m.set k v).get k = some v := by
  induction m with
  | nil => simp [SpecMap.set, SpecMap.get]
  | cons kv rest ih =>
    obtain ⟨k1, v1⟩ := kv
    by_cases h : k1 = k
    · simp [SpecMap.set, SpecMap.get, h]
    · simp [SpecMap.set, SpecMap.get, h, ih]

theorem specMap_get_set_ne (m : SpecMap) (k k2 : String) (v : SpecResult) (hne : k ≠ k2) :
    (m.set k v).get k2 = m.get k2 := by
  induction m with
  | nil => simp [SpecMap.set, SpecMap.get, hne]
  | cons kv rest ih =>
    obtain ⟨k1, v1⟩ := kv
    by_cases h : k1 = k
    · subst h
      simp [SpecMap.set, SpecMap.get, hne]
    · by_cases h2 : k1 = k2
      · subst h2
        simp [SpecMap.set, SpecMap.get, h]
      · simp [SpecMap.set, SpecMap.get, h, h2, ih]

theorem aggregateResult_eq (m : SpecMap) (result : KtTestResult) :
    aggregateResult m result
      = if result.SpecId = "" then m
        else m.set result.SpecId
          (addMember ((m.get result.SpecId).getD (newSpecResult result.SpecId)) result) := by
  unfold aggregateResult addMember newSpecResult isFailed
  by_cases h : result.SpecId = ""
  · simp [h]
  · simp only [beq_iff_eq, h, if_false]
    congr 1
    cases hget : m.get result.SpecId with
    | none =>
      by_cases hf : (result.Status == "FAILED" || result.Throwable != "") = true
      · simp [hf]
      · simp [hf]
    | some sr =>
      by_cases hf : (result.Status == "FAILED" || result.Throwable != "") = true
      · simp [hf]
      · simp [hf]

/-- The entry of group `g` after the aggregation of the results, starting from the map `m`. -/
theorem aggregate_get (g : String) (hg : g ≠ "") (rs : List KtTestResult) (m : SpecMap) :
    (rs.foldl aggregateResult m).get g
      = (groupMembers g rs).foldl
          (fun o r => some (addMember (o.getD (newSpecResult g)) r)) (m.get g) := by
  induction rs generalizing m with
  | nil => simp [groupMembers]
  | cons r rs ih =>
    rw [List.foldl_cons, ih, aggregateResult_eq]
    by_cases h1 : r.SpecId = ""
    · have h2 : ¬ r.SpecId = g := by
        rw [h1]
        exact fun h => hg h.symm
      have h3 : ¬ "" = g := fun h => hg h.symm
      simp [groupMembers, h1, h3, List.filter_cons]
    · by_cases h2 : r.SpecId = g
      · subst h2
        simp [groupMembers, h1, List.filter_cons, specMap_get_set_self]
      · simp [groupMembers, h1, h2, List.filter_cons, specMap_get_set_ne _ _ _ _ h2]

theorem foldl_some_addMember (g : String) (ms : List KtTestResult) (sr : SpecResult) :
    ms.foldl (fun o r => some (addMember (Option.getD o (newSpecResult g)) r)) (some sr)
      = some (ms.foldl addMember sr) := by
  induction ms generalizing sr with
  | nil => simp
  | cons r ms ih => simp [ih]

theorem foldl_addMember_fields (ms : List KtTestResult) (sr : SpecResult) :
    (ms.foldl addMember sr).SpecId = sr.SpecId ∧
    (ms.foldl addMember sr).Results
      = sr.Results ++ ms.map (fun r => if isFailed r then "F" else ".") ∧
    (ms.foldl addMember sr).Time
      = ms.foldl (fun t r => t.add (secondsOfMs r.DurationMs)) sr.Time := by
  induction ms generalizing sr with
  | nil => simp
  | cons r ms ih =>
    obtain ⟨h1, h2, h3⟩ := ih (addMember sr r)
    simp only [List.foldl_cons, h1, h2, h3]
    simp [addMember]

/-! ## The line of a group -/

theorem concatAll_append (xs ys : List String) :
    concatAll (xs ++ ys) = concatAll xs ++ concatAll ys := by
  induction xs with
  | nil => simp [concatAll]
  | cons x xs ih => simp [concatAll, ih, String.append_assoc]

theorem foldl_glyphs (results : List String) (out : String) :
    results.foldl
        (fun out r =>
          if r == "." then out ++ (colorGreen ++ "." ++ colorReset)
          else out ++ (colorRed ++ "F" ++ colorReset))
        out
      = out ++ concatAll (results.map (fun r =>
          if r = "." then colorGreen ++ "." ++ colorReset else colorRed ++ "F" ++ colorReset)) := by
  induction results generalizing out with
  | nil => simp [concatAll]
  | cons r rs ih =>
    rw [List.foldl_cons, ih]
    by_cases h : r = "."
    · simp [h, concatAll, String.append_assoc]
    · simp [h, concatAll, String.append_assoc]

theorem glyph_of_member (r : KtTestResult) :
    (if (if isFailed r then "F" else ".") = "." then colorGreen ++ "." ++ colorReset
      else colorRed ++ "F" ++ colorReset) = glyphText r := by
  unfold glyphText
  by_cases h : isFailed r = true
  · have h2 : r.Status = "FAILED" ∨ r.Throwable ≠ "" := (isFailed_iff r).1 h
    rw [if_pos h, if_pos h2, if_neg (by decide)]
  · have h2 : ¬ (r.Status = "FAILED" ∨ r.Throwable ≠ "") := fun h3 => h ((isFailed_iff r).2 h3)
    rw [if_neg h, if_neg h2, if_pos rfl]

/-- The line printed for the aggregate of the members of a group. -/
theorem displaySpecResult_members (g : String) (ms : List KtTestResult) :
    displaySpecResult (ms.foldl addMember (newSpecResult g)) = groupLine g ms := by
  obtain ⟨h1, h2, h3⟩ := foldl_addMember_fields ms (newSpecResult g)
  unfold displaySpecResult groupLine sumSeconds
  rw [foldl_glyphs, h1, h2, h3]
  have e : (List.map (fun r => if r = "." then colorGreen ++ "." ++ colorReset
        else colorRed ++ "F" ++ colorReset)
      ((newSpecResult g).Results ++ List.map (fun r => if isFailed r then "F" else ".") ms))
      = ms.map glyphText := by
    simp only [newSpecResult, List.nil_append, List.map_map]
    apply List.map_congr_left
    intro r _
    exact glyph_of_member r
  rw [e]
  simp only [newSpecResult, String.append_assoc]

/-- The map entry of a group that has a member, after the aggregation pass. -/
theorem aggregate_get_of_mem (rs : List KtTestResult) (g : String) (hg : g ∈ groupKeys rs) :
    (rs.foldl aggregateResult []).get g
      = some ((groupMembers g rs).foldl addMember (newSpecResult g)) := by
  have hne : g ≠ "" := by
    unfold groupKeys at hg
    simp only [List.mem_filter, decide_eq_true_eq] at hg
    exact hg.2
  have hmem : groupMembers g rs ≠ [] := by
    unfold groupKeys at hg
    simp only [List.mem_filter, List.mem_map, decide_eq_true_eq] at hg
    obtain ⟨⟨r, hr, hrg⟩, _⟩ := hg
    intro h
    have : r ∈ groupMembers g rs := by
      unfold groupMembers
      simp [hr, hrg]
    rw [h] at this
    exact absurd this (List.not_mem_nil _)
  rw [aggregate_get g hne]
  cases hms : groupMembers g rs with
  | nil => exact absurd hms hmem
  | cons r ms =>
    simp only [List.foldl_cons, SpecMap.get, Option.getD_none]
    rw [foldl_some_addMember]

/-! ## The rendering pass of displayResultsBySpecId -/

theorem groupKeys_cons (r : KtTestResult) (rs : List KtTestResult) :
    groupKeys (r :: rs) = if r.SpecId = "" then groupKeys rs else r.SpecId :: groupKeys rs := by
  unfold groupKeys
  by_cases h : r.SpecId = ""
  · simp [h]
  · simp [h]

/-- The rendering loop from a state with an active group `cur`: the lines of `cur` and of
every later group change are printed, in order. -/
theorem groupStep_foldl_active (m : SpecMap) (line : String → String)
    (rs : List KtTestResult) (cur : String) (out : String) (hcur : cur ≠ "")
    (hm : ∀ g, g = cur ∨ g ∈ groupKeys rs → (m.get g).map displaySpecResult = some (line g)) :
    flushSpec m (rs.foldl (groupStep m) (cur, some out)).1
        (rs.foldl (groupStep m) (cur, some out)).2
      = some (out ++ concatAll ((List.destutter' (fun a b => a ≠ b) cur (groupKeys rs)).map line)) ∧
    (rs.foldl (groupStep m) (cur, some out)).1 ≠ "" := by
  induction rs generalizing cur out with
  | nil =>
    have h := hm cur (Or.inl rfl)
    cases hget : m.get cur with
    | none => simp [hget] at h
    | some sr =>
      simp only [hget, Option.map_some', Option.some.injEq] at h
      simp [flushSpec, hget, groupKeys, concatAll, h, hcur]
  | cons r rs ih =>
    rw [List.foldl_cons, groupKeys_cons]
    by_cases h1 : r.SpecId = ""
    · have hstep : groupStep m (cur, some out) r = (cur, some out) := by
        simp [groupStep, h1]
      rw [hstep, if_pos h1]
      apply ih cur out hcur
      intro g hg
      apply hm g
      rcases hg with hg | hg
      · exact Or.inl hg
      · right
        rw [groupKeys_cons, if_pos h1]
        exact hg
    · rw [if_neg h1]
      by_cases h2 : r.SpecId = cur
      · have hstep : groupStep m (cur, some out) r = (cur, some out) := by
          simp [groupStep, h2]
        rw [hstep, h2, List.destutter'_cons_neg _ (by simp)]
        apply ih cur out hcur
        intro g hg
        apply hm g
        rcases hg with hg | hg
        · exact Or.inl hg
        · right
          rw [groupKeys_cons, if_neg h1]
          exact List.mem_cons_of_mem _ hg
      · have hl := hm cur (Or.inl rfl)
        cases hget : m.get cur with
        | none => simp [hget] at hl
        | some sr =>
          simp only [hget, Option.map_some', Option.some.injEq] at hl
          have hstep : groupStep m (cur, some out) r
              = (r.SpecId, some (out ++ line cur)) := by
            simp [groupStep, h1, h2, hcur, flushSpec, hget, hl]
          have hne : cur ≠ r.SpecId := fun h => h2 h.symm
          rw [hstep, List.destutter'_cons_pos _ hne]
          have h3 := ih r.SpecId (out ++ line cur) h1 (by
            intro g hg
            apply hm g
            right
            rw [groupKeys_cons, if_neg h1]
            rcases hg with hg | hg
            · rw [hg]
              exact List.mem_cons_self _ _
            · exact List.mem_cons_of_mem _ hg)
          refine ⟨?_, h3.2⟩
          rw [h3.1]
          simp [concatAll, String.append_assoc]

/-- The rendering loop from the initial state, followed by the final flush. -/
theorem groupStep_foldl_initial (m : SpecMap) (line : String → String)
    (rs : List KtTestResult) (out : String)
    (hm : ∀ g, g ∈ groupKeys rs → (m.get g).map displaySpecResult = some (line g)) :
    (if (rs.foldl (groupStep m) ("", some out)).1 != "" then
        flushSpec m (rs.foldl (groupStep m) ("", some out)).1
          (rs.foldl (groupStep m) ("", some out)).2
      else (rs.foldl (groupStep m) ("", some out)).2)
      = some (out ++ concatAll ((List.destutter (fun a b => a ≠ b) (groupKeys rs)).map line)) := by
  induction rs with
  | nil => simp [groupKeys, concatAll]
  | cons r rs ih =>
    rw [List.foldl_cons, groupKeys_cons]
    by_cases h1 : r.SpecId = ""
    · have hstep : groupStep m ("", some out) r = ("", some out) := by
        simp [groupStep, h1]
      rw [hstep, if_pos h1]
      apply ih
      intro g hg
      apply hm g
      rw [groupKeys_cons, if_pos h1]
      exact hg
    · have hstep : groupStep m ("", some out) r = (r.SpecId, some out) := by
        simp [groupStep, h1]
      rw [hstep, if_neg h1, List.destutter_cons']
      have h3 := groupStep_foldl_active m line rs r.SpecId out h1 (by
        intro g hg
        apply hm g
        rw [groupKeys_cons, if_neg h1]
        rcases hg with hg | hg
        · rw [hg]
          exact List.mem_cons_self _ _
        · exact List.mem_cons_of_mem _ hg)
      have h4 : ((rs.foldl (groupStep m) (r.SpecId, some out)).1 != "") = true := by
        simpa using h3.2
      rw [if_pos h4, h3.1]

/-- The output of displayResultsBySpecId: one line for every change of the non-empty
SpecId along the sequence, each with all the members of its group. -/
theorem displayResultsBySpecId_eq (rs : List KtTestResult) :
    displayResultsBySpecId rs
      = some (concatAll ((List.destutter (fun a b => a ≠ b) (groupKeys rs)).map
          (fun g => groupLine g (groupMembers g rs)))) := by
  unfold displayResultsBySpecId
  have h := groupStep_foldl_initial (rs.foldl aggregateResult [])
    (fun g => groupLine g (groupMembers g rs)) rs "" (by
      intro g hg
      rw [aggregate_get_of_mem rs g hg]
      simp [displaySpecResult_members])
  simpa using h

/-! ## Contiguous groups -/

theorem destutter'_eq_dropWhile (k : String) (ks : List String) :
    List.destutter' (fun a b => a ≠ b) k ks
      = k :: List.destutter (fun a b => a ≠ b) (ks.dropWhile (fun x => decide (x = k))) := by
  induction ks with
  | nil => simp
  | cons b l ih =>
    by_cases h : b = k
    · subst h
      rw [List.destutter'_cons_neg _ (by simp), ih]
      simp [List.dropWhile_cons]
    · have hne : k ≠ b := fun e => h e.symm
      rw [List.destutter'_cons_pos _ hne]
      simp [List.dropWhile_cons, h, List.destutter_cons']

theorem mem_distinctInOrder (x : String) (l : List String) : x ∈ distinctInOrder l ↔ x ∈ l := by
  induction l with
  | nil => simp [distinctInOrder]
  | cons k ks ih =>
    simp only [distinctInOrder, List.mem_cons, List.mem_filter, ih, decide_eq_true_eq]
    by_cases h : x = k
    · simp [h]
    · simp [h]

theorem nodup_distinctInOrder (l : List String) : (distinctInOrder l).Nodup := by
  induction l with
  | nil => simp [distinctInOrder]
  | cons k ks ih =>
    simp only [distinctInOrder, List.nodup_cons, List.mem_filter, decide_eq_true_eq]
    refine ⟨fun h => h.2 rfl, ih.filter _⟩

theorem filter_distinctInOrder (p : String → Bool) (l : List String) :
    (distinctInOrder l).filter p = distinctInOrder (l.filter p) := by
  induction l with
  | nil => simp [distinctInOrder]
  | cons k ks ih =>
    by_cases h : p k = true
    · simp only [distinctInOrder, List.filter_cons, h, if_true]
      rw [List.filter_comm, ih]
    · simp only [distinctInOrder, List.filter_cons, h]
      rw [List.filter_comm, ih]
      apply List.filter_eq_self.2
      intro x hx
      rw [mem_distinctInOrder, List.mem_filter] at hx
      have : x ≠ k := by
        intro e
        rw [e] at hx
        exact h hx.2
      simpa using this

theorem filter_ne_eq_dropWhile (k : String) (ks : List String)
    (h : k ∉ ks.dropWhile (fun x => decide (x = k))) :
    ks.filter (fun x => decide (x ≠ k)) = ks.dropWhile (fun x => decide (x = k)) := by
  induction ks with
  | nil => simp
  | cons b l ih =>
    by_cases hb : b = k
    · subst hb
      have h2 : b ∉ l.dropWhile (fun x => decide (x = b)) := by
        simpa [List.dropWhile_cons] using h
      have e := ih h2
      simp only [List.filter_cons, List.dropWhile_cons, decide_True, decide_not, Bool.not_true,
        if_true, Bool.false_eq_true, if_false]
      simpa using e
    · have h2 : k ∉ b :: l := by
        simpa [List.dropWhile_cons, hb] using h
      have h3 : (b :: l).dropWhile (fun x => decide (x = k)) = b :: l := by
        simp [List.dropWhile_cons, hb]
      rw [h3]
      apply List.filter_eq_self.2
      intro x hx
      have : x ≠ k := by
        intro e
        rw [e] at hx
        exact h2 hx
      simpa using this

theorem contiguousGroups_suffix (l1 l2 : List String) (h : ContiguousGroups (l1 ++ l2)) :
    ContiguousGroups l2 := by
  intro a b c g he x hx
  apply h (l1 ++ a) b c g _ x hx
  rw [he, List.append_assoc]

theorem contiguousGroups_head (k : String) (ks : List String)
    (h : ContiguousGroups (k :: ks)) : k ∉ ks.dropWhile (fun x => decide (x = k)) := by
  intro hk
  have hsplit : ks = ks.takeWhile (fun x => decide (x = k))
      ++ ks.dropWhile (fun x => decide (x = k)) := (List.takeWhile_append_dropWhile _ _).symm
  cases hd : ks.dropWhile (fun x => decide (x = k)) with
  | nil =>
    rw [hd] at hk
    exact absurd hk (List.not_mem_nil _)
  | cons b0 d =>
    have hb0 : b0 ≠ k := by
      have h1 := List.dropWhile_get_zero_not (fun x => decide (x = k)) ks (by rw [hd]; simp)
      simp only [hd, List.get_eq_getElem, List.getElem_cons_zero, decide_eq_true_eq] at h1
      exact h1
    rw [hd] at hk
    have hk2 : k ∈ d := by
      rcases List.mem_cons.1 hk with e | e
      · exact absurd e.symm hb0
      · exact e
    obtain ⟨s, c, hsc⟩ := List.append_of_mem hk2
    have key : k :: ks = [] ++ k :: ((ks.takeWhile (fun x => decide (x = k)) ++ b0 :: s) ++ k :: c) := by
      rw [List.nil_append]
      congr 1
      rw [List.append_assoc, List.cons_append, ← hsc, ← hd]
      exact hsplit
    have := h [] _ c k key b0 (by simp)
    exact hb0 this

theorem destutter_eq_distinctInOrder_aux (n : Nat) :
    ∀ keys : List String, keys.length ≤ n → ContiguousGroups keys →
      List.destutter (fun a b => a ≠ b) keys = distinctInOrder keys := by
  induction n with
  | zero =>
    intro keys hlen _
    have : keys = [] := List.length_eq_zero.1 (Nat.le_zero.1 hlen)
    subst this
    simp [distinctInOrder]
  | succ n ih =>
    intro keys hlen h
    cases keys with
    | nil => simp [distinctInOrder]
    | cons k ks =>
      have hnot := contiguousGroups_head k ks h
      have htail : ContiguousGroups ks := contiguousGroups_suffix [k] ks h
      have hsplit : ks = ks.takeWhile (fun x => decide (x = k))
          ++ ks.dropWhile (fun x => decide (x = k)) := (List.takeWhile_append_dropWhile _ _).symm
      have hdrop : ContiguousGroups (ks.dropWhile (fun x => decide (x = k))) := by
        apply contiguousGroups_suffix (ks.takeWhile (fun x => decide (x = k)))
        rw [← hsplit]
        exact htail
      have hlen2 : (ks.dropWhile (fun x => decide (x = k))).length ≤ n := by
        have h1 : (ks.dropWhile (fun x => decide (x = k))).length ≤ ks.length :=
          (List.dropWhile_sublist _).length_le
        rw [List.length_cons] at hlen
        omega
      rw [List.destutter_cons', destutter'_eq_dropWhile, ih _ hlen2 hdrop]
      simp only [distinctInOrder]
      rw [filter_distinctInOrder, filter_ne_eq_dropWhile k ks hnot]

/-- With contiguous groups, the group changes are the distinct keys in the order of their
first occurrence. -/
theorem destutter_eq_distinctInOrder (keys : List String) (h : ContiguousGroups keys) :
    List.destutter (fun a b => a ≠ b) keys = distinctInOrder keys :=
  destutter_eq_distinctInOrder_aux keys.length keys (Nat.le_refl _) h

theorem mem_dropWhile_of_exists_ne (k : String) (b c : List String) (h : ∃ x ∈ b, x ≠ k) :
    k ∈ (b ++ k :: c).dropWhile (fun x => decide (x = k)) := by
  induction b with
  | nil =>
    obtain ⟨x, hx, _⟩ := h
    exact absurd hx (List.not_mem_nil _)
  | cons y b ih =>
    by_cases hy : y = k
    · subst hy
      have h2 : ∃ x ∈ b, x ≠ y := by
        obtain ⟨x, hx, hxk⟩ := h
        rcases List.mem_cons.1 hx with e | e
        · exact absurd e hxk
        · exact ⟨x, e, hxk⟩
      simpa [List.dropWhile_cons] using ih h2
    · simp [List.dropWhile_cons, hy]

/-- The check `runsContiguous` is sound for `ContiguousGroups`. -/
theorem contiguousGroups_of_check (keys : List String) (h : runsContiguous keys = true) :
    ContiguousGroups keys := by
  induction keys with
  | nil =>
    intro a b c g he
    simp at he
  | cons k ks ih =>
    simp only [runsContiguous, Bool.and_eq_true, Bool.not_eq_true', List.contains_eq_any_beq,
      List.any_eq_false, beq_iff_eq] at h
    obtain ⟨h1, h2⟩ := h
    intro a b c g he x hx
    cases a with
    | nil =>
      simp only [List.nil_append, List.cons.injEq] at he
      obtain ⟨hkg, hks⟩ := he
      subst hkg
      by_contra hne
      have hmem := mem_dropWhile_of_exists_ne k b c ⟨x, hx, hne⟩
      rw [← hks] at hmem
      exact h1 k hmem rfl
    | cons a0 a =>
      simp only [List.cons_append, List.cons.injEq] at he
      exact ih h2 a b c g he.2 x hx

/-! ## The grouped view -/

theorem groupLine_eq (g : String) (members : List KtTestResult) :
    groupLine g members
      = g ++ " "
        ++ concatAll (members.map (fun r =>
            if r.Status = "FAILED" ∨ r.Throwable ≠ "" then "\x1b[31mF\x1b[0m"
            else "\x1b[32m.\x1b[0m"))
        ++ " (" ++ F64.fmt3 (sumSeconds members) ++ "s)\n" := by
  unfold groupLine
  have e : glyphText = (fun r : KtTestResult =>
      if r.Status = "FAILED" ∨ r.Throwable ≠ "" then "\x1b[31mF\x1b[0m"
      else "\x1b[32m.\x1b[0m") := by
    funext r
    unfold glyphText
    have h1 : colorRed ++ "F" ++ colorReset = "\x1b[31mF\x1b[0m" := by decide
    have h2 : colorGreen ++ "." ++ colorReset = "\x1b[32m.\x1b[0m" := by decide
    rw [h1, h2]
  rw [e]

/-- C5: displayResultsBySpecId prints one line at every change of the non-empty SpecId, and
the line printed for the group identifier g consists of g, a blank, then the glyphs
obtained by taking in order the results with SpecId == g and mapping each to a red "F" if
Status == "FAILED" or Throwable != "" and to a green "." otherwise, then the duration.  So
the number of glyphs is the number of results with SpecId == g, and a result gets "F"
iff getFailedResults keeps it. -/
theorem displayResultsBySpecId_glyphs (testResults : List KtTestResult) :
    displayResultsBySpecId testResults
      = some (concatAll ((List.destutter (fun a b => a ≠ b) (groupKeys testResults)).map
          (fun g => g ++ " "
            ++ concatAll ((testResults.filter (fun r => decide (r.SpecId = g))).map (fun r =>
                if r.Status = "FAILED" ∨ r.Throwable ≠ "" then "\x1b[31mF\x1b[0m"
                else "\x1b[32m.\x1b[0m"))
            ++ " (" ++ F64.fmt3 (sumSeconds (testResults.filter (fun r => decide (r.SpecId = g))))
            ++ "s)\n"))) ∧
    (∀ g : String,
      ((testResults.filter (fun r => decide (r.SpecId = g))).map (fun r =>
          if r.Status = "FAILED" ∨ r.Throwable ≠ "" then "\x1b[31mF\x1b[0m"
          else "\x1b[32m.\x1b[0m")).length
        = testResults.countP (fun r => decide (r.SpecId = g))) ∧
    (∀ r : KtTestResult, r ∈ testResults →
      ((if r.Status = "FAILED" ∨ r.Throwable ≠ "" then "\x1b[31mF\x1b[0m"
          else "\x1b[32m.\x1b[0m") = "\x1b[31mF\x1b[0m"
        ↔ r ∈ getFailedResults testResults)) := by
  refine ⟨?_, ?_, ?_⟩
  · rw [displayResultsBySpecId_eq]
    have e : (fun g => groupLine g (groupMembers g testResults))
        = (fun g => g ++ " "
            ++ concatAll ((testResults.filter (fun r => decide (r.SpecId = g))).map (fun r =>
                if r.Status = "FAILED" ∨ r.Throwable ≠ "" then "\x1b[31mF\x1b[0m"
                else "\x1b[32m.\x1b[0m"))
            ++ " (" ++ F64.fmt3 (sumSeconds (testResults.filter (fun r => decide (r.SpecId = g))))
            ++ "s)\n") := by
      funext g
      rw [groupLine_eq]
      rfl
    rw [e]
  · intro g
    rw [List.length_map, List.countP_eq_length_filter]
  · intro r hr
    rw [getFailedResults_filter, List.mem_filter, isFailed_iff]
    by_cases h : r.Status = "FAILED" ∨ r.Throwable ≠ ""
    · simp [h, hr]
    · rw [if_neg h]
      constructor
      · intro e
        exact absurd e (by decide)
      · intro e
        exact absurd e.2 h

/-- C5 witness: the groups A (a pass and a failure by Throwable) and B (a failure). -/
theorem displayResultsBySpecId_glyphs_witness :
    displayResultsBySpecId contiguousSample
      = some ("A \x1b[32m.\x1b[0m\x1b[31mF\x1b[0m (0.460s)\n" ++ "B \x1b[31mF\x1b[0m (0.005s)\n") :=
  (displayResultsBySpecId_glyphs contiguousSample).1.trans (by decide)

theorem distinctInOrder_pairwise_indexOf (l : List String) :
    (distinctInOrder l).Pairwise (fun g h => l.indexOf g < l.indexOf h) := by
  induction l with
  | nil => simp [distinctInOrder]
  | cons k ks ih =>
    simp only [distinctInOrder, List.pairwise_cons]
    constructor
    · intro h hh
      have hne : h ≠ k := by simpa using (List.mem_filter.1 hh).2
      rw [List.indexOf_cons_self, List.indexOf_cons_ne _ (fun e => hne e.symm)]
      omega
    · have h1 := ih.sublist
        (List.filter_sublist (distinctInOrder ks) (p := fun x => decide (x ≠ k)))
      refine List.Pairwise.imp_of_mem ?_ h1
      intro a b ha hb hab
      have hane : a ≠ k := by simpa using (List.mem_filter.1 ha).2
      have hbne : b ≠ k := by simpa using (List.mem_filter.1 hb).2
      rw [List.indexOf_cons_ne _ (fun e => hane e.symm),
        List.indexOf_cons_ne _ (fun e => hbne e.symm)]
      omega

/-- C6: when the members of every non-empty SpecId are contiguous once the results with an
empty SpecId are disregarded, displayResultsBySpecId prints exactly one line for each
distinct non-empty SpecId, in the order in which the SpecIds first appear: the printed
groups are the distinct keys ordered by the index of their first occurrence, without
repetition, they are exactly the non-empty SpecIds that occur, and their number is the
number of distinct non-empty SpecIds (nothing is printed when there is none). -/
theorem displayResultsBySpecId_contiguous (testResults : List KtTestResult)
    (hcontig : ContiguousGroups (groupKeys testResults)) :
    displayResultsBySpecId testResults
      = some (concatAll ((distinctInOrder (groupKeys testResults)).map
          (fun g => groupLine g (groupMembers g testResults)))) ∧
    (distinctInOrder (groupKeys testResults)).Pairwise
      (fun g h => (groupKeys testResults).indexOf g < (groupKeys testResults).indexOf h) ∧
    (distinctInOrder (groupKeys testResults)).Nodup ∧
    (∀ g : String, g ∈ distinctInOrder (groupKeys testResults)
      ↔ (g ≠ "" ∧ ∃ r ∈ testResults, r.SpecId = g)) ∧
    (distinctInOrder (groupKeys testResults)).length = (groupKeys testResults).toFinset.card ∧
    ((∀ r ∈ testResults, r.SpecId = "") → displayResultsBySpecId testResults = some "") := by
  have hout : displayResultsBySpecId testResults
      = some (concatAll ((distinctInOrder (groupKeys testResults)).map
          (fun g => groupLine g (groupMembers g testResults)))) := by
    rw [displayResultsBySpecId_eq, destutter_eq_distinctInOrder _ hcontig]
  refine ⟨hout, distinctInOrder_pairwise_indexOf _, nodup_distinctInOrder _, ?_, ?_, ?_⟩
  · intro g
    rw [mem_distinctInOrder]
    unfold groupKeys
    simp only [List.mem_filter, List.mem_map, decide_eq_true_eq]
    constructor
    · rintro ⟨⟨r, hr, e⟩, hne⟩
      exact ⟨hne, r, hr, e⟩
    · rintro ⟨hne, r, hr, e⟩
      exact ⟨⟨r, hr, e⟩, hne⟩
  · rw [← List.toFinset_card_of_nodup (nodup_distinctInOrder _)]
    congr 1
    ext g
    simp [mem_distinctInOrder]
  · intro hall
    have hk : groupKeys testResults = [] := by
      unfold groupKeys
      rw [List.filter_eq_nil_iff]
      intro k hk
      simp only [List.mem_map] at hk
      obtain ⟨r, hr, e⟩ := hk
      rw [← e, hall r hr]
      simp
    rw [hout, hk]
    rfl

/-- C6 witness: the SpecIds A, empty, A, B give the line of A and then the line of B. -/
theorem displayResultsBySpecId_contiguous_witness :
    displayResultsBySpecId contiguousSample
      = some ("A \x1b[32m.\x1b[0m\x1b[31mF\x1b[0m (0.460s)\n" ++ "B \x1b[31mF\x1b[0m (0.005s)\n") ∧
    distinctInOrder (groupKeys contiguousSample) = ["A", "B"] :=
  ⟨(displayResultsBySpecId_contiguous contiguousSample
      (contiguousGroups_of_check _ (by decide))).1.trans (by decide), by decide⟩

/-! ## A group that reappears -/

theorem groupKeys_append (xs ys : List KtTestResult) :
    groupKeys (xs ++ ys) = groupKeys xs ++ groupKeys ys := by
  simp [groupKeys]

theorem groupKeys_of_all (a : String) (ha : a ≠ "") (xs : List KtTestResult)
    (h : ∀ r ∈ xs, r.SpecId = a) : groupKeys xs = List.replicate xs.length a := by
  induction xs with
  | nil => simp [groupKeys]
  | cons x xs ih =>
    have hx : x.SpecId = a := h x (List.mem_cons_self _ _)
    have hx2 : ¬ x.SpecId = "" := by
      rw [hx]
      exact ha
    rw [groupKeys_cons, if_neg hx2, ih (fun r hr => h r (List.mem_cons_of_mem _ hr)), hx]
    simp [List.replicate_succ]

theorem groupMembers_append (g : String) (xs ys : List KtTestResult) :
    groupMembers g (xs ++ ys) = groupMembers g xs ++ groupMembers g ys := by
  simp [groupMembers]

theorem groupMembers_of_all (a : String) (xs : List KtTestResult)
    (h : ∀ r ∈ xs, r.SpecId = a) : groupMembers a xs = xs := by
  unfold groupMembers
  apply List.filter_eq_self.2
  intro r hr
  simpa using h r hr

theorem groupMembers_of_none (a b : String) (hab : a ≠ b) (xs : List KtTestResult)
    (h : ∀ r ∈ xs, r.SpecId = b) : groupMembers a xs = [] := by
  unfold groupMembers
  rw [List.filter_eq_nil_iff]
  intro r hr
  rw [h r hr]
  simpa using fun e : b = a => hab e.symm

theorem destutter'_replicate_append (a : String) (n : Nat) (l : List String) :
    List.destutter' (fun x y => x ≠ y) a (List.replicate n a ++ l)
      = List.destutter' (fun x y => x ≠ y) a l := by
  induction n with
  | zero => simp
  | succ n ih =>
    rw [List.replicate_succ, List.cons_append, List.destutter'_cons_neg _ (by simp), ih]

/-- C8 (as stated) fails: for the SpecIds A, B, A (a pass of 100 ms, a pass of 5 ms, a
failure of 200 ms) the group A is rendered twice, but both renderings show the two members
of A and their summed duration, not the one member of the span. -/
theorem displayResultsBySpecId_spans_counterexample :
    displayResultsBySpecId reappearingGroup
      = some ("A \x1b[32m.\x1b[0m\x1b[31mF\x1b[0m (0.300s)\n"
          ++ "B \x1b[32m.\x1b[0m (0.005s)\n"
          ++ "A \x1b[32m.\x1b[0m\x1b[31mF\x1b[0m (0.300s)\n") ∧
    displayResultsBySpecId reappearingGroup
      ≠ some ("A \x1b[32m.\x1b[0m (0.100s)\n"
          ++ "B \x1b[32m.\x1b[0m (0.005s)\n"
          ++ "A \x1b[31mF\x1b[0m (0.200s)\n") := by
  decide

/-- C8 (amended): when the results are a non-empty span of the group a, then a non-empty
span of another group b, then again a non-empty span of a, displayResultsBySpecId renders
the group a twice, before and after the line of b, and each of the two renderings shows
all the members of a, those of both spans: the glyphs of the first span followed by those
of the second, and the duration summed over both. -/
theorem displayResultsBySpecId_reappearing (a b : String) (xs ys zs : List KtTestResult)
    (ha : a ≠ "") (hb : b ≠ "") (hab : a ≠ b)
    (hxs : xs ≠ []) (hys : ys ≠ []) (hzs : zs ≠ [])
    (hxa : ∀ r ∈ xs, r.SpecId = a) (hyb : ∀ r ∈ ys, r.SpecId = b)
    (hza : ∀ r ∈ zs, r.SpecId = a) :
    displayResultsBySpecId (xs ++ ys ++ zs)
      = some (groupLine a (xs ++ zs) ++ groupLine b ys ++ groupLine a (xs ++ zs)) ∧
    groupLine a (xs ++ zs)
      = a ++ " " ++ concatAll (xs.map glyphText) ++ concatAll (zs.map glyphText)
        ++ " (" ++ F64.fmt3 (sumSeconds (xs ++ zs)) ++ "s)\n" := by
  constructor
  · rw [displayResultsBySpecId_eq]
    have hk : List.destutter (fun x y => x ≠ y) (groupKeys (xs ++ ys ++ zs)) = [a, b, a] := by
      rw [groupKeys_append, groupKeys_append, groupKeys_of_all a ha xs hxa,
        groupKeys_of_all b hb ys hyb, groupKeys_of_all a ha zs hza]
      obtain ⟨n, hn⟩ := Nat.exists_eq_succ_of_ne_zero (fun h => hxs (List.length_eq_zero.1 h))
      obtain ⟨m, hm⟩ := Nat.exists_eq_succ_of_ne_zero (fun h => hys (List.length_eq_zero.1 h))
      obtain ⟨p, hp⟩ := Nat.exists_eq_succ_of_ne_zero (fun h => hzs (List.length_eq_zero.1 h))
      rw [hn, hm, hp]
      simp only [List.replicate_succ, List.cons_append, List.append_assoc, List.destutter_cons']
      rw [destutter'_replicate_append, List.destutter'_cons_pos _ hab,
        destutter'_replicate_append, List.destutter'_cons_pos _ (fun e => hab e.symm)]
      have e := destutter'_replicate_append a p []
      rw [List.append_nil] at e
      rw [e, List.destutter'_nil]
    have hma : groupMembers a (xs ++ ys ++ zs) = xs ++ zs := by
      rw [groupMembers_append, groupMembers_append, groupMembers_of_all a xs hxa,
        groupMembers_of_none a b hab ys hyb, groupMembers_of_all a zs hza, List.append_nil]
    have hmb : groupMembers b (xs ++ ys ++ zs) = ys := by
      rw [groupMembers_append, groupMembers_append,
        groupMembers_of_none b a (fun e => hab e.symm) xs hxa, groupMembers_of_all b ys hyb,
        groupMembers_of_none b a (fun e => hab e.symm) zs hza, List.append_nil, List.nil_append]
    rw [hk]
    simp only [List.map_cons, List.map_nil, concatAll, hma, hmb, String.append_empty,
      String.append_assoc]
  · unfold groupLine
    rw [List.map_append, concatAll_append]
    simp only [String.append_assoc]

/-- C8 witness: the SpecIds A, B, A. -/
theorem displayResultsBySpecId_reappearing_witness :
    displayResultsBySpecId reappearingGroup
      = some ("A \x1b[32m.\x1b[0m\x1b[31mF\x1b[0m (0.300s)\n"
          ++ "B \x1b[32m.\x1b[0m (0.005s)\n"
          ++ "A \x1b[32m.\x1b[0m\x1b[31mF\x1b[0m (0.300s)\n") :=
  (displayResultsBySpecId_reappearing "A" "B"
    [mkResult "t1" "A" "PASSED" 100 "" "" ""] [mkResult "t2" "B" "PASSED" 5 "" "" ""]
    [mkResult "t3" "A" "FAILED" 200 "" "" ""]
    (by decide) (by decide) (by decide) (by decide) (by decide) (by decide)
    (by decide) (by decide) (by decide)).1.trans (by decide)

/-! ## The main program -/

theorem main_of_loaded (S : SliceSorter) (L : Int) (readFile : String → Except GoError Bytes)
    (unmarshal : Bytes → Except GoError KtTestReport) (report : KtTestReport)
    (hload : processJsonTestResults readFile unmarshal = .ok report) :
    ktreport.main S L readFile unmarshal
      = some (headerBanner
        ++ concatAll ((List.destutter (fun a b => a ≠ b)
            (groupKeys (sortTestResultsByUniqueId S report).TestResults)).map
            (fun g => groupLine g (groupMembers g (sortTestResultsByUniqueId S report).TestResults)))
        ++ (if (getFailedResults (sortTestResultsByUniqueId S report).TestResults).length > 0 then
              failuresBanner
                ++ displayFailedResults
                    (getFailedResults (sortTestResultsByUniqueId S report).TestResults) L
            else "")
        ++ summaryBanner
        ++ displaySummary report.TotalTests report.Failed (secondsOfMs report.TotalDurationMs)
        ++ closingBanner) := by
  unfold ktreport.main
  rw [hload]
  simp only [displayResultsBySpecId_eq]
  rfl

theorem exists_failed_sorted_iff (S : SliceSorter) (report : KtTestReport) :
    (getFailedResults (sortTestResultsByUniqueId S report).TestResults).length > 0
      ↔ ∃ r ∈ report.TestResults, r.Status = "FAILED" ∨ r.Throwable ≠ "" := by
  have hperm : (sortTestResultsByUniqueId S report).TestResults.Perm report.TestResults :=
    S.perm _ _
  rw [getFailedResults_filter, gt_iff_lt, List.length_pos_iff_exists_mem]
  constructor
  · rintro ⟨r, hr⟩
    rw [List.mem_filter, isFailed_iff] at hr
    exact ⟨r, hperm.mem_iff.1 hr.1, hr.2⟩
  · rintro ⟨r, hr, hf⟩
    exact ⟨r, List.mem_filter.2 ⟨hperm.mem_iff.2 hr, (isFailed_iff r).2 hf⟩⟩

/-- C11: for every successfully loaded report, when some test result has Status == "FAILED"
or a non-empty Throwable (whatever the top-level Failed counter says) the output of the
program is the header banner "= ktreport ===...", the group lines of the sorted results, the
banner "= failures ===..." followed by the failure blocks of the failed results, of which
there is at least one, then the banner "= short test summary info ===...", the summary line
computed from the top-level counters, and the closing line of "="; in particular the output
contains the text of the "= failures" banner.  When no test result is failed the output is
the same without the failures banner and without failure blocks.  For a report without test
results and with failed = 0 the output is exactly the header banner, the summary banner, the
PASSED summary line and the closing line. -/
theorem main_failures_section (S : SliceSorter) (L : Int)
    (readFile : String → Except GoError Bytes)
    (unmarshal : Bytes → Except GoError KtTestReport) (report : KtTestReport)
    (hload : processJsonTestResults readFile unmarshal = .ok report) :
    ((∃ r ∈ report.TestResults, r.Status = "FAILED" ∨ r.Throwable ≠ "") →
      ktreport.main S L readFile unmarshal
        = some ("= ktreport ===============================================================================================\n\n"
          ++ concatAll ((List.destutter (fun a b => a ≠ b)
              (groupKeys (sortTestResultsByUniqueId S report).TestResults)).map
              (fun g =>
                groupLine g (groupMembers g (sortTestResultsByUniqueId S report).TestResults)))
          ++ ("\n= failures ===============================================================================================\n"
            ++ displayFailedResults
                (getFailedResults (sortTestResultsByUniqueId S report).TestResults) L)
          ++ "\n= short test summary info =================================================================================\n"
          ++ displaySummary report.TotalTests report.Failed
              (secondsOfMs report.TotalDurationMs)
          ++ "===========================================================================================================\n") ∧
        getFailedResults (sortTestResultsByUniqueId S report).TestResults ≠ [] ∧
        (∀ out, ktreport.main S L readFile unmarshal = some out →
          ("\n= failures ===============================================================================================\n").data
            <:+: out.data)) ∧
    ((¬ ∃ r ∈ report.TestResults, r.Status = "FAILED" ∨ r.Throwable ≠ "") →
      ktreport.main S L readFile unmarshal
        = some ("= ktreport ===============================================================================================\n\n"
          ++ concatAll ((List.destutter (fun a b => a ≠ b)
              (groupKeys (sortTestResultsByUniqueId S report).TestResults)).map
              (fun g =>
                groupLine g (groupMembers g (sortTestResultsByUniqueId S report).TestResults)))
          ++ "\n= short test summary info =================================================================================\n"
          ++ displaySummary report.TotalTests report.Failed
              (secondsOfMs report.TotalDurationMs)
          ++ "===========================================================================================================\n")) ∧
    (report.TestResults = [] → report.Failed = 0 →
      ktreport.main S L readFile unmarshal
        = some ("= ktreport ===============================================================================================\n\n"
          ++ "\n= short test summary info =================================================================================\n"
          ++ ("\x1b[32mPASSED\x1b[0m " ++ toString (wrapInt64 (report.TotalTests - 0))
            ++ " passed in " ++ F64.fmt3 (secondsOfMs report.TotalDurationMs) ++ "s\n")
          ++ "===========================================================================================================\n")) := by
  have hmain := main_of_loaded S L readFile unmarshal report hload
  have hiff := exists_failed_sorted_iff S report
  refine ⟨?_, ?_, ?_⟩
  · intro h
    have hpos := hiff.2 h
    rw [hmain, if_pos hpos]
    refine ⟨rfl, ?_, ?_⟩
    · intro hnil
      rw [hnil] at hpos
      exact absurd hpos (by decide)
    · intro out hout
      rw [← Option.some.inj hout]
      refine ⟨(headerBanner
          ++ concatAll ((List.destutter (fun a b => a ≠ b)
              (groupKeys (sortTestResultsByUniqueId S report).TestResults)).map
              (fun g =>
                groupLine g
                  (groupMembers g (sortTestResultsByUniqueId S report).TestResults)))).data,
        (displayFailedResults
            (getFailedResults (sortTestResultsByUniqueId S report).TestResults) L
          ++ summaryBanner
          ++ displaySummary report.TotalTests report.Failed
              (secondsOfMs report.TotalDurationMs)
          ++ closingBanner).data, ?_⟩
      simp only [String.data_append, List.append_assoc]
      rfl
  · intro h
    have hnpos : ¬ (getFailedResults (sortTestResultsByUniqueId S report).TestResults).length > 0 :=
      fun hp => h (hiff.1 hp)
    rw [hmain, if_neg hnpos, String.append_empty]
    rfl
  · intro hnil hfailed
    have hsorted : (sortTestResultsByUniqueId S report).TestResults = [] := by
      have hperm : (sortTestResultsByUniqueId S report).TestResults.Perm report.TestResults :=
        S.perm _ _
      rw [hnil] at hperm
      exact List.Perm.eq_nil hperm
    rw [hmain, hsorted, hfailed]
    have e1 : getFailedResults [] = [] := rfl
    have e2 : groupKeys [] = [] := rfl
    rw [e1, e2]
    have e3 : displaySummary report.TotalTests 0 (secondsOfMs report.TotalDurationMs)
        = "\x1b[32mPASSED\x1b[0m " ++ toString (wrapInt64 (report.TotalTests - 0))
            ++ " passed in " ++ F64.fmt3 (secondsOfMs report.TotalDurationMs) ++ "s\n" := by
      unfold displaySummary
      have h2 : colorGreen ++ "PASSED" ++ colorReset ++ " " = "\x1b[32mPASSED\x1b[0m " := by
        decide
      have h3 : " passed in " = " passed" ++ " in " := by decide
      simp only [gt_iff_lt, lt_self_iff_false, if_false]
      rw [h2, h3]
      simp only [String.append_empty, String.append_assoc]
    rw [e3]
    simp only [List.destutter_nil, List.map_nil, concatAll, List.length_nil, gt_iff_lt,
      lt_self_iff_false, if_false, String.append_empty]
    rfl

/-- C11 witness: a loaded report with one passing and one failing result, whose output
holds the "= failures" banner and the block of the failed result, and an empty report,
whose output holds neither. -/
theorem main_failures_section_witness :
    (ktreport.main insertionSorter 7 someFile (decodeTo sampleReport)
      = some ("= ktreport ===============================================================================================\n\n"
          ++ "A \x1b[32m.\x1b[0m\x1b[31mF\x1b[0m (0.030s)\n"
          ++ "\n= failures ===============================================================================================\n"
          ++ "\n\x1b[1mt2\x1b[0m (0.020s)\n\n"
          ++ "\n= short test summary info =================================================================================\n"
          ++ "\x1b[31mFAILED\x1b[0m 1 passed, 1 failed in 0.030s\n"
          ++ "===========================================================================================================\n") ∧
      ("\n= failures ===============================================================================================\n").data
        <:+: ((ktreport.main insertionSorter 7 someFile (decodeTo sampleReport)).getD "").data) ∧
    (ktreport.main insertionSorter 7 someFile (decodeTo emptyReport)
      = some ("= ktreport ===============================================================================================\n\n"
          ++ "\n= short test summary info =================================================================================\n"
          ++ "\x1b[32mPASSED\x1b[0m 0 passed in 0.000s\n"
          ++ "===========================================================================================================\n") ∧
      ¬ ("= failures".data
        <:+: ((ktreport.main insertionSorter 7 someFile (decodeTo emptyReport)).getD "").data)) :=
  ⟨⟨((main_failures_section insertionSorter 7 someFile (decodeTo sampleReport) sampleReport
        rfl).1
      ⟨mkResult "t2" "A" "FAILED" 20 "" "" "", by decide, by decide⟩).1.trans (by decide),
    ((main_failures_section insertionSorter 7 someFile (decodeTo sampleReport) sampleReport
        rfl).1
      ⟨mkResult "t2" "A" "FAILED" 20 "" "" "", by decide, by decide⟩).2.2 _ (by decide)⟩,
    ((main_failures_section insertionSorter 7 someFile (decodeTo emptyReport) emptyReport
        rfl).2.2 rfl rfl).trans (by decide), by decide⟩

/-! ## Load and parse errors -/

/-- C14: when reading the file fails with the cause `cause`, processJsonTestResults returns
an error whose message is "JSONファイル 'build/test-results/ktreport.json'
の読み込み中にエラーが発生しました: " followed by the message of the cause, which contains
the attempted path, and which wraps the cause; the whole output of the program is then
"エラー: ", this message and the end of the line, and it is one line when the message of
the cause has no line feed.  When the content fails to decode the same holds with
"のパース中にエラーが発生しました". -/
theorem main_load_error (S : SliceSorter) (L : Int) (readFile : String → Except GoError Bytes)
    (unmarshal : Bytes → Except GoError KtTestReport) (cause : GoError)
    (hfail : readFile "build/test-results/ktreport.json" = .error cause ∨
      ∃ data, readFile "build/test-results/ktreport.json" = .ok data ∧
        unmarshal data = .error cause) :
    ∃ err : GoError,
      processJsonTestResults readFile unmarshal = .error err ∧
      (err.Error
          = "JSONファイル \x27build/test-results/ktreport.json\x27 の読み込み中にエラーが発生しました: "
            ++ cause.Error ∨
        err.Error
          = "JSONファイル \x27build/test-results/ktreport.json\x27 のパース中にエラーが発生しました: "
            ++ cause.Error) ∧
      "build/test-results/ktreport.json".data <:+: err.Error.data ∧
      err.Unwrap = some cause ∧
      ktreport.main S L readFile unmarshal = some ("エラー: " ++ err.Error ++ "\n") ∧
      ((∀ c ∈ cause.Error.data, c ≠ '\n') → ∀ c ∈ ("エラー: " ++ err.Error).data, c ≠ '\n') := by
  have hlit : ∀ t : String, t ∈ ["エラー: ",
      "JSONファイル \x27build/test-results/ktreport.json\x27 の読み込み中にエラーが発生しました: ",
      "JSONファイル \x27build/test-results/ktreport.json\x27 のパース中にエラーが発生しました: "] →
      ∀ c ∈ t.data, c ≠ '\n' := by decide
  rcases hfail with h | ⟨data, h1, h2⟩
  · refine ⟨.mk ("JSONファイル \x27" ++ "build/test-results/ktreport.json"
        ++ "\x27 の読み込み中にエラーが発生しました: " ++ cause.Error) (some cause), ?_, ?_, ?_, rfl, ?_, ?_⟩
    · unfold processJsonTestResults
      simp only [h]
    · left
      show _ ++ cause.Error = _ ++ cause.Error
      congr 1
    · exact ⟨"JSONファイル \x27".data,
        ("\x27 の読み込み中にエラーが発生しました: " ++ cause.Error).data, rfl⟩
    · unfold ktreport.main processJsonTestResults
      simp only [h]
    · intro hc c hmem
      have e : ("エラー: " ++ GoError.Error (.mk ("JSONファイル \x27"
            ++ "build/test-results/ktreport.json"
            ++ "\x27 の読み込み中にエラーが発生しました: " ++ cause.Error) (some cause))).data
          = "エラー: ".data
            ++ ("JSONファイル \x27build/test-results/ktreport.json\x27 の読み込み中にエラーが発生しました: ".data
              ++ cause.Error.data) := rfl
      rw [e] at hmem
      rcases List.mem_append.1 hmem with hm | hm
      · exact hlit _ (by simp) c hm
      · rcases List.mem_append.1 hm with hm | hm
        · exact hlit _ (by simp) c hm
        · exact hc c hm
  · refine ⟨.mk ("JSONファイル \x27" ++ "build/test-results/ktreport.json"
        ++ "\x27 のパース中にエラーが発生しました: " ++ cause.Error) (some cause), ?_, ?_, ?_, rfl, ?_, ?_⟩
    · unfold processJsonTestResults
      simp only [h1, h2]
    · right
      show _ ++ cause.Error = _ ++ cause.Error
      congr 1
    · exact ⟨"JSONファイル \x27".data,
        ("\x27 のパース中にエラーが発生しました: " ++ cause.Error).data, rfl⟩
    · unfold ktreport.main processJsonTestResults
      simp only [h1, h2]
    · intro hc c hmem
      have e : ("エラー: " ++ GoError.Error (.mk ("JSONファイル \x27"
            ++ "build/test-results/ktreport.json"
            ++ "\x27 のパース中にエラーが発生しました: " ++ cause.Error) (some cause))).data
          = "エラー: ".data
            ++ ("JSONファイル \x27build/test-results/ktreport.json\x27 のパース中にエラーが発生しました: ".data
              ++ cause.Error.data) := rfl
      rw [e] at hmem
      rcases List.mem_append.1 hmem with hm | hm
      · exact hlit _ (by simp) c hm
      · rcases List.mem_append.1 hm with hm | hm
        · exact hlit _ (by simp) c hm
        · exact hc c hm

/-- C14 witness: a missing file, and a file whose content does not decode. -/
theorem main_load_error_witness :
    (∃ err : GoError, processJsonTestResults missingFile rejectAll = .error err ∧
      ktreport.main insertionSorter 7 missingFile rejectAll
        = some ("エラー: " ++ err.Error ++ "\n")) ∧
    ktreport.main insertionSorter 7 missingFile rejectAll
      = some ("エラー: JSONファイル \x27build/test-results/ktreport.json\x27 "
          ++ "の読み込み中にエラーが発生しました: "
          ++ "open build/test-results/ktreport.json: no such file or directory\n") ∧
    ktreport.main insertionSorter 7 garbageFile rejectAll
      = some ("エラー: JSONファイル \x27build/test-results/ktreport.json\x27 "
          ++ "のパース中にエラーが発生しました: "
          ++ "invalid character \x27x\x27 looking for beginning of value\n") :=
  ⟨(main_load_error insertionSorter 7 missingFile rejectAll
      (.mk "open build/test-results/ktreport.json: no such file or directory" none)
      (Or.inl rfl)).imp (fun _ h => ⟨h.1, h.2.2.2.2.1⟩),
    by decide, by decide⟩

/-! ## Results without a group -/

theorem aggregate_filter_nonempty (rs : List KtTestResult) (m : SpecMap) :
    (rs.filter (fun r => decide (r.SpecId ≠ ""))).foldl aggregateResult m
      = rs.foldl aggregateResult m := by
  induction rs generalizing m with
  | nil => rfl
  | cons r rs ih =>
    by_cases h : r.SpecId = ""
    · have e : aggregateResult m r = m := by
        rw [aggregateResult_eq, if_pos h]
      simp only [List.filter_cons, h, ne_eq, not_true_eq_false, decide_False, Bool.false_eq_true,
        if_false, List.foldl_cons, e]
      exact ih m
    · simp only [List.filter_cons, h, ne_eq, not_false_eq_true, decide_True, if_true,
        List.foldl_cons]
      exact ih _

theorem groupKeys_filter_nonempty (rs : List KtTestResult) :
    groupKeys (rs.filter (fun r => decide (r.SpecId ≠ ""))) = groupKeys rs := by
  induction rs with
  | nil => rfl
  | cons r rs ih =>
    by_cases h : r.SpecId = ""
    · rw [groupKeys_cons, if_pos h, ← ih]
      simp [List.filter_cons, h]
    · have e : (r :: rs).filter (fun r => decide (r.SpecId ≠ ""))
          = r :: rs.filter (fun r => decide (r.SpecId ≠ "")) := by
        simp [List.filter_cons, h]
      rw [e, groupKeys_cons, groupKeys_cons, if_neg h, if_neg h, ih]

theorem groupMembers_filter_nonempty (g : String) (hg : g ≠ "") (rs : List KtTestResult) :
    groupMembers g (rs.filter (fun r => decide (r.SpecId ≠ ""))) = groupMembers g rs := by
  unfold groupMembers
  rw [List.filter_filter]
  apply List.filter_congr
  intro r _
  by_cases h : r.SpecId = g
  · have h2 : r.SpecId ≠ "" := by
      rw [h]
      exact hg
    simp [h, hg]
  · simp [h]

theorem mem_groupKeys_ne_empty (rs : List KtTestResult) (g : String) (hg : g ∈ groupKeys rs) :
    g ≠ "" := by
  unfold groupKeys at hg
  simp only [List.mem_filter, decide_eq_true_eq] at hg
  exact hg.2

/-- C15: the output of displayResultsBySpecId on a result sequence equals its output on the
sequence with all results whose SpecId is empty removed; such results also leave the map
of the aggregation pass unchanged (they add to no count, glyph or duration), and the
sequence of non-empty SpecIds, on which the group changes are detected, is the same. -/
theorem displayResultsBySpecId_ignores_empty (rs : List KtTestResult) :
    displayResultsBySpecId rs
      = displayResultsBySpecId (rs.filter (fun r => decide (r.SpecId ≠ ""))) ∧
    (rs.filter (fun r => decide (r.SpecId ≠ ""))).foldl aggregateResult []
      = rs.foldl aggregateResult [] ∧
    groupKeys (rs.filter (fun r => decide (r.SpecId ≠ ""))) = groupKeys rs := by
  refine ⟨?_, aggregate_filter_nonempty rs [], groupKeys_filter_nonempty rs⟩
  rw [displayResultsBySpecId_eq, displayResultsBySpecId_eq, groupKeys_filter_nonempty]
  congr 2
  apply List.map_congr_left
  intro g hg
  have hne : g ≠ "" :=
    mem_groupKeys_ne_empty rs g ((List.destutter_sublist _ _).subset hg)
  rw [groupMembers_filter_nonempty g hne]

/-- C15 witness: the SpecIds A, empty, A, B print the same as the SpecIds A, A, B. -/
theorem displayResultsBySpecId_ignores_empty_witness :
    displayResultsBySpecId contiguousSample
      = displayResultsBySpecId
          [mkResult "t1" "A" "PASSED" 120 "" "" "", mkResult "t3" "A" "PASSED" 340 "boom" "" "",
            mkResult "t4" "B" "FAILED" 5 "" "" ""] :=
  (displayResultsBySpecId_ignores_empty contiguousSample).1.trans (by decide)

/-! ## The separator between failure blocks -/

theorem failureBlock_succ (L : Int) (n : Nat) (r : KtTestResult) :
    failureBlock L (n + 1) r = "\n***\n" ++ failureBlock L 0 r := by
  unfold failureBlock
  simp [String.append_assoc]

theorem foldl_failureBlock (L : Int) (rs : List KtTestResult) (n : Nat) (out : String) :
    (rs.enumFrom n).foldl (fun out ir => out ++ failureBlock L ir.1 ir.2) out
      = out ++ concatAll ((rs.enumFrom n).map (fun ir => failureBlock L ir.1 ir.2)) := by
  induction rs generalizing n out with
  | nil => simp [concatAll]
  | cons r rs ih =>
    simp only [List.enumFrom_cons, List.foldl_cons, List.map_cons, concatAll]
    rw [ih, String.append_assoc]

theorem concatAll_enumFrom_succ (L : Int) (rs : List KtTestResult) (n : Nat) :
    concatAll ((rs.enumFrom (n + 1)).map (fun ir => failureBlock L ir.1 ir.2))
      = concatAll (rs.map (fun r => "\n***\n" ++ failureBlock L 0 r)) := by
  induction rs generalizing n with
  | nil => rfl
  | cons r rs ih =>
    simp only [List.enumFrom_cons, List.map_cons, concatAll]
    rw [ih, failureBlock_succ]

theorem displayFailedResults_cons (L : Int) (r : KtTestResult) (rs : List KtTestResult) :
    displayFailedResults (r :: rs) L
      = failureBlock L 0 r ++ concatAll (rs.map (fun x => "\n***\n" ++ failureBlock L 0 x)) := by
  unfold displayFailedResults
  rw [List.enum, foldl_failureBlock]
  simp only [List.enumFrom_cons, List.map_cons, concatAll, String.empty_append]
  rw [concatAll_enumFrom_succ]

theorem displayFailedResults_one (L : Int) (r : KtTestResult) :
    displayFailedResults [r] L = failureBlock L 0 r := by
  rw [displayFailedResults_cons]
  simp [concatAll]

/-- C16: for non-empty lists xs and ys of failed results and every limit, the output of
displayFailedResults on xs ++ ys is its output on xs, then the separator "\n***\n", then
its output on ys.  The output for a first result followed by n - 1 others is the block of
the first result (without a separator) followed, for each of the others, by the separator
and its block: n - 1 separators in all. -/
theorem displayFailedResults_append (xs ys : List KtTestResult) (L : Int)
    (hxs : xs ≠ []) (hys : ys ≠ []) :
    displayFailedResults (xs ++ ys) L
      = displayFailedResults xs L ++ "\n***\n" ++ displayFailedResults ys L ∧
    (∀ (r : KtTestResult) (rs : List KtTestResult),
      displayFailedResults (r :: rs) L
        = displayFailedResults [r] L
          ++ concatAll (rs.map (fun x => "\n***\n" ++ displayFailedResults [x] L))) := by
  constructor
  · cases xs with
    | nil => exact absurd rfl hxs
    | cons x xs =>
      cases ys with
      | nil => exact absurd rfl hys
      | cons y ys =>
        rw [List.cons_append, displayFailedResults_cons, displayFailedResults_cons,
          displayFailedResults_cons, List.map_append, concatAll_append]
        simp only [List.map_cons, concatAll, String.append_assoc]
  · intro r rs
    rw [displayFailedResults_cons, displayFailedResults_one]
    have e : (fun x => "\n***\n" ++ displayFailedResults [x] L)
        = (fun x => "\n***\n" ++ failureBlock L 0 x) := by
      funext x
      rw [displayFailedResults_one]
    rw [e]

/-- C16 witness: two failed results and then one more. -/
theorem displayFailedResults_append_witness :
    displayFailedResults
        [mkResult "t1" "A" "FAILED" 1 "" "" "", mkResult "t2" "A" "FAILED" 2 "" "" "",
          mkResult "t3" "B" "FAILED" 3 "" "" ""] 7
      = "\n\x1b[1mt1\x1b[0m (0.001s)\n\n" ++ "\n***\n" ++ "\n\x1b[1mt2\x1b[0m (0.002s)\n\n"
        ++ "\n***\n" ++ "\n\x1b[1mt3\x1b[0m (0.003s)\n\n" :=
  (displayFailedResults_append
    [mkResult "t1" "A" "FAILED" 1 "" "" "", mkResult "t2" "A" "FAILED" 2 "" "" ""]
    [mkResult "t3" "B" "FAILED" 3 "" "" ""] 7 (by decide) (by decide)).1.trans (by decide)

/-! ## The counts of the aggregation pass -/

theorem specMap_mem_set (m : SpecMap) (k : String) (v : SpecResult) (e : String × SpecResult)
    (h : e ∈ m.set k v) : e = (k, v) ∨ e ∈ m := by
  induction m with
  | nil =>
    simp only [SpecMap.set, List.mem_singleton] at h
    exact Or.inl h
  | cons kv rest ih =>
    obtain ⟨k1, v1⟩ := kv
    by_cases hk : k1 = k
    · simp only [SpecMap.set, hk, if_true, List.mem_cons] at h
      rcases h with h | h
      · exact Or.inl h
      · exact Or.inr (List.mem_cons_of_mem _ h)
    · simp only [SpecMap.set, hk, if_false, List.mem_cons] at h
      rcases h with h | h
      · exact Or.inr (by rw [h]; exact List.mem_cons_self _ _)
      · rcases ih h with h2 | h2
        · exact Or.inl h2
        · exact Or.inr (List.mem_cons_of_mem _ h2)

theorem specMap_get_mem (m : SpecMap) (k : String) (v : SpecResult)
    (h : m.get k = some v) : (k, v) ∈ m := by
  induction m with
  | nil => simp [SpecMap.get] at h
  | cons kv rest ih =>
    obtain ⟨k1, v1⟩ := kv
    by_cases hk : k1 = k
    · simp only [SpecMap.get, hk, if_true, Option.some.injEq] at h
      rw [hk, h]
      exact List.mem_cons_self _ _
    · simp only [SpecMap.get, hk, if_false] at h
      exact List.mem_cons_of_mem _ (ih h)

theorem specMap_get_none (m : SpecMap) (k : String) (h : m.get k = none) :
    k ∉ m.map (fun e => e.1) := by
  induction m with
  | nil => simp
  | cons kv rest ih =>
    obtain ⟨k1, v1⟩ := kv
    by_cases hk : k1 = k
    · simp [SpecMap.get, hk] at h
    · simp only [SpecMap.get, hk, if_false] at h
      simp only [List.map_cons, List.mem_cons, not_or]
      exact ⟨fun e => hk e.symm, ih h⟩

theorem specMap_keys_set (m : SpecMap) (k : String) (v : SpecResult) :
    (m.set k v).map (fun e => e.1)
      = if (m.get k).isSome then m.map (fun e => e.1) else m.map (fun e => e.1) ++ [k] := by
  induction m with
  | nil => simp [SpecMap.set, SpecMap.get]
  | cons kv rest ih =>
    obtain ⟨k1, v1⟩ := kv
    by_cases hk : k1 = k
    · simp [SpecMap.set, SpecMap.get, hk]
    · simp only [SpecMap.set, SpecMap.get, hk, if_false, List.map_cons, ih]
      split <;> simp

theorem specMap_totalCount_set (m : SpecMap) (k : String) (v : SpecResult) :
    (m.set k v).totalCount
      = m.totalCount - ((m.get k).map (fun sr => sr.TestCount)).getD 0 + v.TestCount := by
  induction m with
  | nil => simp [SpecMap.set, SpecMap.get, SpecMap.totalCount]
  | cons kv rest ih =>
    obtain ⟨k1, v1⟩ := kv
    by_cases hk : k1 = k
    · simp only [SpecMap.set, SpecMap.get, SpecMap.totalCount, hk, if_true, List.map_cons,
        List.sum_cons, Option.map_some', Option.getD_some]
      omega
    · simp only [SpecMap.totalCount] at ih
      simp only [SpecMap.set, SpecMap.get, SpecMap.totalCount, hk, if_false, List.map_cons,
        List.sum_cons, ih]
      omega

theorem consistent_newSpecResult (k : String) : (newSpecResult k).Consistent := by
  simp [SpecResult.Consistent, newSpecResult]

theorem consistent_addMember (sr : SpecResult) (r : KtTestResult) (h : sr.Consistent) :
    (addMember sr r).Consistent := by
  obtain ⟨h1, h2, h3, h4⟩ := h
  unfold SpecResult.Consistent addMember
  by_cases hf : isFailed r = true
  · simp only [hf, if_true, List.length_append, List.length_singleton, List.count_append,
      List.count_singleton, beq_self_eq_true]
    have e : (("F" : String) == ".") = false := by decide
    simp only [e, Bool.false_eq_true, if_false]
    push_cast
    omega
  · simp only [hf, Bool.false_eq_true, if_false, List.length_append, List.length_singleton,
      List.count_append, List.count_singleton, beq_self_eq_true]
    have e : (("." : String) == "F") = false := by decide
    simp only [e, Bool.false_eq_true, if_false]
    push_cast
    omega

/-- The invariant of the aggregation pass. -/
theorem aggregate_invariant (rs : List KtTestResult) :
    (∀ e ∈ rs.foldl aggregateResult [], e.2.SpecId = e.1 ∧ e.1 ≠ "" ∧ e.2.Consistent) ∧
    ((rs.foldl aggregateResult []).map (fun e => e.1)).Nodup ∧
    (rs.foldl aggregateResult []).totalCount
      = ((rs.filter (fun r => decide (r.SpecId ≠ ""))).length : Int) := by
  have key : ∀ (rs : List KtTestResult) (m : SpecMap) (n : Int),
      ((∀ e ∈ m, e.2.SpecId = e.1 ∧ e.1 ≠ "" ∧ e.2.Consistent) ∧
        (m.map (fun e => e.1)).Nodup ∧ m.totalCount = n) →
      ((∀ e ∈ rs.foldl aggregateResult m, e.2.SpecId = e.1 ∧ e.1 ≠ "" ∧ e.2.Consistent) ∧
        ((rs.foldl aggregateResult m).map (fun e => e.1)).Nodup ∧
        (rs.foldl aggregateResult m).totalCount
          = n + ((rs.filter (fun r => decide (r.SpecId ≠ ""))).length : Int)) := by
    intro rs
    induction rs with
    | nil =>
      intro m n h
      simpa using h
    | cons r rs ih =>
      intro m n ⟨hall, hnodup, htotal⟩
      rw [List.foldl_cons, aggregateResult_eq]
      by_cases h : r.SpecId = ""
      · rw [if_pos h]
        have := ih m n ⟨hall, hnodup, htotal⟩
        simpa [List.filter_cons, h] using this
      · rw [if_neg h]
        have hstep := ih (m.set r.SpecId
            (addMember ((m.get r.SpecId).getD (newSpecResult r.SpecId)) r)) (n + 1) (by
          refine ⟨?_, ?_, ?_⟩
          · intro e he
            rcases specMap_mem_set _ _ _ _ he with he2 | he2
            · rw [he2]
              refine ⟨?_, h, ?_⟩
              · cases hget : m.get r.SpecId with
                | none => simp [addMember, newSpecResult]
                | some sr =>
                  have := (hall _ (specMap_get_mem m _ _ hget)).1
                  simpa [addMember] using this
              · apply consistent_addMember
                cases hget : m.get r.SpecId with
                | none => exact consistent_newSpecResult _
                | some sr => exact (hall _ (specMap_get_mem m _ _ hget)).2.2
            · exact hall e he2
          · rw [specMap_keys_set]
            cases hget : m.get r.SpecId with
            | none =>
              simp only [Option.isSome_none, Bool.false_eq_true, if_false]
              rw [List.nodup_append]
              refine ⟨hnodup, List.nodup_singleton _, ?_⟩
              intro a ha hb
              rw [List.mem_singleton] at hb
              rw [hb] at ha
              exact specMap_get_none m _ hget ha
            | some sr =>
              simpa using hnodup
          · rw [specMap_totalCount_set, htotal]
            cases hget : m.get r.SpecId with
            | none => simp [addMember, newSpecResult]
            | some sr =>
              simp only [Option.map_some', Option.getD_some, addMember]
              omega)
        obtain ⟨h1, h2, h3⟩ := hstep
        refine ⟨h1, h2, ?_⟩
        rw [h3]
        simp only [List.filter_cons, h, ne_eq, not_false_eq_true, decide_True, if_true,
          List.length_cons]
        push_cast
        omega
  have := key rs [] 0 ⟨by simp, by simp, by simp [SpecMap.totalCount]⟩
  simpa using this

/-- C17: after each processed result (that is, for every prefix of the results) every
SpecResult in the map of the aggregation pass has TestCount == PassCount + FailCount ==
len(Results), FailCount equal to the number of "F" entries and PassCount equal to the
number of "." entries; each group has one entry, stored under its own non-empty SpecId;
and the sum of TestCount over all groups is the number of processed results with a
non-empty SpecId. -/
theorem aggregateResult_counts (testResults : List KtTestResult) (n : Nat) :
    (∀ (k : String) (sr : SpecResult),
      (k, sr) ∈ (testResults.take n).foldl aggregateResult [] →
        sr.SpecId = k ∧ k ≠ "" ∧
        sr.TestCount = sr.PassCount + sr.FailCount ∧
        sr.TestCount = (sr.Results.length : Int) ∧
        sr.FailCount = ((sr.Results.count "F" : Nat) : Int) ∧
        sr.PassCount = ((sr.Results.count "." : Nat) : Int)) ∧
    (((testResults.take n).foldl aggregateResult []).map (fun e => e.1)).Nodup ∧
    (((testResults.take n).foldl aggregateResult []).map (fun e => e.2.TestCount)).sum
      = (((testResults.take n).filter (fun r => decide (r.SpecId ≠ ""))).length : Int) := by
  obtain ⟨h1, h2, h3⟩ := aggregate_invariant (testResults.take n)
  refine ⟨?_, h2, h3⟩
  intro k sr hmem
  obtain ⟨e1, e2, e3⟩ := h1 (k, sr) hmem
  exact ⟨e1, e2, e3⟩

/-- C17 witness: the map after all four results of the sample A, empty, A, B. -/
theorem aggregateResult_counts_witness :
    (contiguousSample.take 4).foldl aggregateResult []
      = [("A", { SpecId := "A", TestCount := 2, PassCount := 1, FailCount := 1,
                  Time := F64.fin 8286623314361713 (-54), Results := [".", "F"] }),
          ("B", { SpecId := "B", TestCount := 1, PassCount := 0, FailCount := 1,
                  Time := F64.fin 5764607523034235 (-60), Results := ["F"] })] ∧
    (((contiguousSample.take 4).foldl aggregateResult []).map (fun e => e.2.TestCount)).sum
      = (((contiguousSample.take 4).filter (fun r => decide (r.SpecId ≠ ""))).length : Int) :=
  ⟨by decide, (aggregateResult_counts contiguousSample 4).2.2⟩

/-! ## Accounting of the lines of a throwable -/

theorem printedOf_append (xs ys : List ThrowableEvent) :
    printedOf (xs ++ ys) = printedOf xs ++ printedOf ys := by
  induction xs with
  | nil => rfl
  | cons e es ih => cases e <;> simp [printedOf, ih]

theorem markersOf_append (xs ys : List ThrowableEvent) :
    markersOf (xs ++ ys) = markersOf xs ++ markersOf ys := by
  induction xs with
  | nil => rfl
  | cons e es ih => cases e <;> simp [markersOf, ih]

/-- The loop on events emits what the loop of the program prints. -/
theorem foldl_stackLineEvents_text (L : Int) (ls : List String) (c o : Int)
    (evs : List ThrowableEvent) :
    ls.foldl (stackLineStep L) (c, o, concatAll (evs.map ThrowableEvent.text))
      = ((ls.foldl (stackLineEvents L) (c, o, evs)).1,
          (ls.foldl (stackLineEvents L) (c, o, evs)).2.1,
          concatAll (((ls.foldl (stackLineEvents L) (c, o, evs)).2.2).map ThrowableEvent.text)) := by
  induction ls generalizing c o evs with
  | nil => rfl
  | cons l ls ih =>
    rw [List.foldl_cons, List.foldl_cons]
    by_cases h1 : (!strings.HasPrefix (strings.TrimSpace l) "at ") = true
    · by_cases h2 : 0 < o
      · have e1 : stackLineStep L (c, o, concatAll (evs.map ThrowableEvent.text)) l
            = (0, 0, concatAll ((evs ++ [ThrowableEvent.omitted o] ++ [ThrowableEvent.printed l]).map ThrowableEvent.text)) := by
          simp [stackLineStep, h1, h2, concatAll_append, concatAll, ThrowableEvent.text,
            String.append_assoc]
        have e2 : stackLineEvents L (c, o, evs) l
            = (0, 0, evs ++ [ThrowableEvent.omitted o] ++ [ThrowableEvent.printed l]) := by
          simp [stackLineEvents, h1, h2]
        rw [e1, e2, ih]
      · have e1 : stackLineStep L (c, o, concatAll (evs.map ThrowableEvent.text)) l
            = (0, 0, concatAll ((evs ++ [ThrowableEvent.printed l]).map ThrowableEvent.text)) := by
          simp [stackLineStep, h1, h2, concatAll_append, concatAll, ThrowableEvent.text]
        have e2 : stackLineEvents L (c, o, evs) l = (0, 0, evs ++ [ThrowableEvent.printed l]) := by
          simp [stackLineEvents, h1, h2]
        rw [e1, e2, ih]
    · by_cases h2 : c < L
      · have e1 : stackLineStep L (c, o, concatAll (evs.map ThrowableEvent.text)) l
            = (c + 1, o, concatAll ((evs ++ [ThrowableEvent.printed l]).map ThrowableEvent.text)) := by
          simp [stackLineStep, h1, h2, concatAll_append, concatAll, ThrowableEvent.text]
        have e2 : stackLineEvents L (c, o, evs) l = (c + 1, o, evs ++ [ThrowableEvent.printed l]) := by
          simp [stackLineEvents, h1, h2]
        rw [e1, e2, ih]
      · have e1 : stackLineStep L (c, o, concatAll (evs.map ThrowableEvent.text)) l
            = (c, o + 1, concatAll (evs.map ThrowableEvent.text)) := by
          simp [stackLineStep, h1, h2]
        have e2 : stackLineEvents L (c, o, evs) l = (c, o + 1, evs) := by
          simp [stackLineEvents, h1, h2]
        rw [e1, e2, ih]

theorem printThrowable_eq_events (throwable : String) (L : Int) :
    printThrowable throwable L
      = concatAll ((throwableEvents throwable L).map ThrowableEvent.text) := by
  unfold printThrowable throwableEvents
  by_cases h : (throwable != "") = true
  · rw [if_pos h, if_pos h]
    have e := foldl_stackLineEvents_text L (strings.SplitLines (strings.TrimSpace throwable))
      0 0 []
    simp only [List.map_nil, concatAll] at e
    simp only [e]
    split
    · simp [concatAll_append, concatAll, ThrowableEvent.text]
    · rfl
  · rw [if_neg h, if_neg h]
    rfl

/-- The accounting invariant of the loop on events, from any state with a pending count
that is not negative. -/
theorem foldl_stackLineEvents_account (L : Int) (ls : List String) (c o : Int)
    (evs : List ThrowableEvent) (ho : 0 ≤ o) :
    ∃ more : List ThrowableEvent,
      (ls.foldl (stackLineEvents L) (c, o, evs)).2.2 = evs ++ more ∧
      0 ≤ (ls.foldl (stackLineEvents L) (c, o, evs)).2.1 ∧
      (printedOf more).Sublist ls ∧
      (ls.filter (fun l => !isFrameLine l)).Sublist (printedOf more) ∧
      (∀ k ∈ markersOf more, 1 ≤ k) ∧
      ((printedOf more).length : Int) + (markersOf more).sum
          + (ls.foldl (stackLineEvents L) (c, o, evs)).2.1
        = (ls.length : Int) + o := by
  induction ls generalizing c o evs with
  | nil =>
    refine ⟨[], by simp, by simpa using ho, ?_, ?_, ?_, ?_⟩ <;> simp [printedOf, markersOf]
  | cons l ls ih =>
    rw [List.foldl_cons]
    by_cases h1 : (!strings.HasPrefix (strings.TrimSpace l) "at ") = true
    · have hnf : (!isFrameLine l) = true := h1
      by_cases h2 : 0 < o
      · have e2 : stackLineEvents L (c, o, evs) l
            = (0, 0, evs ++ [ThrowableEvent.omitted o] ++ [ThrowableEvent.printed l]) := by
          simp [stackLineEvents, h1, h2]
        rw [e2]
        obtain ⟨more, m1, m2, m3, m4, m5, m6⟩ :=
          ih 0 0 (evs ++ [ThrowableEvent.omitted o] ++ [ThrowableEvent.printed l]) (le_refl 0)
        refine ⟨ThrowableEvent.omitted o :: ThrowableEvent.printed l :: more, ?_, m2, ?_, ?_, ?_, ?_⟩
        · rw [m1]
          simp
        · simpa [printedOf] using m3
        · simpa [printedOf, List.filter_cons, hnf] using m4
        · intro k hk
          simp only [List.cons_append, List.nil_append, markersOf, List.mem_cons] at hk
          rcases hk with hk | hk
          · omega
          · exact m5 k hk
        · simp only [List.cons_append, List.nil_append, printedOf, markersOf, List.length_cons,
            List.sum_cons]
          push_cast
          omega
      · have e2 : stackLineEvents L (c, o, evs) l = (0, 0, evs ++ [ThrowableEvent.printed l]) := by
          simp [stackLineEvents, h1, h2]
        rw [e2]
        obtain ⟨more, m1, m2, m3, m4, m5, m6⟩ := ih 0 0 (evs ++ [ThrowableEvent.printed l]) (le_refl 0)
        refine ⟨ThrowableEvent.printed l :: more, ?_, m2, ?_, ?_, ?_, ?_⟩
        · rw [m1]
          simp
        · simpa [printedOf] using m3
        · simpa [printedOf, List.filter_cons, hnf] using m4
        · intro k hk
          simp only [List.cons_append, List.nil_append, markersOf] at hk
          exact m5 k hk
        · simp only [List.cons_append, List.nil_append, printedOf, markersOf, List.length_cons]
          push_cast
          omega
    · have hf : (!isFrameLine l) = false := by
        simpa [isFrameLine] using h1
      by_cases h2 : c < L
      · have e2 : stackLineEvents L (c, o, evs) l = (c + 1, o, evs ++ [ThrowableEvent.printed l]) := by
          simp [stackLineEvents, h1, h2]
        rw [e2]
        obtain ⟨more, m1, m2, m3, m4, m5, m6⟩ := ih (c + 1) o (evs ++ [ThrowableEvent.printed l]) ho
        refine ⟨ThrowableEvent.printed l :: more, ?_, m2, ?_, ?_, ?_, ?_⟩
        · rw [m1]
          simp
        · simpa [printedOf] using m3
        · simp only [List.filter_cons, hf, Bool.false_eq_true, if_false, List.cons_append,
            List.nil_append, printedOf]
          exact m4.trans (List.sublist_cons_self _ _)
        · intro k hk
          simp only [List.cons_append, List.nil_append, markersOf] at hk
          exact m5 k hk
        · simp only [List.cons_append, List.nil_append, printedOf, markersOf, List.length_cons]
          push_cast
          omega
      · have e2 : stackLineEvents L (c, o, evs) l = (c, o + 1, evs) := by
          simp [stackLineEvents, h1, h2]
        rw [e2]
        obtain ⟨more, m1, m2, m3, m4, m5, m6⟩ := ih c (o + 1) evs (by omega)
        refine ⟨more, m1, m2, ?_, ?_, m5, ?_⟩
        · exact m3.trans (List.sublist_cons_self _ _)
        · simpa [List.filter_cons, hf] using m4
        · simp only [List.length_cons]
          push_cast
          omega

/-- C18: for every non-empty throwable and every integer limit, what the failure block
prints for the throwable is the text of a sequence of events (printed lines and omission
markers) such that the printed lines form a subsequence, in order, of the lines of the
trimmed throwable; the non-frame lines, in order and with their multiplicity, are among
the printed lines; every omission marker carries a count of at least 1; and the number of
printed lines plus the sum of the counts of the markers is the number of lines of the
trimmed throwable. -/
theorem printThrowable_accounting (throwable : String) (L : Int) (hne : throwable ≠ "") :
    printThrowable throwable L
      = concatAll ((throwableEvents throwable L).map ThrowableEvent.text) ∧
    (printedOf (throwableEvents throwable L)).Sublist
      (strings.SplitLines (strings.TrimSpace throwable)) ∧
    ((strings.SplitLines (strings.TrimSpace throwable)).filter
        (fun l => !strings.HasPrefix (strings.TrimSpace l) "at ")).Sublist
      (printedOf (throwableEvents throwable L)) ∧
    (∀ k ∈ markersOf (throwableEvents throwable L), 1 ≤ k) ∧
    ((printedOf (throwableEvents throwable L)).length : Int)
        + (markersOf (throwableEvents throwable L)).sum
      = ((strings.SplitLines (strings.TrimSpace throwable)).length : Int) := by
  refine ⟨printThrowable_eq_events throwable L, ?_⟩
  obtain ⟨more, m1, m2, m3, m4, m5, m6⟩ := foldl_stackLineEvents_account L
    (strings.SplitLines (strings.TrimSpace throwable)) 0 0 [] (le_refl 0)
  have hne2 : (throwable != "") = true := by simpa using hne
  have hev : throwableEvents throwable L
      = more ++ (if 0 < ((strings.SplitLines (strings.TrimSpace throwable)).foldl
            (stackLineEvents L) (0, 0, [])).2.1
          then [ThrowableEvent.omitted ((strings.SplitLines (strings.TrimSpace throwable)).foldl
            (stackLineEvents L) (0, 0, [])).2.1]
          else []) := by
    unfold throwableEvents
    rw [if_pos hne2]
    simp only [m1, List.nil_append]
    split <;> simp
  rw [hev]
  by_cases hpos : 0 < ((strings.SplitLines (strings.TrimSpace throwable)).foldl
      (stackLineEvents L) (0, 0, [])).2.1
  · rw [if_pos hpos, printedOf_append, markersOf_append]
    simp only [printedOf, markersOf, List.append_nil, List.sum_append, List.sum_cons,
      List.sum_nil, List.mem_append, List.mem_singleton]
    refine ⟨m3, m4, ?_, ?_⟩
    · intro k hk
      rcases hk with hk | hk
      · exact m5 k hk
      · omega
    · omega
  · rw [if_neg hpos, List.append_nil]
    refine ⟨m3, m4, m5, ?_⟩
    omega

/-- C18 witness: eight frames, a message line and eight frames with the limit 7. -/
theorem printThrowable_accounting_witness :
    throwableEvents twoRuns 7
      = [ThrowableEvent.printed "at a0", ThrowableEvent.printed " at a1", ThrowableEvent.printed " at a2", ThrowableEvent.printed " at a3",
          ThrowableEvent.printed " at a4", ThrowableEvent.printed " at a5", ThrowableEvent.printed " at a6", ThrowableEvent.omitted 1,
          ThrowableEvent.printed "Caused by: x",
          ThrowableEvent.printed " at b0", ThrowableEvent.printed " at b1", ThrowableEvent.printed " at b2", ThrowableEvent.printed " at b3",
          ThrowableEvent.printed " at b4", ThrowableEvent.printed " at b5", ThrowableEvent.printed " at b6", ThrowableEvent.omitted 1] ∧
    ((printedOf (throwableEvents twoRuns 7)).length : Int)
        + (markersOf (throwableEvents twoRuns 7)).sum
      = ((strings.SplitLines (strings.TrimSpace twoRuns)).length : Int) :=
  ⟨by decide, (printThrowable_accounting twoRuns 7 (by decide)).2.2.2.2⟩

/-! ## Sorting twice -/

theorem pairwise_uniqueId_le (S : SliceSorter) (report : KtTestReport) :
    List.Pairwise (fun a b : String => a ≤ b)
      ((sortTestResultsByUniqueId S report).TestResults.map (fun r => r.UniqueId)) := by
  rw [List.pairwise_map]
  refine List.Pairwise.imp ?_ (sortTestResultsByUniqueId_pairwise S report)
  intro a b h
  exact not_lt.1 h

/-- Sorting twice, from the contract of sort.Slice alone: for every sorter that meets the
contract and every report, sorting twice gives a permutation of the once-sorted TestResults
with the same sequence of UniqueIds, and leaves the other fields as they are; when no two
results of the report have the same UniqueId, and also when the sorter leaves a slice
without inversion as it is, sorting twice gives exactly the once-sorted sequence.  The
order in which the second sort leaves results of equal UniqueId is not fixed by the
contract. -/
theorem sortTestResultsByUniqueId_twice (S : SliceSorter) (report : KtTestReport) :
    (sortTestResultsByUniqueId S (sortTestResultsByUniqueId S report)).TestResults.Perm
      (sortTestResultsByUniqueId S report).TestResults ∧
    (sortTestResultsByUniqueId S (sortTestResultsByUniqueId S report)).TestResults.map
        (fun r => r.UniqueId)
      = (sortTestResultsByUniqueId S report).TestResults.map (fun r => r.UniqueId) ∧
    sortTestResultsByUniqueId S (sortTestResultsByUniqueId S report)
      = { sortTestResultsByUniqueId S report with
          TestResults :=
            (sortTestResultsByUniqueId S (sortTestResultsByUniqueId S report)).TestResults } ∧
    ((report.TestResults.map (fun r => r.UniqueId)).Nodup →
      (sortTestResultsByUniqueId S (sortTestResultsByUniqueId S report)).TestResults
        = (sortTestResultsByUniqueId S report).TestResults) ∧
    ((∀ l : List KtTestResult,
        l.Pairwise (fun a b => strings.Less b.UniqueId a.UniqueId = false) →
        S.sort (fun a b => strings.Less a.UniqueId b.UniqueId) l = l) →
      (sortTestResultsByUniqueId S (sortTestResultsByUniqueId S report)).TestResults
        = (sortTestResultsByUniqueId S report).TestResults) := by
  have hperm2 : (sortTestResultsByUniqueId S (sortTestResultsByUniqueId S report)).TestResults.Perm
      (sortTestResultsByUniqueId S report).TestResults := S.perm _ _
  have hperm1 : (sortTestResultsByUniqueId S report).TestResults.Perm report.TestResults :=
    S.perm _ _
  refine ⟨hperm2, ?_, rfl, ?_, ?_⟩
  · exact List.eq_of_perm_of_sorted (hperm2.map _)
      (pairwise_uniqueId_le S (sortTestResultsByUniqueId S report))
      (pairwise_uniqueId_le S report)
  rotate_left
  · intro hfix
    exact hfix _ (S.sorted (fun a b : KtTestResult => strings.Less a.UniqueId b.UniqueId)
      report.TestResults uniqueId_less_strictWeak.1 uniqueId_less_strictWeak.2.1
      uniqueId_less_strictWeak.2.2)
  · intro hnodup
    have hn1 : ((sortTestResultsByUniqueId S report).TestResults.map
        (fun r => r.UniqueId)).Nodup := (hperm1.map _).nodup_iff.2 hnodup
    have hn2 : ((sortTestResultsByUniqueId S
        (sortTestResultsByUniqueId S report)).TestResults.map (fun r => r.UniqueId)).Nodup :=
      (hperm2.map _).nodup_iff.2 hn1
    have strict : ∀ l : List KtTestResult,
        List.Pairwise (fun a b : KtTestResult => ¬ b.UniqueId < a.UniqueId) l →
        (l.map (fun r => r.UniqueId)).Nodup →
        List.Pairwise (fun a b : KtTestResult => a.UniqueId < b.UniqueId) l := by
      intro l h1 h2
      rw [List.Nodup, List.pairwise_map] at h2
      refine List.Pairwise.imp₂ ?_ h1 h2
      intro a b hab hne
      exact lt_of_le_of_ne (not_lt.1 hab) hne
    haveI : IsAntisymm KtTestResult (fun a b : KtTestResult => a.UniqueId < b.UniqueId) :=
      ⟨fun a b hab hba => absurd hab (lt_asymm hba)⟩
    exact List.eq_of_perm_of_sorted hperm2
      (strict _ (sortTestResultsByUniqueId_pairwise S (sortTestResultsByUniqueId S report)) hn2)
      (strict _ (sortTestResultsByUniqueId_pairwise S report) hn1)

/-- The insertion sorter on the sample report, whose UniqueIds are distinct. -/
theorem sortTestResultsByUniqueId_twice_witness :
    (sortTestResultsByUniqueId insertionSorter
        (sortTestResultsByUniqueId insertionSorter sampleReport)).TestResults
      = (sortTestResultsByUniqueId insertionSorter sampleReport).TestResults :=
  (sortTestResultsByUniqueId_twice insertionSorter sampleReport).2.2.2.1 (by decide)

/-! ## float64: rounding errors -/

theorem bitLenAux_zero (fuel : Nat) : F64.bitLenAux fuel 0 = 0 := by
  cases fuel <;> simp [F64.bitLenAux]

theorem bitLenAux_bounds (fuel : Nat) :
    ∀ n : Nat, n ≤ fuel → 0 < n →
      2 ^ (F64.bitLenAux fuel n - 1) ≤ n ∧ n < 2 ^ F64.bitLenAux fuel n := by
  induction fuel with
  | zero =>
    intro n h1 h2
    omega
  | succ fuel ih =>
    intro n h1 h2
    have hn : n ≠ 0 := by omega
    simp only [F64.bitLenAux, hn, if_false, Nat.add_sub_cancel]
    by_cases h : n / 2 = 0
    · rw [h, bitLenAux_zero]
      have : n = 1 := by omega
      subst this
      simp
    · have h3 : 0 < n / 2 := Nat.pos_of_ne_zero h
      have h4 : n / 2 ≤ fuel := by omega
      obtain ⟨a, b⟩ := ih (n / 2) h4 h3
      have hb : 1 ≤ F64.bitLenAux fuel (n / 2) := by
        by_contra hc
        have : F64.bitLenAux fuel (n / 2) = 0 := by omega
        rw [this] at b
        simp at b
        omega
      have e : 2 ^ F64.bitLenAux fuel (n / 2) = 2 * 2 ^ (F64.bitLenAux fuel (n / 2) - 1) := by
        rw [← pow_succ']
        congr 1
        omega
      constructor
      · rw [e]
        omega
      · rw [pow_succ]
        omega

theorem bitLen_bounds (n : Nat) (h : 0 < n) :
    2 ^ (F64.bitLen n - 1) ≤ n ∧ n < 2 ^ F64.bitLen n :=
  bitLenAux_bounds n n (le_refl n) h

theorem scale_den_pos (n d : Nat) (e : Int) (hd : 0 < d) : 0 < (F64.scale n d e).2 := by
  unfold F64.scale
  split
  · exact Nat.mul_pos hd (pow_pos (by decide) _)
  · exact hd

theorem scale_ratio (n d : Nat) (e : Int) (hd : 0 < d) :
    ((F64.scale n d e).1 : ℚ) / ((F64.scale n d e).2 : ℚ) = (n : ℚ) / ((d : ℚ) * (2 : ℚ) ^ e) := by
  have hd' : (d : ℚ) ≠ 0 := by exact_mod_cast hd.ne'
  unfold F64.scale
  split
  · rename_i h
    have e1 : ((2 : ℚ) ^ e) = (2 : ℚ) ^ e.toNat := by
      rw [← zpow_natCast, Int.toNat_of_nonneg h]
    simp only [Nat.cast_mul, Nat.cast_pow, Nat.cast_ofNat, e1]
  · rename_i h
    have h' : e < 0 := by omega
    have e1 : ((2 : ℚ) ^ e) = ((2 : ℚ) ^ (-e).toNat)⁻¹ := by
      rw [← zpow_natCast, Int.toNat_of_nonneg (by omega), zpow_neg, inv_inv]
    simp only [Nat.cast_mul, Nat.cast_pow, Nat.cast_ofNat, e1]
    have h2 : ((2 : ℚ) ^ (-e).toNat) ≠ 0 := pow_ne_zero _ (by norm_num)
    field_simp

/-- Rounding of a quotient to the nearest integer, ties to even, is within one half. -/
theorem round_half_even_error (N D : Nat) (hD : 0 < D) :
    |((if D < 2 * (N % D) ∨ (2 * (N % D) = D ∧ N / D % 2 = 1) then N / D + 1 else N / D : Nat) : ℚ)
        - (N : ℚ) / (D : ℚ)| ≤ 1 / 2 := by
  have hD' : (0 : ℚ) < (D : ℚ) := by exact_mod_cast hD
  have hdiv : (N : ℚ) = (D : ℚ) * ((N / D : Nat) : ℚ) + ((N % D : Nat) : ℚ) := by
    exact_mod_cast (Nat.div_add_mod N D).symm
  have hmod : ((N % D : Nat) : ℚ) < (D : ℚ) := by exact_mod_cast Nat.mod_lt N hD
  have hmod0 : (0 : ℚ) ≤ ((N % D : Nat) : ℚ) := by positivity
  have hq : (N : ℚ) / (D : ℚ) = ((N / D : Nat) : ℚ) + ((N % D : Nat) : ℚ) / (D : ℚ) := by
    rw [hdiv]
    field_simp
    ring
  rw [hq]
  split
  · rename_i h
    have h2 : (D : ℚ) ≤ 2 * ((N % D : Nat) : ℚ) := by
      rcases h with h | h
      · exact_mod_cast h.le
      · exact_mod_cast h.1.ge
    rw [abs_le]
    push_cast
    constructor
    · have : ((N % D : Nat) : ℚ) / (D : ℚ) ≤ 1 := by
        rw [div_le_one hD']
        exact hmod.le
      linarith
    · have : (1 : ℚ) / 2 ≤ ((N % D : Nat) : ℚ) / (D : ℚ) := by
        rw [le_div_iff₀ hD']
        linarith
      linarith
  · rename_i h
    have h2 : 2 * ((N % D : Nat) : ℚ) ≤ (D : ℚ) := by
      have : 2 * (N % D) ≤ D := by
        by_contra hc
        exact h (Or.inl (by omega))
      exact_mod_cast this
    have h3 : (0 : ℚ) ≤ ((N % D : Nat) : ℚ) / (D : ℚ) := by positivity
    have h4 : ((N % D : Nat) : ℚ) / (D : ℚ) ≤ 1 / 2 := by
      rw [div_le_iff₀ hD']
      linarith
    rw [abs_le]
    constructor <;> linarith

theorem ofRatio_eq (neg : Bool) (n d : Nat) :
    F64.ofRatio neg n d
      = if n = 0 then F64.fin 0 0
        else if 972 ≤ F64.roundExp n d ∨ (F64.roundExp n d = 971 ∧ 2 ^ 53 ≤ F64.roundMant n d)
          then F64.inf neg
          else F64.fin (if neg then -(F64.roundMant n d : Int) else (F64.roundMant n d : Int))
            (F64.roundExp n d) := rfl

theorem fmt3_fin_eq (m e : Int) :
    F64.fmt3 (F64.fin m e)
      = (if m < 0 then "-" else "")
        ++ toString (F64.nearest (F64.scale (m.natAbs * 1000) 1 (-e)).1
            (F64.scale (m.natAbs * 1000) 1 (-e)).2 / 1000)
        ++ "."
        ++ F64.pad3 (F64.nearest (F64.scale (m.natAbs * 1000) 1 (-e)).1
            (F64.scale (m.natAbs * 1000) 1 (-e)).2 % 1000) := rfl

theorem nearest_error (N D : Nat) (hD : 0 < D) :
    |((F64.nearest N D : Nat) : ℚ) - (N : ℚ) / (D : ℚ)| ≤ 1 / 2 :=
  round_half_even_error N D hD

theorem two_zpow_pos (e : Int) : (0 : ℚ) < (2 : ℚ) ^ e := zpow_pos (by norm_num) e

/-- The exponent chosen for a quotient below `2 ^ p` is at most `p - 53`. -/
theorem roundExp_le (n d p : Nat) (hn : 0 < n) (hd : 0 < d)
    (hlt : (n : ℚ) / (d : ℚ) < (2 : ℚ) ^ p) : F64.roundExp n d ≤ (p : Int) - 53 := by
  have hd' : (0 : ℚ) < (d : ℚ) := by exact_mod_cast hd
  obtain ⟨hn1, _⟩ := bitLen_bounds n hn
  obtain ⟨_, hd2⟩ := bitLen_bounds d hd
  have hnd : (n : ℚ) < (d : ℚ) * (2 : ℚ) ^ p := by
    rwa [div_lt_iff₀ hd', mul_comm] at hlt
  -- the first candidate
  have h0 : (F64.bitLen n : Int) - (F64.bitLen d : Int) - 53 ≤ (p : Int) - 53 := by
    have h1 : 2 ^ (F64.bitLen n - 1) < 2 ^ (F64.bitLen d + p) := by
      have : n < d * 2 ^ p := by exact_mod_cast hnd
      calc 2 ^ (F64.bitLen n - 1) ≤ n := hn1
        _ < d * 2 ^ p := this
        _ < 2 ^ F64.bitLen d * 2 ^ p := Nat.mul_lt_mul_of_pos_right hd2 (pow_pos (by decide) _)
        _ = 2 ^ (F64.bitLen d + p) := (pow_add 2 _ _).symm
    have h2 := (Nat.pow_lt_pow_iff_right (by decide : 1 < 2)).1 h1
    omega
  unfold F64.roundExp
  apply max_le _ (by omega)
  split
  · exact h0
  · rename_i hq
    -- the quotient at the first candidate has at least 54 bits
    have hq' : 2 ^ 53 ≤ (F64.scale n d ((F64.bitLen n : Int) - (F64.bitLen d : Int) - 53)).1
        / (F64.scale n d ((F64.bitLen n : Int) - (F64.bitLen d : Int) - 53)).2 := by omega
    have hq2 : ((2 : ℚ) ^ (53 : Nat)) ≤ (n : ℚ) / ((d : ℚ) * (2 : ℚ) ^
        ((F64.bitLen n : Int) - (F64.bitLen d : Int) - 53)) := by
      rw [← scale_ratio n d _ hd]
      calc ((2 : ℚ) ^ (53 : Nat))
          = (((2 ^ 53 : Nat)) : ℚ) := by norm_num
        _ ≤ (((F64.scale n d ((F64.bitLen n : Int) - (F64.bitLen d : Int) - 53)).1
              / (F64.scale n d ((F64.bitLen n : Int) - (F64.bitLen d : Int) - 53)).2 : Nat) : ℚ) := by
            exact_mod_cast hq'
        _ ≤ _ := Nat.cast_div_le
    have hpos := two_zpow_pos ((F64.bitLen n : Int) - (F64.bitLen d : Int) - 53)
    have h3 : (2 : ℚ) ^ (53 : Nat) * (2 : ℚ) ^ ((F64.bitLen n : Int) - (F64.bitLen d : Int) - 53)
        ≤ (n : ℚ) / (d : ℚ) := by
      rw [le_div_iff₀ (mul_pos hd' hpos)] at hq2
      rw [le_div_iff₀ hd']
      calc _ = (2 : ℚ) ^ (53 : Nat) * ((d : ℚ) * (2 : ℚ) ^
            ((F64.bitLen n : Int) - (F64.bitLen d : Int) - 53)) := by ring
        _ ≤ _ := hq2
    have h4 : (2 : ℚ) ^ ((53 : Int) + ((F64.bitLen n : Int) - (F64.bitLen d : Int) - 53))
        < (2 : ℚ) ^ (p : Int) := by
      rw [zpow_add₀ (by norm_num : (2 : ℚ) ≠ 0)]
      calc _ = (2 : ℚ) ^ (53 : Nat) * (2 : ℚ) ^
            ((F64.bitLen n : Int) - (F64.bitLen d : Int) - 53) := by
              rw [show ((53 : Int)) = ((53 : Nat) : Int) from rfl, zpow_natCast]
        _ ≤ (n : ℚ) / (d : ℚ) := h3
        _ < (2 : ℚ) ^ p := hlt
        _ = (2 : ℚ) ^ (p : Int) := (zpow_natCast _ _).symm
    have h5 := (zpow_lt_zpow_iff_right₀ (by norm_num : (1 : ℚ) < 2)).1 h4
    omega

/-- Rounding a quotient below `2 ^ p` (with `p` below 1000) gives a finite value within
`2 ^ p / 2 ^ 54` of the quotient. -/
theorem ofRatio_error (n d p : Nat) (hd : 0 < d) (hp : p ≤ 1000)
    (hlt : (n : ℚ) / (d : ℚ) < (2 : ℚ) ^ p) :
    ∃ (m : Nat) (e : Int), F64.ofRatio false n d = F64.fin (m : Int) e ∧
      |(m : ℚ) * (2 : ℚ) ^ e - (n : ℚ) / (d : ℚ)| ≤ (2 : ℚ) ^ p / 2 ^ 54 := by
  by_cases hn : n = 0
  · refine ⟨0, 0, ?_, ?_⟩
    · rw [ofRatio_eq, if_pos hn]
      rfl
    · subst hn
      simp
      positivity
  · have hn' : 0 < n := Nat.pos_of_ne_zero hn
    have he := roundExp_le n d p hn' hd hlt
    refine ⟨F64.roundMant n d, F64.roundExp n d, ?_, ?_⟩
    · rw [ofRatio_eq, if_neg hn, if_neg (by omega)]
      rfl
    · have hD := scale_den_pos n d (F64.roundExp n d) hd
      have herr := nearest_error (F64.scale n d (F64.roundExp n d)).1
        (F64.scale n d (F64.roundExp n d)).2 hD
      rw [scale_ratio n d _ hd] at herr
      have hpos := two_zpow_pos (F64.roundExp n d)
      have hd' : (d : ℚ) ≠ 0 := by exact_mod_cast hd.ne'
      have e1 : (F64.roundMant n d : ℚ) * (2 : ℚ) ^ F64.roundExp n d - (n : ℚ) / (d : ℚ)
          = ((F64.roundMant n d : ℚ) - (n : ℚ) / ((d : ℚ) * (2 : ℚ) ^ F64.roundExp n d))
            * (2 : ℚ) ^ F64.roundExp n d := by
        field_simp
        ring
      rw [e1, abs_mul, abs_of_pos hpos]
      have h2 : (2 : ℚ) ^ F64.roundExp n d ≤ (2 : ℚ) ^ ((p : Int) - 53) :=
        zpow_le_zpow_right₀ (by norm_num) he
      have h3 : (2 : ℚ) ^ ((p : Int) - 53) = (2 : ℚ) ^ p / 2 ^ 53 := by
        rw [zpow_sub₀ (by norm_num : (2 : ℚ) ≠ 0), zpow_natCast]
        norm_num
      calc _ ≤ 1 / 2 * (2 : ℚ) ^ F64.roundExp n d :=
            mul_le_mul_of_nonneg_right herr hpos.le
        _ ≤ 1 / 2 * ((2 : ℚ) ^ p / 2 ^ 53) := by
            rw [← h3]
            exact mul_le_mul_of_nonneg_left h2 (by norm_num)
        _ = (2 : ℚ) ^ p / 2 ^ 54 := by
            field_simp
            ring

theorem ofRatio_hasValue (n d p : Nat) (hd : 0 < d) (hp : p ≤ 1000)
    (hlt : (n : ℚ) / (d : ℚ) < (2 : ℚ) ^ p) :
    ∃ v : ℚ, (F64.ofRatio false n d).HasValue v ∧
      |v - (n : ℚ) / (d : ℚ)| ≤ (2 : ℚ) ^ p / 2 ^ 54 := by
  obtain ⟨m, e, h1, h2⟩ := ofRatio_error n d p hd hp hlt
  exact ⟨(m : ℚ) * (2 : ℚ) ^ e, ⟨m, e, h1, rfl⟩, h2⟩

theorem nearest_den_one (N : Nat) : F64.nearest N 1 = N := by
  unfold F64.nearest
  simp [Nat.mod_one]

theorem scale_den_one (n : Nat) (e : Int) (he : e ≤ 0) : (F64.scale n 1 e).2 = 1 := by
  unfold F64.scale
  split
  · rename_i h
    have : e = 0 := by omega
    subst this
    simp
  · rfl

/-- The conversion of an integer below `2 ^ 53` is exact. -/
theorem ofInt_hasValue (a : Int) (h0 : 0 ≤ a) (h1 : a < 2 ^ 53) :
    (F64.ofInt a).HasValue (a : ℚ) := by
  obtain ⟨n, rfl⟩ := Int.eq_ofNat_of_zero_le h0
  have hneg : decide ((n : Int) < 0) = false := by simp
  have hn53 : n < 2 ^ 53 := by exact_mod_cast h1
  unfold F64.ofInt
  rw [hneg, Int.natAbs_ofNat]
  by_cases hn : n = 0
  · subst hn
    exact ⟨0, 0, rfl, by simp⟩
  · have hpos : 0 < n := Nat.pos_of_ne_zero hn
    have hlt : (n : ℚ) / ((1 : Nat) : ℚ) < (2 : ℚ) ^ (53 : Nat) := by
      rw [Nat.cast_one, div_one]
      exact_mod_cast hn53
    have he := roundExp_le n 1 53 hpos (by decide) hlt
    have he0 : F64.roundExp n 1 ≤ 0 := by omega
    refine ⟨F64.roundMant n 1, F64.roundExp n 1, ?_, ?_⟩
    · rw [ofRatio_eq, if_neg hn, if_neg (by omega)]
      rfl
    · have hden := scale_den_one n (F64.roundExp n 1) he0
      have hr := scale_ratio n 1 (F64.roundExp n 1) (by decide)
      rw [hden] at hr
      unfold F64.roundMant
      rw [hden, nearest_den_one]
      have hp2 := two_zpow_pos (F64.roundExp n 1)
      simp only [Nat.cast_one, div_one, one_mul] at hr
      rw [hr]
      field_simp

theorem divNat_hasValue (x : F64) (v : ℚ) (p : Nat) (hx : x.HasValue v) (hp : p ≤ 1000)
    (hlt : v / 1000 < (2 : ℚ) ^ p) :
    ∃ w : ℚ, (x.divNat 1000).HasValue w ∧ |w - v / 1000| ≤ (2 : ℚ) ^ p / 2 ^ 54 := by
  obtain ⟨m, e, rfl, hv⟩ := hx
  have hneg : decide ((m : Int) < 0) = false := by simp
  have hr := scale_ratio m 1000 (-e) (by decide)
  have hpos := two_zpow_pos e
  have hratio : ((F64.scale m 1000 (-e)).1 : ℚ) / ((F64.scale m 1000 (-e)).2 : ℚ) = v / 1000 := by
    rw [hr, ← hv, zpow_neg]
    field_simp
  have hD := scale_den_pos m 1000 (-e) (by decide)
  obtain ⟨w, hw, herr⟩ := ofRatio_hasValue (F64.scale m 1000 (-e)).1 (F64.scale m 1000 (-e)).2 p
    hD hp (by rw [hratio]; exact hlt)
  refine ⟨w, ?_, ?_⟩
  · show (F64.ofRatio (decide ((m : Int) < 0)) (F64.scale (m : Int).natAbs 1000 (-e)).1
      (F64.scale (m : Int).natAbs 1000 (-e)).2).HasValue w
    rw [hneg, Int.natAbs_ofNat]
    exact hw
  · rw [hratio] at herr
    exact herr

theorem add_hasValue (x y : F64) (v w : ℚ) (p : Nat) (hx : x.HasValue v) (hy : y.HasValue w)
    (hp : p ≤ 1000) (hlt : v + w < (2 : ℚ) ^ p) :
    ∃ z : ℚ, (x.add y).HasValue z ∧ |z - (v + w)| ≤ (2 : ℚ) ^ p / 2 ^ 54 := by
  obtain ⟨m1, e1, rfl, hv⟩ := hx
  obtain ⟨m2, e2, rfl, hw⟩ := hy
  have hk1 : ((e1 - min e1 e2).toNat : Int) = e1 - min e1 e2 :=
    Int.toNat_of_nonneg (by omega)
  have hk2 : ((e2 - min e1 e2).toNat : Int) = e2 - min e1 e2 :=
    Int.toNat_of_nonneg (by omega)
  have hs : (m1 : Int) * 2 ^ (e1 - min e1 e2).toNat + (m2 : Int) * 2 ^ (e2 - min e1 e2).toNat
      = ((m1 * 2 ^ (e1 - min e1 e2).toNat + m2 * 2 ^ (e2 - min e1 e2).toNat : Nat) : Int) := by
    push_cast
    rfl
  have hneg : decide (((m1 * 2 ^ (e1 - min e1 e2).toNat + m2 * 2 ^ (e2 - min e1 e2).toNat : Nat)
      : Int) < 0) = false :=
    decide_eq_false (not_lt.2 (Int.ofNat_nonneg _))
  have two_ne : (2 : ℚ) ≠ 0 := by norm_num
  have hr := scale_ratio (m1 * 2 ^ (e1 - min e1 e2).toNat + m2 * 2 ^ (e2 - min e1 e2).toNat) 1
    (-(min e1 e2)) (by decide)
  have hratio : ((F64.scale (m1 * 2 ^ (e1 - min e1 e2).toNat
        + m2 * 2 ^ (e2 - min e1 e2).toNat) 1 (-(min e1 e2))).1 : ℚ)
      / ((F64.scale (m1 * 2 ^ (e1 - min e1 e2).toNat
        + m2 * 2 ^ (e2 - min e1 e2).toNat) 1 (-(min e1 e2))).2 : ℚ) = v + w := by
    rw [hr, ← hv, ← hw]
    have a1 : (2 : ℚ) ^ e1 = (2 : ℚ) ^ (e1 - min e1 e2).toNat * (2 : ℚ) ^ (min e1 e2) := by
      rw [← zpow_natCast, hk1, ← zpow_add₀ two_ne]
      congr 1
      omega
    have a2 : (2 : ℚ) ^ e2 = (2 : ℚ) ^ (e2 - min e1 e2).toNat * (2 : ℚ) ^ (min e1 e2) := by
      rw [← zpow_natCast, hk2, ← zpow_add₀ two_ne]
      congr 1
      omega
    rw [a1, a2, zpow_neg]
    push_cast
    have hp2 := two_zpow_pos (min e1 e2)
    field_simp
    ring
  have hD := scale_den_pos (m1 * 2 ^ (e1 - min e1 e2).toNat + m2 * 2 ^ (e2 - min e1 e2).toNat) 1
    (-(min e1 e2)) (by decide)
  obtain ⟨z, hz, herr⟩ := ofRatio_hasValue _ _ p hD hp (by rw [hratio]; exact hlt)
  refine ⟨z, ?_, ?_⟩
  · show (F64.ofRatio
        (decide ((m1 : Int) * 2 ^ (e1 - min e1 e2).toNat
          + (m2 : Int) * 2 ^ (e2 - min e1 e2).toNat < 0))
        (F64.scale ((m1 : Int) * 2 ^ (e1 - min e1 e2).toNat
          + (m2 : Int) * 2 ^ (e2 - min e1 e2).toNat).natAbs 1 (-(min e1 e2))).1
        (F64.scale ((m1 : Int) * 2 ^ (e1 - min e1 e2).toNat
          + (m2 : Int) * 2 ^ (e2 - min e1 e2).toNat).natAbs 1 (-(min e1 e2))).2).HasValue z
    rw [hs, hneg, Int.natAbs_ofNat]
    exact hz
  · rw [hratio] at herr
    exact herr

theorem fmt3_of_hasValue (x : F64) (w : ℚ) (A : Nat) (hx : x.HasValue w)
    (hclose : |w * 1000 - (A : ℚ)| < 1 / 2) : F64.fmt3 x = decimalMillis A := by
  obtain ⟨m, e, rfl, hv⟩ := hx
  have hD := scale_den_pos (m * 1000) 1 (-e) (by decide)
  have herr := nearest_error (F64.scale (m * 1000) 1 (-e)).1 (F64.scale (m * 1000) 1 (-e)).2 hD
  have hr := scale_ratio (m * 1000) 1 (-e) (by decide)
  have hratio : ((F64.scale (m * 1000) 1 (-e)).1 : ℚ) / ((F64.scale (m * 1000) 1 (-e)).2 : ℚ)
      = w * 1000 := by
    rw [hr, ← hv, zpow_neg]
    push_cast
    have hp2 := two_zpow_pos e
    field_simp
    ring
  rw [hratio] at herr
  have ht : F64.nearest (F64.scale (m * 1000) 1 (-e)).1 (F64.scale (m * 1000) 1 (-e)).2 = A := by
    have h1 := abs_le.1 herr
    have h2 := abs_lt.1 hclose
    have h3 : ((F64.nearest (F64.scale (m * 1000) 1 (-e)).1
        (F64.scale (m * 1000) 1 (-e)).2 : Nat) : ℚ) < (A : ℚ) + 1 := by linarith
    have h4 : (A : ℚ) < ((F64.nearest (F64.scale (m * 1000) 1 (-e)).1
        (F64.scale (m * 1000) 1 (-e)).2 : Nat) : ℚ) + 1 := by linarith
    have h5 : F64.nearest (F64.scale (m * 1000) 1 (-e)).1 (F64.scale (m * 1000) 1 (-e)).2
        < A + 1 := by exact_mod_cast h3
    have h6 : A < F64.nearest (F64.scale (m * 1000) 1 (-e)).1 (F64.scale (m * 1000) 1 (-e)).2
        + 1 := by exact_mod_cast h4
    omega
  have hneg : ¬ ((m : Int) < 0) := not_lt.2 (Int.ofNat_nonneg _)
  rw [fmt3_fin_eq, if_neg hneg, Int.natAbs_ofNat, ht, String.empty_append]
  rfl

/-- The float64 sum of the seconds of the members stays within `(k + 2 n) * 2 ^ p / 2 ^ 54`
of the exact sum, when it starts within `k * 2 ^ p / 2 ^ 54`. -/
theorem foldl_add_hasValue (p : Nat) (hp : p ≤ 1000) (members : List KtTestResult) :
    ∀ (t : F64) (v : ℚ) (A0 : Int) (k : Nat), t.HasValue v → 0 ≤ A0 →
      |v - (A0 : ℚ) / 1000| ≤ (k : ℚ) * ((2 : ℚ) ^ p / 2 ^ 54) →
      (∀ r ∈ members, 0 ≤ r.DurationMs) →
      A0 + totalMs members < 1000 * 2 ^ p →
      ((k : ℚ) + 2 * (members.length : ℚ)) * ((2 : ℚ) ^ p / 2 ^ 54) ≤ 1 / 2000 →
      ∃ w : ℚ,
        (members.foldl (fun t r => t.add (secondsOfMs r.DurationMs)) t).HasValue w ∧
        |w - ((A0 + totalMs members : Int) : ℚ) / 1000|
          ≤ ((k : ℚ) + 2 * (members.length : ℚ)) * ((2 : ℚ) ^ p / 2 ^ 54) := by
  induction members with
  | nil =>
    intro t v A0 k ht _ hv _ _ _
    refine ⟨v, ht, ?_⟩
    simpa [totalMs] using hv
  | cons r rs ih =>
    intro t v A0 k ht hA0 hv hall htot hbound
    have hu : (0 : ℚ) < (2 : ℚ) ^ p / 2 ^ 54 := by positivity
    have ha0 : 0 ≤ r.DurationMs := hall r (List.mem_cons_self _ _)
    have hrest : ∀ x ∈ rs, 0 ≤ x.DurationMs := fun x hx => hall x (List.mem_cons_of_mem _ hx)
    have hrest0 : 0 ≤ totalMs rs := by
      unfold totalMs
      apply List.sum_nonneg
      intro a ha
      obtain ⟨x, hx, rfl⟩ := List.mem_map.1 ha
      exact hrest x hx
    have htot' : A0 + (r.DurationMs + totalMs rs) < 1000 * 2 ^ p := by
      simpa [totalMs] using htot
    have hlen : ((r :: rs).length : ℚ) = (rs.length : ℚ) + 1 := by
      simp
    rw [hlen] at hbound
    have hlen0 : (0 : ℚ) ≤ (rs.length : ℚ) := by positivity
    have hk0 : (0 : ℚ) ≤ (k : ℚ) := by positivity
    -- the single step is small
    have hu2 : 2 * ((2 : ℚ) ^ p / 2 ^ 54) ≤ 1 / 2000 := by
      have e8 : ((k : ℚ) + 2 * ((rs.length : ℚ) + 1)) * ((2 : ℚ) ^ p / 2 ^ 54)
          = 2 * ((2 : ℚ) ^ p / 2 ^ 54)
            + ((k : ℚ) + 2 * (rs.length : ℚ)) * ((2 : ℚ) ^ p / 2 ^ 54) := by ring
      have hpos3 : (0 : ℚ) ≤ ((k : ℚ) + 2 * (rs.length : ℚ)) * ((2 : ℚ) ^ p / 2 ^ 54) := by
        positivity
      linarith
    have hpow : (1000 : ℚ) * (2 : ℚ) ^ p < 2 ^ 53 := by
      have : (2 : ℚ) ^ p / 2 ^ 54 ≤ 1 / 4000 := by linarith
      rw [div_le_iff₀ (by positivity)] at this
      have e : (2 : ℚ) ^ 54 = 2 * 2 ^ 53 := by norm_num
      have hp53 : (0 : ℚ) < 2 ^ 53 := by positivity
      nlinarith
    have hAq : ((A0 + r.DurationMs : Int) : ℚ) ≤ 1000 * (2 : ℚ) ^ p - 1 := by
      have : A0 + r.DurationMs ≤ 1000 * 2 ^ p - 1 := by omega
      exact_mod_cast this
    have ha53 : r.DurationMs < 2 ^ 53 := by
      have h1 : ((r.DurationMs : Int) : ℚ) < 2 ^ 53 := by
        have h2 : ((r.DurationMs : Int) : ℚ) ≤ ((A0 + r.DurationMs : Int) : ℚ) := by
          exact_mod_cast (by omega : r.DurationMs ≤ A0 + r.DurationMs)
        linarith
      exact_mod_cast h1
    have haq0 : (0 : ℚ) ≤ ((r.DurationMs : Int) : ℚ) := by exact_mod_cast ha0
    have hA0q : (0 : ℚ) ≤ ((A0 : Int) : ℚ) := by exact_mod_cast hA0
    have hsplit : ((A0 + r.DurationMs : Int) : ℚ) = (A0 : ℚ) + (r.DurationMs : ℚ) := by
      push_cast
      rfl
    -- the seconds of the member
    have h1 := ofInt_hasValue r.DurationMs ha0 ha53
    obtain ⟨xv, hx, hxerr⟩ := divNat_hasValue (F64.ofInt r.DurationMs) _ p h1 hp (by
      rw [div_lt_iff₀ (by norm_num)]
      linarith)
    have hxe := abs_le.1 hxerr
    have hve := abs_le.1 hv
    -- the addition
    obtain ⟨z, hz, hzerr⟩ := add_hasValue t (secondsOfMs r.DurationMs) v xv p ht hx hp (by
      have e5 : ((k : ℚ) + 2 * ((rs.length : ℚ) + 1)) * ((2 : ℚ) ^ p / 2 ^ 54)
          = ((k : ℚ) + 1) * ((2 : ℚ) ^ p / 2 ^ 54)
            + (2 * (rs.length : ℚ) + 1) * ((2 : ℚ) ^ p / 2 ^ 54) := by ring
      have hpos2 : (0 : ℚ) ≤ (2 * (rs.length : ℚ) + 1) * ((2 : ℚ) ^ p / 2 ^ 54) := by
        positivity
      have hk1 : ((k : ℚ) + 1) * ((2 : ℚ) ^ p / 2 ^ 54) ≤ 1 / 2000 := by linarith
      have e6 : ((k : ℚ) + 1) * ((2 : ℚ) ^ p / 2 ^ 54)
          = (k : ℚ) * ((2 : ℚ) ^ p / 2 ^ 54) + (2 : ℚ) ^ p / 2 ^ 54 := by ring
      have hsum : v + xv ≤ ((A0 : ℚ) + (r.DurationMs : ℚ)) / 1000
          + ((k : ℚ) + 1) * ((2 : ℚ) ^ p / 2 ^ 54) := by
        have e7 : ((A0 : ℚ) + (r.DurationMs : ℚ)) / 1000
            = (A0 : ℚ) / 1000 + (r.DurationMs : ℚ) / 1000 := by ring
        rw [e7, e6]
        linarith [hve.2, hxe.2]
      have hAq' : ((A0 : ℚ) + (r.DurationMs : ℚ)) / 1000 ≤ (2 : ℚ) ^ p - 1 / 1000 := by
        rw [div_le_iff₀ (by norm_num)]
        rw [hsplit] at hAq
        linarith
      linarith)
    have hze := abs_le.1 hzerr
    have hstep : |z - ((A0 + r.DurationMs : Int) : ℚ) / 1000|
        ≤ ((k + 2 : Nat) : ℚ) * ((2 : ℚ) ^ p / 2 ^ 54) := by
      rw [hsplit, abs_le]
      push_cast
      have e3 : ((A0 : ℚ) + (r.DurationMs : ℚ)) / 1000
          = (A0 : ℚ) / 1000 + (r.DurationMs : ℚ) / 1000 := by ring
      have e4 : ((k : ℚ) + 2) * ((2 : ℚ) ^ p / 2 ^ 54)
          = (k : ℚ) * ((2 : ℚ) ^ p / 2 ^ 54) + 2 * ((2 : ℚ) ^ p / 2 ^ 54) := by ring
      rw [e3, e4]
      constructor <;> linarith [hze.1, hze.2, hve.1, hve.2, hxe.1, hxe.2]
    have hA1 : 0 ≤ A0 + r.DurationMs := by omega
    have htot2 : A0 + r.DurationMs + totalMs rs < 1000 * 2 ^ p := by
      rw [add_assoc]
      exact htot'
    have hbound2 : (((k + 2 : Nat) : ℚ) + 2 * (rs.length : ℚ)) * ((2 : ℚ) ^ p / 2 ^ 54)
        ≤ 1 / 2000 := by
      push_cast
      linarith
    obtain ⟨w, hw, hwerr⟩ := ih (t.add (secondsOfMs r.DurationMs)) z (A0 + r.DurationMs) (k + 2)
      hz hA1 hstep hrest htot2 hbound2
    refine ⟨w, ?_, ?_⟩
    · rw [List.foldl_cons]
      exact hw
    · have e1 : A0 + totalMs (r :: rs) = A0 + r.DurationMs + totalMs rs := by
        simp [totalMs]
        ring
      rw [e1, hlen]
      push_cast at hwerr ⊢
      have e2 : ((k : ℚ) + 2 + 2 * (rs.length : ℚ)) = (k : ℚ) + 2 * ((rs.length : ℚ) + 1) := by
        ring
      rw [← e2]
      exact hwerr

theorem hasValue_zero : (F64.fin 0 0).HasValue 0 :=
  ⟨0, 0, rfl, by simp⟩

/-- The printed sum of the seconds is the exact decimal rendering when the values are not
negative, their sum is below `1000 * 2 ^ p` and there are fewer than
`2 ^ 52 / (1000 * 2 ^ p)` of them. -/
theorem sumSeconds_exact (members : List KtTestResult) (p : Nat)
    (hnonneg : ∀ r ∈ members, 0 ≤ r.DurationMs)
    (htot : totalMs members < 1000 * 2 ^ p)
    (hlen : (members.length : Int) * 1000 * 2 ^ p < 2 ^ 52) :
    F64.fmt3 (sumSeconds members) = decimalMillis (totalMs members).toNat := by
  cases hm : members with
  | nil => rfl
  | cons r0 rs0 =>
    rw [← hm]
    have hlenpos : 1 ≤ (members.length : Int) := by
      rw [hm]
      simp
    have hpowpos : (0 : Int) < 2 ^ p := by positivity
    have hp52 : (2 : Int) ^ p < 2 ^ 52 := by nlinarith
    have hp : p ≤ 1000 := by
      have h1 : (2 : Nat) ^ p < 2 ^ 52 := by exact_mod_cast hp52
      have h2 := (Nat.pow_lt_pow_iff_right (by decide : 1 < 2)).1 h1
      omega
    have hlenq : ((members.length : ℚ)) * 1000 * (2 : ℚ) ^ p < 2 ^ 52 := by
      exact_mod_cast hlen
    have hu : (0 : ℚ) < (2 : ℚ) ^ p / 2 ^ 54 := by positivity
    have hscale : (members.length : ℚ) * 1000 * (2 : ℚ) ^ p
        = 2 ^ 53 * 1000 * ((0 + 2 * (members.length : ℚ)) * ((2 : ℚ) ^ p / 2 ^ 54)) := by
      field_simp
      ring
    have hbound : (((0 : Nat) : ℚ) + 2 * (members.length : ℚ)) * ((2 : ℚ) ^ p / 2 ^ 54)
        ≤ 1 / 2000 := by
      rw [Nat.cast_zero]
      have h53 : (0 : ℚ) < 2 ^ 53 * 1000 := by positivity
      rw [hscale] at hlenq
      rw [← mul_le_mul_left h53]
      have e : (2 : ℚ) ^ 53 * 1000 * (1 / 2000) = 2 ^ 52 := by norm_num
      rw [e]
      exact hlenq.le
    obtain ⟨w, hw, hwerr⟩ := foldl_add_hasValue p hp members (F64.fin 0 0) 0 0 0 hasValue_zero
      (le_refl 0) (by simp) hnonneg (by simpa using htot) hbound
    have htot0 : 0 ≤ totalMs members := by
      unfold totalMs
      apply List.sum_nonneg
      intro a ha
      obtain ⟨x, hx, rfl⟩ := List.mem_map.1 ha
      exact hnonneg x hx
    apply fmt3_of_hasValue _ w _ hw
    have hcast : (((totalMs members).toNat : Nat) : ℚ) = ((totalMs members : Int) : ℚ) := by
      have : (((totalMs members).toNat : Nat) : Int) = totalMs members :=
        Int.toNat_of_nonneg htot0
      exact_mod_cast this
    rw [hcast]
    simp only [zero_add, Nat.cast_zero] at hwerr
    have h1 := abs_le.1 hwerr
    have hstrict : (0 + 2 * (members.length : ℚ)) * ((2 : ℚ) ^ p / 2 ^ 54) * 1000 < 1 / 2 := by
      have h53 : (0 : ℚ) < 2 ^ 53 := by positivity
      rw [hscale] at hlenq
      rw [← mul_lt_mul_left h53]
      have e : (2 : ℚ) ^ 53 * (1 / 2) = 2 ^ 52 := by norm_num
      rw [e]
      linarith
    rw [zero_add] at hstrict
    have e2 : w * 1000 - ((totalMs members : Int) : ℚ)
        = (w - ((totalMs members : Int) : ℚ) / 1000) * 1000 := by ring
    rw [e2, abs_lt]
    constructor <;> linarith [h1.1, h1.2]

theorem pad3_length (n : Nat) : (F64.pad3 n).length = 3 := by
  have hd : ∀ d : Nat, d < 10 → (toString d).length = 1 := by decide
  unfold F64.pad3
  rw [String.length_append, String.length_append, hd _ (Nat.mod_lt _ (by decide)),
    hd _ (Nat.mod_lt _ (by decide)), hd _ (Nat.mod_lt _ (by decide))]

/-! ## The duration of a group -/

/-- C13 (as stated) fails: a group whose single member has DurationMs = 9000000000000001
prints "(9000000000000.002s)", while (sum of DurationMs) / 1000 is 9000000000000.001. -/
theorem groupDuration_counterexample :
    displayResultsBySpecId [mkResult "t1" "A" "PASSED" 9000000000000001 "" "" ""]
      = some "A \x1b[32m.\x1b[0m (9000000000000.002s)\n" ∧
    decimalMillis 9000000000000001 = "9000000000000.001" := by
  decide

/-- C13 (amended): every group rendered by displayResultsBySpecId is printed with the
float64 sum, accumulated over all its members in order, of float64(DurationMs) / 1000.0,
formatted with three decimals between "(" and "s)".  When the DurationMs of the members
of a group are not negative, their sum is below 1000 * 2 ^ p and the number of members
times 1000 * 2 ^ p is below 2 ^ 52 (for instance up to 1000 members and less than 2 ^ 32
seconds in total), the printed duration is the decimal rendering of
(sum of DurationMs) / 1000.  Every finite value is printed with a fraction of exactly
three digits. -/
theorem displayResultsBySpecId_duration (testResults : List KtTestResult) :
    displayResultsBySpecId testResults
      = some (concatAll ((List.destutter (fun a b => a ≠ b) (groupKeys testResults)).map
          (fun g => (g ++ " " ++ concatAll ((groupMembers g testResults).map glyphText))
            ++ (" (" ++ F64.fmt3 ((groupMembers g testResults).foldl
                (fun t r => t.add ((F64.ofInt r.DurationMs).divNat 1000)) (F64.fin 0 0))
              ++ "s)\n")))) ∧
    (∀ (g : String) (p : Nat),
      (∀ r ∈ groupMembers g testResults, 0 ≤ r.DurationMs) →
      totalMs (groupMembers g testResults) < 1000 * 2 ^ p →
      ((groupMembers g testResults).length : Int) * 1000 * 2 ^ p < 2 ^ 52 →
      F64.fmt3 ((groupMembers g testResults).foldl
          (fun t r => t.add ((F64.ofInt r.DurationMs).divNat 1000)) (F64.fin 0 0))
        = toString ((totalMs (groupMembers g testResults)).toNat / 1000) ++ "."
          ++ F64.pad3 ((totalMs (groupMembers g testResults)).toNat % 1000)) ∧
    (∀ m e : Int, ∃ k : Nat,
      F64.fmt3 (F64.fin m e)
        = (if m < 0 then "-" else "") ++ toString (k / 1000) ++ "." ++ F64.pad3 (k % 1000)) ∧
    (∀ n : Nat, (F64.pad3 n).length = 3) := by
  refine ⟨?_, ?_, fun m e => ⟨_, fmt3_fin_eq m e⟩, pad3_length⟩
  · rw [displayResultsBySpecId_eq]
    have e : (fun g => groupLine g (groupMembers g testResults))
        = (fun g => (g ++ " " ++ concatAll ((groupMembers g testResults).map glyphText))
            ++ (" (" ++ F64.fmt3 ((groupMembers g testResults).foldl
                (fun t r => t.add ((F64.ofInt r.DurationMs).divNat 1000)) (F64.fin 0 0))
              ++ "s)\n")) := by
      funext g
      unfold groupLine sumSeconds secondsOfMs
      simp only [String.append_assoc]
    rw [e]
  · intro g p h1 h2 h3
    exact sumSeconds_exact (groupMembers g testResults) p h1 h2 h3

/-- C13 witness: the members of the group A of the sample last 120 ms and 340 ms. -/
theorem displayResultsBySpecId_duration_witness :
    F64.fmt3 ((groupMembers "A" contiguousSample).foldl
        (fun t r => t.add ((F64.ofInt r.DurationMs).divNat 1000)) (F64.fin 0 0)) = "0.460" ∧
    displayResultsBySpecId contiguousSample
      = some ("A \x1b[32m.\x1b[0m\x1b[31mF\x1b[0m (0.460s)\n" ++ "B \x1b[31mF\x1b[0m (0.005s)\n") :=
  ⟨((displayResultsBySpecId_duration contiguousSample).2.1 "A" 10 (by decide) (by decide)
      (by decide)).trans (by decide),
    (displayResultsBySpecId_duration contiguousSample).1.trans (by decide)⟩
